import Mathlib

/-!
# goblockstore: block decomposition and storage (`parser.ParseBlock`, `parser.SaveToDatabase`)

A shallow embedding of `src/parser/parse.go`, `src/parser/types.go` and
`src/parser/sql.go`.

Conventions of the embedding

* Go unsigned integers (`uint32`, `uint64`) are natural numbers; where the source
  computes in a fixed width the wrap-around is written out (`u32sub`, `toInt64`).
* Go `int` is the 64-bit signed integer of the usual build targets.  Slice lengths
  and loop indices are far below `2^63`, so they are plain numbers.
* A nil-able pointer to a message is an `Option`; dereferencing `none` is a run-time
  panic, which aborts `ParseBlock` without any return value (`Except Panic`).  The
  block pointer handed to `ParseBlock` itself is not nil.
* A slice that the source tests against `nil` is an `Option (List _)`; the other
  slices are lists (a nil slice and an empty slice behave alike under `len` and
  `range`).  Elements of repeated message fields are never nil.
* `time.Time` is a number of Unix seconds; the reading of `time.Now()` is the
  parameter `now`.
* `float64` values are only copied, never computed with: they are represented by
  their IEEE-754 bit pattern, so that the Go zero value `0.0` is `0`.
* Iteration over a Go map visits the entries in an unspecified order: the order is
  the parameter `ord : MapOrder`, an arbitrary permutation per `range` statement.
* The storage handle of `SaveToDatabase` (`database/sql`) is the parameter
  `db : Storage`: the outcome of every call as a function of the calls made so
  far.  `SaveToDatabase` yields the calls it makes, in order, with its result.
* Go `error` values are represented by their message.
-/

set_option linter.dupNamespace false

namespace GoBlockStore

/-- A byte. -/
abbrev Byte := Fin 256

/-- Go `time.Time`, as Unix seconds. -/
abbrev Time := Int

/-- Go `float64`, as its bit pattern (zero value `0`). -/
abbrev Float64 := Nat

/-- Go `error` values, by their message. -/
abbrev GoError := String

/-- Run-time panics that abort a Go function without a return value. -/
inductive Panic where
  | nilPointerDereference
  | negativeRepeatCount
  | makeSliceLenOutOfRange
  deriving DecidableEq, Repr

/-- Dereference of a nil-able pointer: panics on nil. -/
def deref {α : Type} : Option α → Except Panic α
  | some a => Except.ok a
  | none => Except.error Panic.nilPointerDereference

/-- Subtraction of two `uint32` values: wraps around modulo `2^32`. -/
def u32sub (a b : Nat) : Nat := (a % 2 ^ 32 + 2 ^ 32 - b % 2 ^ 32) % 2 ^ 32

/-- Conversion to `int64` (two's complement): the representative of `n` modulo
`2^64` in `[-2^63, 2^63)`. -/
def toInt64 (n : Int) : Int := (n + 2 ^ 63) % 2 ^ 64 - 2 ^ 63

/-- Subtraction of two `int64` values: wraps around. -/
def int64sub (a b : Int) : Int := toInt64 (a - b)

/-- The loop `for _, x := range xs { rows = append(rows, f x...) }` whose body may
panic: the rows appended by each iteration, in order, or the first panic. -/
def forRange {α β : Type} (f : α → Except Panic (List β)) : List α → Except Panic (List β)
  | [] => Except.ok []
  | x :: xs =>
    match f x with
    | Except.error e => Except.error e
    | Except.ok ys =>
      match forRange f xs with
      | Except.error e => Except.error e
      | Except.ok zs => Except.ok (ys ++ zs)

/-! ## The base-58 codec -/

namespace base58

/-- Modelled from the spec: the codec is the third-party package
`github.com/mr-tron/base58`, which is not part of the sources; §4.3 fixes it as
"a base-58 alphabet (no padding, leading-zero-preserving)".  This is the
alphabet of that package (the Bitcoin alphabet). -/
def alphabet : List Char :=
  "123456789ABCDEFGHJKLMNPQRSTUVWXYZabcdefghijkmnopqrstuvwxyz".toList

/-- The character of a base-58 digit. -/
def digitChar (d : Nat) : Char := alphabet.getD d '1'

/-- The big-endian base-58 digits of `n` in front of `acc`; `fuel` bounds the
number of digits produced. -/
def digitsAux : Nat → Nat → List Nat → List Nat
  | 0, _, acc => acc
  | fuel + 1, n, acc => if n = 0 then acc else digitsAux fuel (n / 58) (n % 58 :: acc)

/-- The number a byte string denotes, big-endian. -/
def bytesToNat (b : List Byte) : Nat := b.foldl (fun acc x => acc * 256 + x.val) 0

/-- Modelled from the spec: `base58.Encode` of the third-party package, not part
of the sources.  One `1` per leading zero byte, then the base-58 digits of the
number the bytes denote (two digits per byte always suffice), no padding. -/
def Encode (b : List Byte) : String :=
  String.mk (List.replicate (b.takeWhile (fun x => x = 0)).length '1'
    ++ (digitsAux (2 * b.length) (bytesToNat b) []).map digitChar)

/-- The base-58 digit of a character (58 for a character outside the alphabet). -/
def digitOf (c : Char) : Nat := alphabet.indexOf c

/-- The number a list of base-58 digits denotes, big-endian. -/
def digitsToNat (ds : List Nat) : Nat := ds.foldl (fun acc d => acc * 58 + d) 0

/-- The big-endian bytes of `n` in front of `acc`, without a leading zero byte;
`fuel` bounds the number of bytes produced. -/
def bytesAux : Nat → Nat → List Byte → List Byte
  | 0, _, acc => acc
  | fuel + 1, n, acc =>
    if n = 0 then acc else bytesAux fuel (n / 256) (Fin.ofNat (n % 256) :: acc)

/-- Modelled from the spec: `base58.Decode` of the third-party package, not part
of the sources.  §4.3 and §8: `decode(text) → (bytes, error)` is the inverse of
`encode` on the strings of the alphabet ("no padding, leading-zero-preserving")
and "fails with `InvalidEncoding` on characters outside the alphabet".  One zero
byte per leading `1`, then the bytes of the number the digits denote (one byte
per character always suffices). -/
def Decode (s : String) : Except GoError (List Byte) :=
  if s.toList.all (fun c => decide (c ∈ alphabet)) then
    Except.ok (List.replicate (s.toList.takeWhile (fun c => c = '1')).length 0
      ++ bytesAux s.length (digitsToNat (s.toList.map digitOf)) [])
  else Except.error "InvalidEncoding"

end base58

/-! ## The source messages (package `pb`) -/

namespace pb

/-- Modelled from the spec: the generated message type `pb.MessageHeader` is not part
of the sources; the three `uint32` header counts of §6 that `ParseBlock` reads. -/
structure MessageHeader where
  NumRequiredSignatures : Nat := 0
  NumReadonlySignedAccounts : Nat := 0
  NumReadonlyUnsignedAccounts : Nat := 0
  deriving DecidableEq, Repr

/-- Modelled from the spec: the generated message type `pb.CompiledInstruction` is not
part of the sources; the fields `ParseBlock` reads (`ProgramIdIndex` is a `uint32`). -/
structure CompiledInstruction where
  ProgramIdIndex : Nat := 0
  Data : List Byte := []
  deriving DecidableEq, Repr

/-- Modelled from the spec: the generated message type `pb.UiTokenAmount` is not part
of the sources; the fields `ParseBlock` reads. -/
structure UiTokenAmount where
  UiAmount : Float64 := 0
  Decimals : Nat := 0
  Amount : String := ""
  deriving DecidableEq, Repr

/-- Modelled from the spec: the generated message type `pb.TokenBalance` is not part of
the sources; the fields `ParseBlock` reads (`AccountIndex` is a `uint32`,
`UiTokenAmount` a nil-able pointer). -/
structure TokenBalance where
  AccountIndex : Nat := 0
  Mint : String := ""
  UiTokenAmount : Option UiTokenAmount := none
  Owner : String := ""
  deriving DecidableEq, Repr

/-- Modelled from the spec: the generated message type `pb.Message` is not part of the
sources; the message block of §6 (header counts, account-key list, recent
blockhash, instruction list). -/
structure Message where
  Header : Option MessageHeader := none
  AccountKeys : Option (List (List Byte)) := none
  RecentBlockhash : Option (List Byte) := none
  Instructions : List CompiledInstruction := []
  deriving DecidableEq, Repr

/-- Modelled from the spec: the generated message type `pb.Transaction` is not part of
the sources; signature list and message. -/
structure Transaction where
  Signatures : List (List Byte) := []
  Message : Option Message := none
  deriving DecidableEq, Repr

/-- Modelled from the spec: the generated message type `pb.TransactionError` is not
part of the sources; the raw error payload. -/
structure TransactionError where
  Err : List Byte := []
  deriving DecidableEq, Repr

/-- Modelled from the spec: the generated message type `pb.TransactionStatusMeta` is
not part of the sources; the metadata block of §6 (fee, compute units, error,
balances, log lines, token balances). -/
structure TransactionStatusMeta where
  Err : Option TransactionError := none
  Fee : Nat := 0
  PreBalances : List Nat := []
  PostBalances : List Nat := []
  LogMessages : Option (List String) := none
  PreTokenBalances : Option (List TokenBalance) := none
  PostTokenBalances : List TokenBalance := []
  ComputeUnitsConsumed : Option Nat := none
  deriving DecidableEq, Repr

/-- Modelled from the spec: the generated message type
`pb.SubscribeUpdateTransactionInfo` is not part of the sources; vote flag,
transaction and metadata (both nil-able pointers). -/
structure SubscribeUpdateTransactionInfo where
  IsVote : Bool := false
  Transaction : Option Transaction := none
  Meta : Option TransactionStatusMeta := none
  deriving DecidableEq, Repr

/-- Modelled from the spec: the generated message type `pb.UnixTimestamp` is not part
of the sources. -/
structure UnixTimestamp where
  Timestamp : Int := 0
  deriving DecidableEq, Repr

/-- Modelled from the spec: the generated message type `pb.BlockHeight` is not part of
the sources. -/
structure BlockHeight where
  BlockHeight : Nat := 0
  deriving DecidableEq, Repr

/-- Modelled from the spec: the generated message type `pb.SubscribeUpdateBlock` is not
part of the sources; the block-update record of §6 with its nested transaction
list. -/
structure SubscribeUpdateBlock where
  Slot : Nat := 0
  Blockhash : String := ""
  BlockTime : Option UnixTimestamp := none
  BlockHeight : Option BlockHeight := none
  ParentSlot : Nat := 0
  ParentBlockhash : String := ""
  Transactions : Option (List SubscribeUpdateTransactionInfo) := none
  deriving DecidableEq, Repr

/-- Modelled from the spec: the generated nil-safe getter `GetTimestamp` is not part of
the sources; §4.1: "absence yields zero values, not an error". -/
def GetTimestamp : Option UnixTimestamp → Int
  | some t => t.Timestamp
  | none => 0

/-- Modelled from the spec: the generated nil-safe getter `GetBlockHeight` is not part
of the sources; §4.1: "absence yields zero values, not an error". -/
def GetBlockHeight : Option BlockHeight → Nat
  | some h => h.BlockHeight
  | none => 0

/-- Modelled from the spec: the generated getter `GetTransactions` is not part of the
sources; it hands out the (possibly nil) transaction slice. -/
def GetTransactions (block : SubscribeUpdateBlock) : Option (List SubscribeUpdateTransactionInfo) :=
  block.Transactions

end pb

/-! ## The row types (`src/parser/types.go`) -/

namespace parser

/-- The `Block` row. -/
structure Block where
  Slot : Nat := 0
  ParentSlot : Nat := 0
  BlockTime : Time := 0
  BlockHeight : Nat := 0
  Blockhash : String := ""
  PreviousBlockhash : String := ""
  TransactionCount : Nat := 0
  Successful : Bool := false
  UpdatedAt : Time := 0
  CreatedAt : Time := 0
  DeletedAt : Option Time := none
  deriving DecidableEq, Repr

/-- The `BlockReward` row (never produced: the code is commented out). -/
structure BlockReward where
  Slot : Nat := 0
  RewardIndex : Nat := 0
  Pubkey : String := ""
  Lamports : Int := 0
  PostBalance : Nat := 0
  RewardType : String := ""
  Commission : Option Int := none
  UpdatedAt : Time := 0
  CreatedAt : Time := 0
  DeletedAt : Option Time := none
  deriving DecidableEq, Repr

/-- The error payload of a transaction; `Data` holds the bytes of the Go string. -/
structure TransactionError where
  Data : List Byte := []
  deriving DecidableEq, Repr

/-- The `Transaction` row. -/
structure Transaction where
  Slot : Nat := 0
  TransactionIndex : Nat := 0
  BlockTime : Time := 0
  BlockHash : String := ""
  Fee : Nat := 0
  ComputeUnitsConsumed : Nat := 0
  ComputeUnitsPrice : Nat := 0
  Err : Option TransactionError := none
  ErrMessage : Option String := none
  ErrStack : Option String := none
  ErrInstructionIndex : Option Int := none
  ErrCustomCode : Option Int := none
  ErrCustomMessage : Option String := none
  Successful : Bool := false
  Version : String := ""
  RecentBlockhash : String := ""
  NumReadonlySignedAccounts : Nat := 0
  NumReadonlyUnsignedAccounts : Nat := 0
  NumRequiredSignatures : Nat := 0
  UpdatedAt : Time := 0
  CreatedAt : Time := 0
  DeletedAt : Option Time := none
  deriving DecidableEq, Repr

/-- The `Instruction` row. -/
structure Instruction where
  Slot : Nat := 0
  TransactionIndex : Nat := 0
  InstructionIndex : Nat := 0
  ProgramId : String := ""
  ProgramIdIndex : Nat := 0
  StackHeight : Int := 0
  Data : List Byte := []
  UpdatedAt : Time := 0
  CreatedAt : Time := 0
  DeletedAt : Option Time := none
  deriving DecidableEq, Repr

/-- The `TransactionLog` row. -/
structure TransactionLog where
  Slot : Nat := 0
  TransactionIndex : Nat := 0
  LogIndex : Nat := 0
  Log : String := ""
  Level : String := ""
  ProgramId : String := ""
  UpdatedAt : Time := 0
  CreatedAt : Time := 0
  DeletedAt : Option Time := none
  deriving DecidableEq, Repr

/-- The `TransactionAccount` row (`BalanceChange` is an `int64`). -/
structure TransactionAccount where
  Slot : Nat := 0
  TransactionIndex : Nat := 0
  AccountIndex : Nat := 0
  Pubkey : String := ""
  AccountAddress : String := ""
  IsSigner : Bool := false
  IsWritable : Bool := false
  PreBalance : Nat := 0
  PostBalance : Nat := 0
  BalanceChange : Int := 0
  Source : String := ""
  RentEpochChange : Int := 0
  UpdatedAt : Time := 0
  CreatedAt : Time := 0
  DeletedAt : Option Time := none
  deriving DecidableEq, Repr

/-- The `TransactionInnerInstruction` row (never produced). -/
structure TransactionInnerInstruction where
  Slot : Nat := 0
  SlotIndex : Nat := 0
  InstructionIndex : Nat := 0
  InnerInstructionIndex : Nat := 0
  ProgramId : String := ""
  ProgramIdIndex : Nat := 0
  Data : List Byte := []
  UpdatedAt : Time := 0
  CreatedAt : Time := 0
  DeletedAt : Option Time := none
  deriving DecidableEq, Repr

/-- The `TransactionTokenBalance` row. -/
structure TransactionTokenBalance where
  Slot : Nat := 0
  TransactionIndex : Nat := 0
  AccountIndex : Nat := 0
  Mint : String := ""
  Owner : String := ""
  UiTokenAmount : Float64 := 0
  Amount : String := ""
  Decimals : Nat := 0
  PreAmount : String := ""
  PreUiAmount : Float64 := 0
  PostAmount : String := ""
  PostUiAmount : Float64 := 0
  UpdatedAt : Time := 0
  CreatedAt : Time := 0
  DeletedAt : Option Time := none
  deriving DecidableEq, Repr

/-- The `TransactionSignature` row. -/
structure TransactionSignature where
  Signature : String := ""
  Slot : Nat := 0
  TransactionIndex : Nat := 0
  UpdatedAt : Time := 0
  CreatedAt : Time := 0
  DeletedAt : Option Time := none
  deriving DecidableEq, Repr

/-- The aggregate `ParsedBlock`: one block row and the row collections. -/
structure ParsedBlock where
  Block : Block := {}
  BlockRewards : List BlockReward := []
  Transactions : List Transaction := []
  TransactionLogs : List TransactionLog := []
  TransactionAccounts : List TransactionAccount := []
  TransactionInstructions : List Instruction := []
  TransactionInnerInstructions : List TransactionInnerInstruction := []
  TransactionTokenBalances : List TransactionTokenBalance := []
  TransactionSignatures : List TransactionSignature := []
  deriving DecidableEq, Repr


/-! ## Go maps keyed by account index -/

/-- The map type `map[int]*pb.TokenBalance`: its entries, no key twice. -/
abbrev TokenMap := List (Nat × pb.TokenBalance)

/-- The assignment `m[k] = v`: replaces the entry of `k`, or adds one. -/
def TokenMap.set : TokenMap → Nat → pb.TokenBalance → TokenMap
  | [], k, v => [(k, v)]
  | (k0, v0) :: rest, k, v =>
    if k0 = k then (k, v) :: rest else (k0, v0) :: TokenMap.set rest k v

/-- The lookup `v, exists := m[k]`. -/
def TokenMap.get? : TokenMap → Nat → Option pb.TokenBalance
  | [], _ => none
  | (k0, v0) :: rest, k => if k0 = k then some v0 else TokenMap.get? rest k

/-- The loop `for _, bal := range bals { m[int(bal.AccountIndex)] = bal }` on a
fresh map. -/
def buildMap (bals : List pb.TokenBalance) : TokenMap :=
  bals.foldl (fun m bal => TokenMap.set m bal.AccountIndex bal) []

/-- The order in which `range` visits the entries of a map: unspecified in Go, and
chosen anew by every `range` statement.  `range i post m` is the order of the
loop over the pre map (`post = false`) or the post map (`post = true`) of the
transaction at position `i`; it is some permutation of the entries. -/
structure MapOrder where
  range : Nat → Bool → TokenMap → TokenMap
  perm : ∀ (i : Nat) (post : Bool) (m : TokenMap), List.Perm (range i post m) m

/-- The order in which the entries were first inserted. -/
def MapOrder.insertion : MapOrder where
  range := fun _ _ m => m
  perm := fun _ _ m => List.Perm.refl m

/-- The reverse of the order in which the entries were first inserted. -/
def MapOrder.reversed : MapOrder where
  range := fun _ _ m => m.reverse
  perm := fun _ _ m => List.reverse_perm m

/-! ## `ParseBlock` (`src/parser/parse.go`) -/

/-- Lines 89-103, the loop body: the `Instruction` row of the instruction at
position `j` of the message. -/
def parseInstruction (now : Time) (slot i : Nat) (msg : pb.Message) (j : Nat)
    (inst : pb.CompiledInstruction) : Instruction :=
  let instruction : Instruction :=
    { Slot := slot
      TransactionIndex := i
      InstructionIndex := j
      ProgramIdIndex := inst.ProgramIdIndex
      Data := inst.Data
      CreatedAt := now
      UpdatedAt := now }
  match msg.AccountKeys with
  | some keys =>
    if h : inst.ProgramIdIndex < keys.length then
      { instruction with ProgramId := base58.Encode (keys.get ⟨inst.ProgramIdIndex, h⟩) }
    else instruction
  | none => instruction

/-- Lines 89-103: the rows appended to `TransactionInstructions`. -/
def parseInstructions (now : Time) (slot i : Nat) (msg : pb.Message) : List Instruction :=
  msg.Instructions.enum.map (fun p => parseInstruction now slot i msg p.1 p.2)

/-- Lines 108-129: the `TransactionAccount` row of the key at position `j`, once
`Header` has been dereferenced. -/
def parseAccountRow (now : Time) (slot i : Nat) (header : pb.MessageHeader)
    (m : pb.TransactionStatusMeta) (keys : List (List Byte)) (j : Nat) (key : List Byte) :
    TransactionAccount :=
  let account : TransactionAccount :=
    { Slot := slot
      TransactionIndex := i
      AccountIndex := j
      Pubkey := base58.Encode key
      AccountAddress := base58.Encode key
      IsSigner := decide (j < header.NumRequiredSignatures)
      IsWritable :=
        decide (j < u32sub header.NumRequiredSignatures header.NumReadonlySignedAccounts)
          || (decide (j ≥ header.NumRequiredSignatures)
              && decide ((j : Int) < (keys.length : Int) - (header.NumReadonlyUnsignedAccounts : Int)))
      CreatedAt := now
      UpdatedAt := now }
  let account : TransactionAccount :=
    if h : j < m.PreBalances.length then
      { account with PreBalance := m.PreBalances.get ⟨j, h⟩ }
    else account
  if h : j < m.PostBalances.length then
    let account : TransactionAccount := { account with PostBalance := m.PostBalances.get ⟨j, h⟩ }
    if account.PreBalance > 0 then
      { account with
        BalanceChange :=
          int64sub (toInt64 (account.PostBalance : Int)) (toInt64 (account.PreBalance : Int)) }
    else account
  else account

/-- Lines 108-131, the loop body: `Header` is dereferenced without a nil test
(lines 114-116), then the row is built and appended. -/
def parseAccount (now : Time) (slot i : Nat) (msg : pb.Message)
    (m : pb.TransactionStatusMeta) (keys : List (List Byte)) (j : Nat) (key : List Byte) :
    Except Panic TransactionAccount :=
  match deref msg.Header with
  | Except.error e => Except.error e
  | Except.ok header => Except.ok (parseAccountRow now slot i header m keys j key)

/-- Lines 106-133: the rows appended to `TransactionAccounts`. -/
def parseAccounts (now : Time) (slot i : Nat) (msg : pb.Message)
    (txMeta : Option pb.TransactionStatusMeta) : Except Panic (List TransactionAccount) :=
  match txMeta, msg.AccountKeys with
  | some m, some keys =>
    forRange (fun p => (parseAccount now slot i msg m keys p.1 p.2).map (fun a => [a])) keys.enum
  | _, _ => Except.ok []

/-- Lines 148-170, the loop body: the row of an entry of the pre map.
`UiTokenAmount` is dereferenced without a nil test, on the pre record and on the
post record. -/
def parsePreTokenBalance (now : Time) (slot i : Nat) (postBalMap : TokenMap)
    (idx : Nat) (preBal : pb.TokenBalance) : Except Panic TransactionTokenBalance :=
  match deref preBal.UiTokenAmount with
  | Except.error e => Except.error e
  | Except.ok preUi =>
    let tokenBal : TransactionTokenBalance :=
      { Slot := slot
        TransactionIndex := i
        AccountIndex := idx
        Mint := preBal.Mint
        Owner := preBal.Owner
        Decimals := preUi.Decimals
        PreAmount := preUi.Amount
        PreUiAmount := preUi.UiAmount
        CreatedAt := now
        UpdatedAt := now }
    match TokenMap.get? postBalMap idx with
    | some postBal =>
      match deref postBal.UiTokenAmount with
      | Except.error e => Except.error e
      | Except.ok postUi =>
        Except.ok
          { tokenBal with
            Amount := postUi.Amount
            UiTokenAmount := postUi.UiAmount
            PostAmount := postUi.Amount
            PostUiAmount := postUi.UiAmount }
    | none => Except.ok tokenBal

/-- Lines 173-191, the loop body: the row of an entry of the post map, if the pre
map has no entry for its key. -/
def parsePostTokenBalance (now : Time) (slot i : Nat) (preBalMap : TokenMap)
    (idx : Nat) (postBal : pb.TokenBalance) : Except Panic (List TransactionTokenBalance) :=
  match TokenMap.get? preBalMap idx with
  | some _ => Except.ok []
  | none =>
    match deref postBal.UiTokenAmount with
    | Except.error e => Except.error e
    | Except.ok postUi =>
      Except.ok
        [{ Slot := slot
           TransactionIndex := i
           AccountIndex := idx
           Mint := postBal.Mint
           Owner := postBal.Owner
           Amount := postUi.Amount
           UiTokenAmount := postUi.UiAmount
           Decimals := postUi.Decimals
           PostAmount := postUi.Amount
           PostUiAmount := postUi.UiAmount
           CreatedAt := now
           UpdatedAt := now }]

/-- Lines 136-192: the rows appended to `TransactionTokenBalances`. -/
def parseTokenBalances (now : Time) (ord : MapOrder) (slot i : Nat)
    (txMeta : Option pb.TransactionStatusMeta) : Except Panic (List TransactionTokenBalance) :=
  match txMeta with
  | none => Except.ok []
  | some m =>
    match m.PreTokenBalances with
    | none => Except.ok []
    | some preTokenBalances =>
      let preBalMap := buildMap preTokenBalances
      let postBalMap := buildMap m.PostTokenBalances
      match forRange (fun p => (parsePreTokenBalance now slot i postBalMap p.1 p.2).map (fun r => [r]))
          (ord.range i false preBalMap) with
      | Except.error e => Except.error e
      | Except.ok rows =>
        match forRange (fun p => parsePostTokenBalance now slot i preBalMap p.1 p.2)
            (ord.range i true postBalMap) with
        | Except.error e => Except.error e
        | Except.ok postRows => Except.ok (rows ++ postRows)

/-- Lines 196-206: the rows appended to `TransactionSignatures`. -/
def parseSignatures (now : Time) (slot i : Nat) (tx : pb.SubscribeUpdateTransactionInfo) :
    List TransactionSignature :=
  match tx.Transaction with
  | none => []
  | some t =>
    t.Signatures.map (fun sig =>
      { Signature := base58.Encode sig
        Slot := slot
        TransactionIndex := i
        CreatedAt := now
        UpdatedAt := now })

/-- Lines 210-224, the loop body: the `TransactionLog` row of the log line at
position `j`; `instructions` is `result.TransactionInstructions` at that
moment. -/
def parseLog (now : Time) (slot i : Nat) (instructions : List Instruction) (j : Nat)
    (log : String) : TransactionLog :=
  let txLog : TransactionLog :=
    { Slot := slot
      TransactionIndex := i
      LogIndex := j
      Log := log
      CreatedAt := now
      UpdatedAt := now }
  match instructions with
  | first :: _ => { txLog with ProgramId := first.ProgramId }
  | [] => txLog

/-- Lines 209-225: the rows appended to `TransactionLogs`. -/
def parseLogs (now : Time) (slot i : Nat) (instructions : List Instruction)
    (tx : pb.SubscribeUpdateTransactionInfo) : List TransactionLog :=
  match tx.Meta with
  | none => []
  | some m =>
    match m.LogMessages with
    | none => []
    | some logs => logs.enum.map (fun p => parseLog now slot i instructions p.1 p.2)

/-- Lines 57-86: the `Transaction` row.  `m` is `tx.Meta` dereferenced (line 62). -/
def parseTransactionRow (now blockTime : Time) (slot : Nat) (blockhash : String) (i : Nat)
    (tx : pb.SubscribeUpdateTransactionInfo) (m : pb.TransactionStatusMeta) : Transaction :=
  let transaction : Transaction :=
    { Slot := slot
      TransactionIndex := i
      BlockTime := blockTime
      BlockHash := blockhash
      Fee := m.Fee
      CreatedAt := now
      UpdatedAt := now
      Successful := m.Err.isNone }
  let transaction : Transaction :=
    match tx.Meta with
    | none => transaction
    | some m1 =>
      let transaction : Transaction :=
        match m1.Err with
        | some e => { transaction with Err := some { Data := e.Err } }
        | none => transaction
      match m1.ComputeUnitsConsumed with
      | some c => { transaction with ComputeUnitsConsumed := c }
      | none => transaction
  match tx.Transaction with
  | none => transaction
  | some t =>
    match t.Message with
    | none => transaction
    | some msg =>
      let transaction : Transaction :=
        match msg.Header with
        | some header =>
          { transaction with
            NumRequiredSignatures := header.NumRequiredSignatures
            NumReadonlySignedAccounts := header.NumReadonlySignedAccounts
            NumReadonlyUnsignedAccounts := header.NumReadonlyUnsignedAccounts }
        | none => transaction
      match msg.RecentBlockhash with
      | some h => { transaction with RecentBlockhash := base58.Encode h }
      | none => transaction

/-- Lines 57-227: the body of the loop over the transactions, for a transaction
that is not a vote, at position `i`. -/
def parseTransaction (now : Time) (ord : MapOrder) (blockTime : Time) (result : ParsedBlock)
    (i : Nat) (tx : pb.SubscribeUpdateTransactionInfo) : Except Panic ParsedBlock :=
  match deref tx.Meta with
  | Except.error e => Except.error e
  | Except.ok m =>
    let transaction :=
      parseTransactionRow now blockTime result.Block.Slot result.Block.Blockhash i tx m
    let message : Option pb.Message :=
      match tx.Transaction with
      | none => none
      | some t => t.Message
    let step : Except Panic ParsedBlock :=
      match message with
      | none => Except.ok result
      | some msg =>
        let result : ParsedBlock :=
          { result with
            TransactionInstructions :=
              result.TransactionInstructions ++ parseInstructions now result.Block.Slot i msg }
        match parseAccounts now result.Block.Slot i msg tx.Meta with
        | Except.error e => Except.error e
        | Except.ok accounts =>
          let result : ParsedBlock :=
            { result with TransactionAccounts := result.TransactionAccounts ++ accounts }
          match parseTokenBalances now ord result.Block.Slot i tx.Meta with
          | Except.error e => Except.error e
          | Except.ok tokenBals =>
            Except.ok
              { result with
                TransactionTokenBalances := result.TransactionTokenBalances ++ tokenBals }
    match step with
    | Except.error e => Except.error e
    | Except.ok result =>
      let result : ParsedBlock :=
        { result with
          TransactionSignatures :=
            result.TransactionSignatures ++ parseSignatures now result.Block.Slot i tx }
      let result : ParsedBlock :=
        { result with
          TransactionLogs :=
            result.TransactionLogs
              ++ parseLogs now result.Block.Slot i result.TransactionInstructions tx }
      Except.ok { result with Transactions := result.Transactions ++ [transaction] }

/-- Lines 53-228: the loop `for i, tx := range txs`, from position `i` on. -/
def parseTransactions (now : Time) (ord : MapOrder) (blockTime : Time) :
    Nat → List pb.SubscribeUpdateTransactionInfo → ParsedBlock → Except Panic ParsedBlock
  | _, [], result => Except.ok result
  | i, tx :: rest, result =>
    if tx.IsVote then parseTransactions now ord blockTime (i + 1) rest result
    else
      match parseTransaction now ord blockTime result i tx with
      | Except.error e => Except.error e
      | Except.ok result1 => parseTransactions now ord blockTime (i + 1) rest result1

/-- Lines 13-27: the aggregate before the loop over the transactions. -/
def newResult (now : Time) (block : pb.SubscribeUpdateBlock) : ParsedBlock :=
  { Block :=
      { Slot := block.Slot
        Blockhash := block.Blockhash
        ParentSlot := block.ParentSlot
        PreviousBlockhash := block.ParentBlockhash
        BlockHeight := pb.GetBlockHeight block.BlockHeight
        BlockTime := pb.GetTimestamp block.BlockTime
        CreatedAt := now
        UpdatedAt := now } }

/-- Lines 231-232: the transaction count and the success flag of the block row. -/
def setBlockSummary (result : ParsedBlock) : ParsedBlock :=
  let result : ParsedBlock :=
    { result with Block := { result.Block with TransactionCount := result.Transactions.length } }
  { result with Block := { result.Block with Successful := true } }

/-- Lines 12-235: `ParseBlock` parses a block update into the aggregate.  The outcome
is a panic, or the returned pair of aggregate and error; the error is always nil
(line 234). -/
def ParseBlock (now : Time) (ord : MapOrder) (block : pb.SubscribeUpdateBlock) :
    Except Panic (ParsedBlock × Option GoError) :=
  let blockTime : Time := pb.GetTimestamp block.BlockTime
  let result : ParsedBlock := newResult now block
  let loop : Except Panic ParsedBlock :=
    match pb.GetTransactions block with
    | none => Except.ok result
    | some txs => parseTransactions now ord blockTime 0 txs result
  match loop with
  | Except.error e => Except.error e
  | Except.ok result => Except.ok (setBlockSummary result, none)

/-- Lines 245-247: `encodeBase58` encodes bytes to a base-58 string. -/
def encodeBase58 (b : List Byte) : String := base58.Encode b

/-- Lines 249-252: `decodeBase58` decodes a base58 string to bytes, or fails with the
error of the codec. -/
def decodeBase58 (s : String) : Except GoError (List Byte) := base58.Decode s

/-! ## Vocabulary of the statements -/

/-- The rows of a loop that did not panic (none after a panic). -/
def rowsOf {α : Type} : Except Panic (List α) → List α
  | Except.ok rows => rows
  | Except.error _ => []

/-- The transaction slice of the block update (a nil slice has no element). -/
def sourceTransactions (block : pb.SubscribeUpdateBlock) : List pb.SubscribeUpdateTransactionInfo :=
  (pb.GetTransactions block).getD []

/-- The transactions that are not votes, in source order, each with its position in
the slice (positions counted from `i`). -/
def nonVoteFrom (i : Nat) (txs : List pb.SubscribeUpdateTransactionInfo) :
    List (Nat × pb.SubscribeUpdateTransactionInfo) :=
  (txs.enumFrom i).filter (fun p => !p.2.IsVote)

/-- The message of a transaction, when `tx.Transaction` and its `Message` are both
present (the test of line 78). -/
def txMessage (tx : pb.SubscribeUpdateTransactionInfo) : Option pb.Message :=
  match tx.Transaction with
  | none => none
  | some t => t.Message

/-- The instruction rows one transaction contributes. -/
def txInstructions (now : Time) (slot i : Nat) (tx : pb.SubscribeUpdateTransactionInfo) :
    List Instruction :=
  match txMessage tx with
  | none => []
  | some msg => parseInstructions now slot i msg

/-- The account rows one transaction contributes, or the panic of their loop. -/
def txAccounts (now : Time) (slot i : Nat) (tx : pb.SubscribeUpdateTransactionInfo) :
    Except Panic (List TransactionAccount) :=
  match txMessage tx with
  | none => Except.ok []
  | some msg => parseAccounts now slot i msg tx.Meta

/-- The token-balance rows one transaction contributes, or the panic of their
loops. -/
def txTokenBalances (now : Time) (ord : MapOrder) (slot i : Nat)
    (tx : pb.SubscribeUpdateTransactionInfo) : Except Panic (List TransactionTokenBalance) :=
  match txMessage tx with
  | none => Except.ok []
  | some _ => parseTokenBalances now ord slot i tx.Meta

/-- The transaction row one transaction contributes. -/
def txRow (now blockTime : Time) (slot : Nat) (blockhash : String) (i : Nat)
    (tx : pb.SubscribeUpdateTransactionInfo) : List Transaction :=
  match tx.Meta with
  | none => []
  | some m => [parseTransactionRow now blockTime slot blockhash i tx m]

/-- The log rows the transactions from position `i` on contribute, when
`instructions` is the content of `TransactionInstructions` before them. -/
def logsFrom (now : Time) (slot : Nat) :
    Nat → List pb.SubscribeUpdateTransactionInfo → List Instruction → List TransactionLog
  | _, [], _ => []
  | i, tx :: rest, instructions =>
    if tx.IsVote then logsFrom now slot (i + 1) rest instructions
    else
      parseLogs now slot i (instructions ++ txInstructions now slot i tx) tx
        ++ logsFrom now slot (i + 1) rest (instructions ++ txInstructions now slot i tx)

/-- The transaction does not make the loop body panic: its metadata is present and
neither the account loop nor the token-balance loops dereference nil. -/
def txReturns (now : Time) (ord : MapOrder) (slot i : Nat)
    (tx : pb.SubscribeUpdateTransactionInfo) : Prop :=
  (∃ m, tx.Meta = some m) ∧ (∃ accounts, txAccounts now slot i tx = Except.ok accounts)
    ∧ (∃ tokenBals, txTokenBalances now ord slot i tx = Except.ok tokenBals)

/-- The aggregate `ParseBlock` returns, when it returns: the rows each transaction
that is not a vote contributes, in source order. -/
def aggregateOf (now : Time) (ord : MapOrder) (block : pb.SubscribeUpdateBlock) : ParsedBlock :=
  { Block :=
      { (newResult now block).Block with
        TransactionCount := (nonVoteFrom 0 (sourceTransactions block)).length
        Successful := true }
    Transactions := (nonVoteFrom 0 (sourceTransactions block)).flatMap (fun p =>
      txRow now (pb.GetTimestamp block.BlockTime) block.Slot block.Blockhash p.1 p.2)
    TransactionInstructions := (nonVoteFrom 0 (sourceTransactions block)).flatMap
      (fun p => txInstructions now block.Slot p.1 p.2)
    TransactionAccounts := (nonVoteFrom 0 (sourceTransactions block)).flatMap
      (fun p => rowsOf (txAccounts now block.Slot p.1 p.2))
    TransactionTokenBalances := (nonVoteFrom 0 (sourceTransactions block)).flatMap
      (fun p => rowsOf (txTokenBalances now ord block.Slot p.1 p.2))
    TransactionSignatures := (nonVoteFrom 0 (sourceTransactions block)).flatMap
      (fun p => parseSignatures now block.Slot p.1 p.2)
    TransactionLogs := logsFrom now block.Slot 0 (sourceTransactions block) [] }

/-- The number of instructions of a transaction (none without a message). -/
def instructionCount (tx : pb.SubscribeUpdateTransactionInfo) : Nat :=
  match txMessage tx with
  | none => 0
  | some msg => msg.Instructions.length

/-- The number of account keys of a transaction (none without a message). -/
def accountKeyCount (tx : pb.SubscribeUpdateTransactionInfo) : Nat :=
  match txMessage tx with
  | none => 0
  | some msg =>
    match msg.AccountKeys with
    | none => 0
    | some keys => keys.length

/-- The number of signatures of a transaction. -/
def signatureCount (tx : pb.SubscribeUpdateTransactionInfo) : Nat :=
  match tx.Transaction with
  | none => 0
  | some t => t.Signatures.length

/-- The record of account index `k` in a token-balance list: the last one, when the
list repeats the index (a later assignment to the map replaces an earlier one). -/
def lastWithIndex (bals : List pb.TokenBalance) (k : Nat) : Option pb.TokenBalance :=
  bals.reverse.find? (fun b => decide (b.AccountIndex = k))

/-- A transaction all of whose nil-able parts that `ParseBlock` dereferences are
present: the metadata, the header of the message (if there is a message) and the
`UiTokenAmount` of every token-balance record. -/
def completeTx (tx : pb.SubscribeUpdateTransactionInfo) : Bool :=
  match tx.Meta with
  | none => false
  | some m =>
    (match txMessage tx with
      | none => true
      | some msg => msg.Header.isSome)
    && (m.PreTokenBalances.getD []).all (fun b => b.UiTokenAmount.isSome)
    && m.PostTokenBalances.all (fun b => b.UiTokenAmount.isSome)

/-- A block update all of whose transactions that are not votes are complete. -/
def completeBlock (block : pb.SubscribeUpdateBlock) : Bool :=
  (sourceTransactions block).all (fun tx => tx.IsVote || completeTx tx)

/-! ## Sample inputs -/

/-- Metadata with balances, log lines and token balances. -/
def sampleMeta : pb.TransactionStatusMeta :=
  { Fee := 5000
    PreBalances := [10, 0, 8]
    PostBalances := [7, 3, 8, 1]
    LogMessages := some ["invoke", "success"]
    PreTokenBalances :=
      some [{ AccountIndex := 2, Mint := "mintA", Owner := "ownerA",
              UiTokenAmount := some { UiAmount := 1, Decimals := 6, Amount := "100" } },
            { AccountIndex := 3, Mint := "mintB", Owner := "ownerB",
              UiTokenAmount := some { UiAmount := 2, Decimals := 9, Amount := "200" } }]
    PostTokenBalances :=
      [{ AccountIndex := 3, Mint := "mintB", Owner := "ownerB",
         UiTokenAmount := some { UiAmount := 3, Decimals := 9, Amount := "150" } },
       { AccountIndex := 1, Mint := "mintC", Owner := "ownerC",
         UiTokenAmount := some { UiAmount := 4, Decimals := 2, Amount := "50" } }] }

/-- A message with 4 account keys, header counts 2, 1, 1 and two instructions, the
second with a program-id index beyond the account keys. -/
def sampleMessage : pb.Message :=
  { Header := some { NumRequiredSignatures := 2, NumReadonlySignedAccounts := 1,
                     NumReadonlyUnsignedAccounts := 1 }
    AccountKeys := some [[0, 1], [2], [3], [4]]
    Instructions := [{ ProgramIdIndex := 1, Data := [9] }, { ProgramIdIndex := 7, Data := [] }] }

/-- A transaction that is not a vote. -/
def sampleTx : pb.SubscribeUpdateTransactionInfo :=
  { IsVote := false
    Transaction := some { Signatures := [[1, 2], [3]], Message := some sampleMessage }
    Meta := some sampleMeta }

/-- A vote transaction. -/
def sampleVote : pb.SubscribeUpdateTransactionInfo :=
  { IsVote := true
    Transaction := some { Signatures := [[5]], Message := some sampleMessage }
    Meta := some sampleMeta }

/-- A block at slot 100 with two transactions, the first one a vote. -/
def voteFirstBlock : pb.SubscribeUpdateBlock :=
  { Slot := 100, Blockhash := "hash", Transactions := some [sampleVote, sampleTx] }

/-- A block at slot 100 with two transactions, the second one a vote. -/
def voteLastBlock : pb.SubscribeUpdateBlock :=
  { Slot := 100, Blockhash := "hash", Transactions := some [sampleTx, sampleVote] }

/-- A block whose only transaction has one account key and a header with more
read-only signed accounts (2) than required signatures (1). -/
def readonlyExcessBlock : pb.SubscribeUpdateBlock :=
  { Slot := 7
    Transactions :=
      some [{ IsVote := false
              Meta := some {}
              Transaction :=
                some { Message :=
                        some { Header := some { NumRequiredSignatures := 1,
                                                NumReadonlySignedAccounts := 2,
                                                NumReadonlyUnsignedAccounts := 1 }
                               AccountKeys := some [[1]] } } }] }

/-- A block whose only transaction has no pre-token-balance list and one
post-token-balance record, for account index 3. -/
def postOnlyBlock : pb.SubscribeUpdateBlock :=
  { Slot := 7
    Transactions :=
      some [{ IsVote := false
              Meta :=
                some { PreTokenBalances := none
                       PostTokenBalances :=
                         [{ AccountIndex := 3, Mint := "mintA", Owner := "ownerA",
                            UiTokenAmount := some { UiAmount := 1, Decimals := 6, Amount := "100" } }] }
              Transaction := some { Message := some {} } }] }

end parser

/-! ## String functions of the Go standard library -/

namespace strings

/-- The function `strings.Join`: the elements, with `sep` between neighbours. -/
def Join : List String → String → String
  | [], _ => ""
  | a :: rest, sep => rest.foldl (fun acc s => acc ++ sep ++ s) a

/-- The string `s` written `n` times. -/
def repeatN (s : String) : Nat → String
  | 0 => ""
  | n + 1 => repeatN s n ++ s

/-- The function `strings.Repeat`: panics on a negative count. -/
def Repeat (s : String) (count : Int) : Except Panic String :=
  if count < 0 then Except.error Panic.negativeRepeatCount
  else Except.ok (repeatN s count.toNat)

end strings

namespace parser

/-! ## The batch SQL projector and the persistence coordinator (`src/parser/sql.go`) -/

/-- Lines 10-25: `generateBatchInsertSQL` generates an SQL statement for batch
inserting multiple rows.  `make` panics on a negative length and `strings.Repeat`
on a negative count (an empty column list). -/
def generateBatchInsertSQL (table : String) (columns : List String) (numRows : Int) :
    Except Panic String :=
  let sql : String := "INSERT INTO " ++ table ++ " (" ++ strings.Join columns ", " ++ ") VALUES "
  if numRows < 0 then Except.error Panic.makeSliceLenOutOfRange
  else
    match strings.Repeat "?," ((columns.length : Int) - 1) with
    | Except.error e => Except.error e
    | Except.ok rep =>
      let singleRowPlaceholders : String := "(" ++ (rep ++ "?") ++ ")"
      let placeholders : List String := List.replicate numRows.toNat singleRowPlaceholders
      Except.ok (sql ++ strings.Join placeholders ",")

/-- A statement parameter (`interface{}`): the value of a row field, with its Go
type. -/
inductive Value where
  | uint64 (n : Nat)
  | uint32 (n : Nat)
  | int (n : Int)
  | bool (b : Bool)
  | string (s : String)
  | time (t : Time)
  | timePtr (t : Option Time)
  | stringPtr (s : Option String)
  | int64Ptr (n : Option Int)
  | transactionError (e : Option TransactionError)
  deriving DecidableEq, Repr

/-- A call on the storage handle or on the transaction it opened, with its outcome
(`none`: success). -/
inductive Event where
  | begin (err : Option GoError)
  | exec (sql : String) (args : List Value) (err : Option GoError)
  | commit (err : Option GoError)
  | rollback
  deriving DecidableEq, Repr

/-- The storage behind `*sql.DB`: the outcome of `Begin`, of every `Exec` and of
`Commit`, each as a function of the calls made before. -/
structure Storage where
  begin : Option GoError
  exec : List Event → String → List Value → Option GoError
  commit : List Event → Option GoError

/-- The call `tx.Exec(sql, args...)` after the calls `events`: the calls so far and
the error. -/
def Storage.Exec (db : Storage) (events : List Event) (sql : String) (args : List Value) :
    List Event × Option GoError :=
  (events ++ [Event.exec sql args (db.exec events sql args)], db.exec events sql args)

/-- The call `fmt.Errorf(prefix + ": %v", err)`: a new error, whose message is the
prefix followed by the message of `err`. -/
def errorf (pre : String) (err : GoError) : GoError := pre ++ ": " ++ err

/-- Lines 36-41: the statement of the block insert. -/
def blockInsertSQL : String :=
  "\n\t\tINSERT INTO blocks (\n\t\t\tslot, parent_slot, block_time, block_height, blockhash, \n\t\t\tprevious_blockhash, transaction_count, successful, \n\t\t\tupdated_at, created_at\n\t\t) VALUES (?, ?, FROM_UNIXTIME(?), ?, ?, ?, ?, ?, ?, ?)"

/-- Lines 42-51: the parameters of the block insert. -/
def blockValues (b : Block) : List Value :=
  [ Value.uint64 b.Slot
  , Value.uint64 b.ParentSlot
  , Value.time b.BlockTime
  , Value.uint64 b.BlockHeight
  , Value.string b.Blockhash
  , Value.string b.PreviousBlockhash
  , Value.int b.TransactionCount
  , Value.bool b.Successful
  , Value.time b.UpdatedAt
  , Value.time b.CreatedAt ]

/-- Lines 86-92: the columns of the transactions batch. -/
def transactionColumns : List String :=
  [ "slot", "transaction_index", "block_time", "block_hash", "fee"
  , "compute_units_consumed", "compute_units_price", "err", "err_message"
  , "err_stack", "err_instruction_index", "err_custom_code", "err_custom_message"
  , "successful", "version", "recent_blockhash", "num_readonly_signed_accounts"
  , "num_readonly_unsigned_accounts", "num_required_signatures", "updated_at", "created_at" ]

/-- Lines 97-119: the parameters one transaction row appends. -/
def transactionRowValues (tx : Transaction) : List Value :=
  [ Value.uint64 tx.Slot
  , Value.int tx.TransactionIndex
  , Value.time tx.BlockTime
  , Value.string tx.BlockHash
  , Value.uint64 tx.Fee
  , Value.uint64 tx.ComputeUnitsConsumed
  , Value.uint64 tx.ComputeUnitsPrice
  , Value.transactionError tx.Err
  , Value.stringPtr tx.ErrMessage
  , Value.stringPtr tx.ErrStack
  , Value.int64Ptr tx.ErrInstructionIndex
  , Value.int64Ptr tx.ErrCustomCode
  , Value.stringPtr tx.ErrCustomMessage
  , Value.bool tx.Successful
  , Value.string tx.Version
  , Value.string tx.RecentBlockhash
  , Value.uint32 tx.NumReadonlySignedAccounts
  , Value.uint32 tx.NumReadonlyUnsignedAccounts
  , Value.uint32 tx.NumRequiredSignatures
  , Value.time tx.UpdatedAt
  , Value.time tx.CreatedAt ]

/-- Lines 95-120: the flattened parameters of the transactions batch. -/
def transactionValues (rows : List Transaction) : List Value :=
  rows.flatMap transactionRowValues

/-- Line 130: the columns of the signatures batch. -/
def signatureColumns : List String :=
  ["signature", "slot", "transaction_index", "updated_at", "created_at"]

/-- Lines 135-141: the parameters one signature row appends. -/
def signatureRowValues (sig : TransactionSignature) : List Value :=
  [ Value.string sig.Signature
  , Value.uint64 sig.Slot
  , Value.int sig.TransactionIndex
  , Value.time sig.UpdatedAt
  , Value.time sig.CreatedAt ]

/-- Lines 133-142: the flattened parameters of the signatures batch. -/
def signatureValues (rows : List TransactionSignature) : List Value :=
  rows.flatMap signatureRowValues

/-- Lines 128-148 and 281-286: the signatures batch and the commit, after the calls
`events`. -/
def saveSignaturesAndCommit (db : Storage) (block : ParsedBlock) (events : List Event) :
    List Event × Except Panic (Option GoError) :=
  let commit (events : List Event) : List Event × Except Panic (Option GoError) :=
    match db.commit events with
    | some err =>
      (events ++ [Event.commit (some err)], Except.ok (some (errorf "error committing transaction" err)))
    | none => (events ++ [Event.commit none], Except.ok none)
  if block.TransactionSignatures.length > 0 then
    match generateBatchInsertSQL "transactions_signatures" signatureColumns
        (block.TransactionSignatures.length : Int) with
    | Except.error p => (events, Except.error p)
    | Except.ok sql =>
      match db.Exec events sql (signatureValues block.TransactionSignatures) with
      | (events, some err) =>
        (events, Except.ok (some (errorf "error batch inserting transaction signatures" err)))
      | (events, none) => commit events
  else commit events

/-- Lines 35-287: the body of `SaveToDatabase` after `Begin` succeeded, before the
deferred `Rollback`; `events` are the calls so far. -/
def saveInTransaction (db : Storage) (block : ParsedBlock) (events : List Event) :
    List Event × Except Panic (Option GoError) :=
  match db.Exec events blockInsertSQL (blockValues block.Block) with
  | (events, some err) => (events, Except.ok (some (errorf "error inserting block" err)))
  | (events, none) =>
    if block.Transactions.length > 0 then
      match generateBatchInsertSQL "transactions" transactionColumns
          (block.Transactions.length : Int) with
      | Except.error p => (events, Except.error p)
      | Except.ok sql =>
        match db.Exec events sql (transactionValues block.Transactions) with
        | (events, some err) =>
          (events, Except.ok (some (errorf "error batch inserting transactions" err)))
        | (events, none) => saveSignaturesAndCommit db block events
    else saveSignaturesAndCommit db block events

/-- Lines 28-287: `SaveToDatabase` saves a parsed block to the database.  The calls it
makes on the storage, in order, and its outcome: a panic, or the returned error
(`none`: nil).  The deferred `Rollback` runs when the function is left after a
successful `Begin`. -/
def SaveToDatabase (db : Storage) (block : ParsedBlock) :
    List Event × Except Panic (Option GoError) :=
  match db.begin with
  | some err => ([Event.begin (some err)], Except.ok (some (errorf "error starting transaction" err)))
  | none =>
    match saveInTransaction db block [Event.begin none] with
    | (events, result) => (events ++ [Event.rollback], result)

/-! ## Vocabulary of the statements about `sql.go` -/

/-- The number of placeholders (question marks) of a text. -/
def placeholderCount (s : String) : Nat := s.toList.count '?'

/-- One value group of `c` placeholders, as the specification words it: the
placeholders joined by commas, in parentheses. -/
def valueGroup (c : Nat) : String :=
  "(" ++ String.intercalate "," (List.replicate c "?") ++ ")"

/-- The VALUES part of a batch statement, as the specification words it: `r` value
groups of `c` placeholders, joined by commas. -/
def valuesPart (r c : Nat) : String :=
  String.intercalate "," (List.replicate r (valueGroup c))

/-- The field of a `Transaction` row with a given `db` tag (`types.go`, lines
72-95). -/
def Transaction.field (tag : String) (tx : Transaction) : Option Value :=
  if tag = "slot" then some (Value.uint64 tx.Slot)
  else if tag = "transaction_index" then some (Value.int tx.TransactionIndex)
  else if tag = "block_time" then some (Value.time tx.BlockTime)
  else if tag = "block_hash" then some (Value.string tx.BlockHash)
  else if tag = "fee" then some (Value.uint64 tx.Fee)
  else if tag = "compute_units_consumed" then some (Value.uint64 tx.ComputeUnitsConsumed)
  else if tag = "compute_units_price" then some (Value.uint64 tx.ComputeUnitsPrice)
  else if tag = "err" then some (Value.transactionError tx.Err)
  else if tag = "err_message" then some (Value.stringPtr tx.ErrMessage)
  else if tag = "err_stack" then some (Value.stringPtr tx.ErrStack)
  else if tag = "err_instruction_index" then some (Value.int64Ptr tx.ErrInstructionIndex)
  else if tag = "err_custom_code" then some (Value.int64Ptr tx.ErrCustomCode)
  else if tag = "err_custom_message" then some (Value.stringPtr tx.ErrCustomMessage)
  else if tag = "successful" then some (Value.bool tx.Successful)
  else if tag = "version" then some (Value.string tx.Version)
  else if tag = "recent_blockhash" then some (Value.string tx.RecentBlockhash)
  else if tag = "num_readonly_signed_accounts" then
    some (Value.uint32 tx.NumReadonlySignedAccounts)
  else if tag = "num_readonly_unsigned_accounts" then
    some (Value.uint32 tx.NumReadonlyUnsignedAccounts)
  else if tag = "num_required_signatures" then some (Value.uint32 tx.NumRequiredSignatures)
  else if tag = "updated_at" then some (Value.time tx.UpdatedAt)
  else if tag = "created_at" then some (Value.time tx.CreatedAt)
  else if tag = "deleted_at" then some (Value.timePtr tx.DeletedAt)
  else none

/-- The field of a `TransactionSignature` row with a given `db` tag (`types.go`, lines
177-184). -/
def TransactionSignature.field (tag : String) (sig : TransactionSignature) : Option Value :=
  if tag = "signature" then some (Value.string sig.Signature)
  else if tag = "slot" then some (Value.uint64 sig.Slot)
  else if tag = "transaction_index" then some (Value.int sig.TransactionIndex)
  else if tag = "updated_at" then some (Value.time sig.UpdatedAt)
  else if tag = "created_at" then some (Value.time sig.CreatedAt)
  else if tag = "deleted_at" then some (Value.timePtr sig.DeletedAt)
  else none

/-- The error of a call (`none`: the call succeeded; `Rollback` is not checked). -/
def Event.error : Event → Option GoError
  | Event.begin err => err
  | Event.exec _ _ err => err
  | Event.commit err => err
  | Event.rollback => none

/-- The statements a trace of calls executed with success, in order. -/
def executedStatements (events : List Event) : List (String × List Value) :=
  events.filterMap (fun ev =>
    match ev with
    | Event.exec sql args none => some (sql, args)
    | _ => none)

/-- The statement of a generated batch insert (empty after a panic). -/
def statementOf : Except Panic String → String
  | Except.ok sql => sql
  | Except.error _ => ""

/-- The inserts `SaveToDatabase` attempts for an aggregate, in order, each with the
description its failure is reported under: the block row, the transactions batch
if there is a transaction row, the signatures batch if there is a signature
row. -/
def batches (block : ParsedBlock) : List (String × String × List Value) :=
  [("error inserting block", blockInsertSQL, blockValues block.Block)]
    ++ (if block.Transactions.length > 0 then
          [("error batch inserting transactions",
            statementOf (generateBatchInsertSQL "transactions" transactionColumns
              (block.Transactions.length : Int)),
            transactionValues block.Transactions)]
        else [])
    ++ (if block.TransactionSignatures.length > 0 then
          [("error batch inserting transaction signatures",
            statementOf (generateBatchInsertSQL "transactions_signatures" signatureColumns
              (block.TransactionSignatures.length : Int)),
            signatureValues block.TransactionSignatures)]
        else [])

/-- Inserts executed one after the other until the first failure, then the commit. -/
def runBatches (db : Storage) :
    List Event → List (String × String × List Value) → List Event × Option GoError
  | events, [] =>
    match db.commit events with
    | some err => (events ++ [Event.commit (some err)], some (errorf "error committing transaction" err))
    | none => (events ++ [Event.commit none], none)
  | events, (pre, sql, args) :: rest =>
    match db.exec events sql args with
    | some err => (events ++ [Event.exec sql args (some err)], some (errorf pre err))
    | none => runBatches db (events ++ [Event.exec sql args none]) rest

/-- The state of the one transaction of a storage handle. -/
inductive TxStatus where
  | noTransaction
  | active
  | committed
  | rolledBack
  deriving DecidableEq, Repr

/-- Modelled from the spec: the storage is the package `database/sql` with its
server, not part of the sources; §4.5 gives its transaction as the state machine
`Begin → InsertBlock → InsertBatch → Commit`, any failure leading to `Rollback`,
with "no partial state ever left visible".  The state: the status of the
transaction, the statements executed in it and not yet committed, and the
statements whose rows are visible to readers. -/
structure StoreState where
  status : TxStatus := TxStatus.noTransaction
  pending : List (String × List Value) := []
  visible : List (String × List Value) := []
  deriving DecidableEq, Repr

/-- Modelled from the spec: the effect of one call on the storage (§4.5).  A
successful `Begin` opens the transaction; a successful `Exec` in it adds its
statement to the pending ones, a failed one adds nothing; a successful `Commit`
makes the pending statements visible; a failed `Commit` ends the transaction
with nothing made visible; `Rollback` discards the pending statements of an
active transaction and does nothing once the transaction has ended. -/
def StoreState.step (st : StoreState) : Event → StoreState
  | Event.begin none =>
    match st.status with
    | TxStatus.noTransaction => { st with status := TxStatus.active, pending := [] }
    | _ => st
  | Event.begin (some _) => st
  | Event.exec sql args none =>
    match st.status with
    | TxStatus.active => { st with pending := st.pending ++ [(sql, args)] }
    | _ => st
  | Event.exec _ _ (some _) => st
  | Event.commit none =>
    match st.status with
    | TxStatus.active =>
      { status := TxStatus.committed, pending := [], visible := st.visible ++ st.pending }
    | _ => st
  | Event.commit (some _) =>
    match st.status with
    | TxStatus.active => { st with status := TxStatus.rolledBack, pending := [] }
    | _ => st
  | Event.rollback =>
    match st.status with
    | TxStatus.active => { st with status := TxStatus.rolledBack, pending := [] }
    | _ => st

/-- The state of the storage after a trace of calls, from the state `st`. -/
def replay (st : StoreState) (events : List Event) : StoreState :=
  events.foldl StoreState.step st

/-- A storage all of whose calls succeed. -/
def Storage.reliable : Storage where
  begin := none
  exec := fun _ _ _ => none
  commit := fun _ => none

/-- A storage whose `Begin` fails with the error `boom`. -/
def Storage.beginFails : Storage where
  begin := some "boom"
  exec := fun _ _ _ => none
  commit := fun _ => none

/-- A storage whose second `Exec` fails with the error `boom`. -/
def Storage.secondExecFails : Storage where
  begin := none
  exec := fun events _ _ => if (executedStatements events).length = 1 then some "boom" else none
  commit := fun _ => none

/-- A storage whose first `Exec` fails with the error `boom`. -/
def Storage.firstExecFails : Storage where
  begin := none
  exec := fun events _ _ => if (executedStatements events).length = 0 then some "boom" else none
  commit := fun _ => none

/-- A storage whose third `Exec` fails with the error `boom`. -/
def Storage.thirdExecFails : Storage where
  begin := none
  exec := fun events _ _ => if (executedStatements events).length = 2 then some "boom" else none
  commit := fun _ => none

/-- A storage whose `Commit` fails with the error `boom`. -/
def Storage.commitFails : Storage where
  begin := none
  exec := fun _ _ _ => none
  commit := fun _ => some "boom"

/-! ## Further vocabulary and sample inputs for `ParseBlock` -/

/-- Two block updates that are identical except for the contents of their vote
transactions: the same block fields and, position by position, either the same
transaction or two transactions both flagged as votes. -/
def sameExceptVotes (b1 b2 : pb.SubscribeUpdateBlock) : Prop :=
  b1.Slot = b2.Slot ∧ b1.Blockhash = b2.Blockhash ∧ b1.BlockTime = b2.BlockTime ∧
  b1.BlockHeight = b2.BlockHeight ∧ b1.ParentSlot = b2.ParentSlot ∧
  b1.ParentBlockhash = b2.ParentBlockhash ∧
  List.Forall₂ (fun t1 t2 => t1 = t2 ∨ (t1.IsVote = true ∧ t2.IsVote = true))
    (sourceTransactions b1) (sourceTransactions b2)

/-- A transaction that is not a vote, with one account key, one instruction of
program-id index 0 and the given log lines. -/
def programTx (key : List Byte) (logs : Option (List String)) :
    pb.SubscribeUpdateTransactionInfo :=
  { IsVote := false
    Transaction :=
      some { Message :=
              some { Header := some { NumRequiredSignatures := 1 }
                     AccountKeys := some [key]
                     Instructions := [{ ProgramIdIndex := 0 }] } }
    Meta := some { LogMessages := logs } }

/-- A block of two transactions that are not votes, of different programs; the
second one has a log line. -/
def twoProgramsBlock : pb.SubscribeUpdateBlock :=
  { Slot := 7, Transactions := some [programTx [1] none, programTx [2] (some ["invoke"])] }

/-- A block whose only transaction has metadata and one account key but no message
header. -/
def headerlessBlock : pb.SubscribeUpdateBlock :=
  { Slot := 7
    Transactions :=
      some [{ IsVote := false
              Meta := some {}
              Transaction := some { Message := some { Header := none, AccountKeys := some [[1]] } } }] }

/-- A block whose only transaction has no metadata. -/
def metalessBlock : pb.SubscribeUpdateBlock :=
  { Slot := 7
    Transactions :=
      some [{ IsVote := false
              Meta := none
              Transaction := some { Message := some { Header := some {} } } }] }

/-- A block whose only transaction has a pre-token-balance record without
`UiTokenAmount`. -/
def amountlessBlock : pb.SubscribeUpdateBlock :=
  { Slot := 7
    Transactions :=
      some [{ IsVote := false
              Meta := some { PreTokenBalances := some [{ AccountIndex := 0, UiTokenAmount := none }] }
              Transaction := some { Message := some { Header := some {} } } }] }

/-- The sample block with the contents of its vote transaction removed. -/
def voteFirstBlockBare : pb.SubscribeUpdateBlock :=
  { Slot := 100, Blockhash := "hash", Transactions := some [{ IsVote := true }, sampleTx] }

/-- A block of two vote transactions. -/
def allVotesBlock : pb.SubscribeUpdateBlock :=
  { Slot := 100, Blockhash := "hash", Transactions := some [sampleVote, { IsVote := true }] }

/-- A block whose only transaction has one account key, of pre-balance 1 and
post-balance `2^63 + 1`. -/
def wideBalanceBlock : pb.SubscribeUpdateBlock :=
  { Slot := 7
    Transactions :=
      some [{ IsVote := false
              Meta := some { PreBalances := [1], PostBalances := [9223372036854775809] }
              Transaction :=
                some { Message :=
                        some { Header := some { NumRequiredSignatures := 1 }
                               AccountKeys := some [[1]] } } }] }

/-- The composite key of a transaction row. -/
def Transaction.key (t : Transaction) : Nat × Nat := (t.Slot, t.TransactionIndex)

/-- The composite key of an instruction row. -/
def Instruction.key (a : Instruction) : Nat × Nat × Nat :=
  (a.Slot, a.TransactionIndex, a.InstructionIndex)

/-- The composite key of an account row. -/
def TransactionAccount.key (a : TransactionAccount) : Nat × Nat × Nat :=
  (a.Slot, a.TransactionIndex, a.AccountIndex)

/-- The composite key of a log row. -/
def TransactionLog.key (a : TransactionLog) : Nat × Nat × Nat :=
  (a.Slot, a.TransactionIndex, a.LogIndex)

/-- The composite key of a token-balance row. -/
def TransactionTokenBalance.key (a : TransactionTokenBalance) : Nat × Nat × Nat :=
  (a.Slot, a.TransactionIndex, a.AccountIndex)

/-- A block whose only transaction has a pre-token-balance list that repeats the
account index 2 and a post-token-balance list that holds the index 2 and repeats
the index 5. -/
def repeatedIndexBlock : pb.SubscribeUpdateBlock :=
  { Slot := 7
    Transactions :=
      some [{ IsVote := false
              Meta :=
                some { PreTokenBalances :=
                         some [{ AccountIndex := 2, Mint := "a", UiTokenAmount := some {} },
                               { AccountIndex := 2, Mint := "b", UiTokenAmount := some {} }]
                       PostTokenBalances :=
                         [{ AccountIndex := 2, Mint := "c", UiTokenAmount := some {} },
                          { AccountIndex := 5, Mint := "d", UiTokenAmount := some {} },
                          { AccountIndex := 5, Mint := "e", UiTokenAmount := some {} }] }
              Transaction := some { Message := some { Header := some {} } } }] }

/-- A block at slot 100 with the sample transaction twice: two transaction rows and
four signature rows. -/
def twoSampleBlock : pb.SubscribeUpdateBlock :=
  { Slot := 100, Blockhash := "hash", Transactions := some [sampleTx, sampleTx] }

/-! ## Auxiliary facts and the settled claims -/

theorem forRange_ok_iff {α β : Type} (f : α → Except Panic (List β)) (l : List α)
    (rows : List β) :
    forRange f l = Except.ok rows ↔
      (∀ x ∈ l, ∃ ys, f x = Except.ok ys) ∧ rows = l.flatMap (fun x => rowsOf (f x)) := by
  induction l generalizing rows with
  | nil => simp [forRange, eq_comm]
  | cons x xs ih =>
    cases hx : f x with
    | error e => simp [forRange, hx]
    | ok ys =>
      cases hxs : forRange f xs with
      | error e =>
        have := ih
        simp only [hxs] at this
        simp [forRange, hx, hxs]
        intro h
        exact absurd ((this _).mpr ⟨h, rfl⟩) (by simp)
      | ok zs =>
        have h2 := (ih zs).mp hxs
        simp only [forRange, hx, hxs, Except.ok.injEq, List.mem_cons, forall_eq_or_imp,
          List.flatMap_cons, rowsOf]
        constructor
        · intro h; subst h; exact ⟨⟨⟨ys, rfl⟩, h2.1⟩, by rw [h2.2]; rfl⟩
        · rintro ⟨_, h⟩; rw [h, h2.2]; rfl

theorem parseTransaction_ok_iff (now : Time) (ord : MapOrder) (bt : Time) (result : ParsedBlock)
    (i : Nat) (tx : pb.SubscribeUpdateTransactionInfo) (r : ParsedBlock) :
    parseTransaction now ord bt result i tx = Except.ok r ↔
      ∃ m accounts tokenBals,
        tx.Meta = some m ∧
        txAccounts now result.Block.Slot i tx = Except.ok accounts ∧
        txTokenBalances now ord result.Block.Slot i tx = Except.ok tokenBals ∧
        r = { result with
              Transactions := result.Transactions
                ++ [parseTransactionRow now bt result.Block.Slot result.Block.Blockhash i tx m]
              TransactionInstructions := result.TransactionInstructions
                ++ txInstructions now result.Block.Slot i tx
              TransactionAccounts := result.TransactionAccounts ++ accounts
              TransactionTokenBalances := result.TransactionTokenBalances ++ tokenBals
              TransactionSignatures := result.TransactionSignatures
                ++ parseSignatures now result.Block.Slot i tx
              TransactionLogs := result.TransactionLogs
                ++ parseLogs now result.Block.Slot i
                    (result.TransactionInstructions ++ txInstructions now result.Block.Slot i tx) tx } := by
  unfold parseTransaction txAccounts txTokenBalances txInstructions txMessage
  cases hm : tx.Meta with
  | none => simp [deref]
  | some m =>
    simp only [deref]
    cases ht : tx.Transaction with
    | none => simp [eq_comm]
    | some t =>
      dsimp only
      cases hmsg : t.Message with
      | none => simp [eq_comm]
      | some msg =>
        dsimp only
        cases ha : parseAccounts now result.Block.Slot i msg (some m) with
        | error e => simp
        | ok accounts =>
          cases htk : parseTokenBalances now ord result.Block.Slot i (some m) with
          | error e => simp
          | ok toks => simp [eq_comm]

theorem nonVoteFrom_nil (i : Nat) : nonVoteFrom i [] = [] := rfl

theorem nonVoteFrom_cons_vote (i : Nat) (tx : pb.SubscribeUpdateTransactionInfo)
    (rest : List pb.SubscribeUpdateTransactionInfo) (h : tx.IsVote = true) :
    nonVoteFrom i (tx :: rest) = nonVoteFrom (i + 1) rest := by
  simp [nonVoteFrom, List.enumFrom_cons, h]

theorem nonVoteFrom_cons_nonVote (i : Nat) (tx : pb.SubscribeUpdateTransactionInfo)
    (rest : List pb.SubscribeUpdateTransactionInfo) (h : tx.IsVote = false) :
    nonVoteFrom i (tx :: rest) = (i, tx) :: nonVoteFrom (i + 1) rest := by
  simp [nonVoteFrom, List.enumFrom_cons, h]

/-- The aggregate after the loop over the transactions from position `i` on. -/
theorem parseTransactions_ok_iff (now : Time) (ord : MapOrder) (bt : Time) :
    ∀ (txs : List pb.SubscribeUpdateTransactionInfo) (i : Nat) (result r : ParsedBlock),
      parseTransactions now ord bt i txs result = Except.ok r ↔
        (∀ p ∈ nonVoteFrom i txs, txReturns now ord result.Block.Slot p.1 p.2) ∧
        r = { result with
              Transactions := result.Transactions
                ++ (nonVoteFrom i txs).flatMap (fun p =>
                      txRow now bt result.Block.Slot result.Block.Blockhash p.1 p.2)
              TransactionInstructions := result.TransactionInstructions
                ++ (nonVoteFrom i txs).flatMap (fun p =>
                      txInstructions now result.Block.Slot p.1 p.2)
              TransactionAccounts := result.TransactionAccounts
                ++ (nonVoteFrom i txs).flatMap (fun p =>
                      rowsOf (txAccounts now result.Block.Slot p.1 p.2))
              TransactionTokenBalances := result.TransactionTokenBalances
                ++ (nonVoteFrom i txs).flatMap (fun p =>
                      rowsOf (txTokenBalances now ord result.Block.Slot p.1 p.2))
              TransactionSignatures := result.TransactionSignatures
                ++ (nonVoteFrom i txs).flatMap (fun p =>
                      parseSignatures now result.Block.Slot p.1 p.2)
              TransactionLogs := result.TransactionLogs
                ++ logsFrom now result.Block.Slot i txs result.TransactionInstructions } := by
  intro txs
  induction txs with
  | nil =>
    intro i result r
    simp only [parseTransactions, nonVoteFrom_nil, logsFrom, List.flatMap_nil, List.append_nil,
      List.not_mem_nil, false_imp_iff, implies_true, true_and, Except.ok.injEq]
    exact eq_comm
  | cons tx rest ih =>
    intro i result r
    cases hv : tx.IsVote with
    | true =>
      rw [nonVoteFrom_cons_vote i tx rest hv]
      simp only [parseTransactions, hv, if_true, logsFrom]
      exact ih (i + 1) result r
    | false =>
      rw [nonVoteFrom_cons_nonVote i tx rest hv]
      simp only [parseTransactions, hv, logsFrom, List.mem_cons, forall_eq_or_imp,
        List.flatMap_cons, Bool.false_eq_true, if_false]
      cases h1 : parseTransaction now ord bt result i tx with
      | error e =>
        have hno : ¬ txReturns now ord result.Block.Slot i tx := by
          rintro ⟨⟨m, hm⟩, ⟨a, ha⟩, ⟨t, ht⟩⟩
          have := (parseTransaction_ok_iff now ord bt result i tx _).mpr ⟨m, a, t, hm, ha, ht, rfl⟩
          rw [h1] at this
          cases this
        simp [hno]
      | ok r1 =>
        obtain ⟨m, a, t, hm, ha, ht, hr1⟩ := (parseTransaction_ok_iff now ord bt result i tx r1).mp h1
        have hyes : txReturns now ord result.Block.Slot i tx := ⟨⟨m, hm⟩, ⟨a, ha⟩, ⟨t, ht⟩⟩
        have hslot : r1.Block = result.Block := by rw [hr1]
        rw [ih (i + 1) r1 r, hslot]
        simp only [hyes, true_and]
        have hrec : ∀ x y : ParsedBlock, x = y → (r = x ↔ r = y) := fun x y h => by rw [h]
        apply and_congr_right
        intro _
        apply hrec
        rw [hr1]
        simp only [ha, ht, hm, rowsOf, txRow, List.append_assoc, List.singleton_append]


/-- The account loop returns its rows exactly when the header is present or there is
no key. -/
theorem parseAccounts_ok_iff (now : Time) (slot i : Nat) (msg : pb.Message)
    (m : pb.TransactionStatusMeta) (keys : List (List Byte)) (hk : msg.AccountKeys = some keys)
    (rows : List TransactionAccount) :
    parseAccounts now slot i msg (some m) = Except.ok rows ↔
      (keys = [] ∧ rows = []) ∨
      (∃ header, msg.Header = some header ∧
        rows = keys.enum.map (fun p => parseAccountRow now slot i header m keys p.1 p.2)) := by
  unfold parseAccounts
  rw [hk]
  dsimp only
  rw [forRange_ok_iff]
  cases hh : msg.Header with
  | none =>
    simp only [parseAccount, hh, deref, Except.map, exists_const, and_false, Prod.forall,
      exists_false, or_false, reduceCtorEq]
    cases keys with
    | nil => simp
    | cons k ks =>
      simp only [List.enum_cons, List.mem_cons, reduceCtorEq, false_and, exists_false, or_false,
        iff_false, not_and]
      intro h
      exact absurd (h 0 k (Or.inl rfl)) (by simp)
  | some header =>
    simp only [parseAccount, hh, deref, Except.map, Except.ok.injEq, exists_eq', implies_true,
      true_and, rowsOf, Option.some.injEq, exists_eq_left']
    have : (keys.enum.flatMap fun x => [parseAccountRow now slot i header m keys x.1 x.2])
        = keys.enum.map (fun p => parseAccountRow now slot i header m keys p.1 p.2) := by
      induction keys.enum with
      | nil => rfl
      | cons a l ih => simp [List.flatMap_cons, ih]
    rw [this]
    constructor
    · intro h; exact Or.inr h
    · rintro (⟨h1, h2⟩ | h)
      · subst h1; subst h2; rfl
      · exact h

theorem ParseBlock_eq (now : Time) (ord : MapOrder) (block : pb.SubscribeUpdateBlock) :
    ParseBlock now ord block =
      (parseTransactions now ord (pb.GetTimestamp block.BlockTime) 0 (sourceTransactions block)
        (newResult now block)).map (fun result => (setBlockSummary result, none)) := by
  unfold ParseBlock sourceTransactions
  cases h : pb.GetTransactions block with
  | none => rfl
  | some txs =>
    dsimp only [Option.getD]
    cases parseTransactions now ord (pb.GetTimestamp block.BlockTime) 0 txs _ <;> rfl

theorem length_flatMap_txRow (now bt : Time) (slot : Nat) (bh : String)
    (l : List (Nat × pb.SubscribeUpdateTransactionInfo))
    (h : ∀ p ∈ l, ∃ m, p.2.Meta = some m) :
    (l.flatMap (fun p => txRow now bt slot bh p.1 p.2)).length = l.length := by
  induction l with
  | nil => rfl
  | cons a l ih =>
    obtain ⟨m, hm⟩ := h a (List.mem_cons_self _ _)
    rw [List.flatMap_cons, List.length_append, ih (fun p hp => h p (List.mem_cons_of_mem _ hp))]
    simp [txRow, hm, Nat.add_comm]

theorem ParseBlock_ok_iff (now : Time) (ord : MapOrder) (block : pb.SubscribeUpdateBlock)
    (r : ParsedBlock) (e : Option GoError) :
    ParseBlock now ord block = Except.ok (r, e) ↔
      e = none ∧
      (∀ p ∈ nonVoteFrom 0 (sourceTransactions block), txReturns now ord block.Slot p.1 p.2) ∧
      r = aggregateOf now ord block := by
  rw [ParseBlock_eq]
  have hiff := parseTransactions_ok_iff now ord (pb.GetTimestamp block.BlockTime)
      (sourceTransactions block) 0 (newResult now block)
  have hslot : (newResult now block).Block.Slot = block.Slot := rfl
  have hbh : (newResult now block).Block.Blockhash = block.Blockhash := rfl
  rw [hslot, hbh] at hiff
  cases h : parseTransactions now ord (pb.GetTimestamp block.BlockTime) 0 (sourceTransactions block)
      (newResult now block) with
  | error err =>
    simp only [Except.map, reduceCtorEq, false_iff, not_and]
    intro _ hall _
    have := (hiff _).mpr ⟨hall, rfl⟩
    rw [h] at this
    cases this
  | ok r0 =>
    obtain ⟨hall, hr0⟩ := (hiff _).mp h
    have hlen := length_flatMap_txRow now (pb.GetTimestamp block.BlockTime) block.Slot
      block.Blockhash (nonVoteFrom 0 (sourceTransactions block)) (fun p hp => (hall p hp).1)
    have hfin : setBlockSummary r0 = aggregateOf now ord block := by
      rw [hr0]
      simp only [setBlockSummary, aggregateOf, newResult, List.nil_append, hlen]
    simp only [Except.map, Except.ok.injEq, Prod.mk.injEq, hfin]
    constructor
    · rintro ⟨h1, h2⟩
      exact ⟨h2.symm, hall, h1.symm⟩
    · rintro ⟨h1, _, h3⟩
      exact ⟨h3.symm, h1.symm⟩

theorem mem_nonVoteFrom (i k : Nat) (tx : pb.SubscribeUpdateTransactionInfo)
    (txs : List pb.SubscribeUpdateTransactionInfo) :
    (k, tx) ∈ nonVoteFrom i txs ↔ i ≤ k ∧ txs[k - i]? = some tx ∧ tx.IsVote = false := by
  simp [nonVoteFrom, List.mem_filter, List.mk_mem_enumFrom_iff_le_and_getElem?_sub, and_assoc]

theorem mem_parseInstructions (now : Time) (slot i : Nat) (msg : pb.Message) (row : Instruction) :
    row ∈ parseInstructions now slot i msg ↔
      ∃ j inst, msg.Instructions[j]? = some inst ∧ row = parseInstruction now slot i msg j inst := by
  simp only [parseInstructions, List.mem_map, Prod.exists, List.mk_mem_enum_iff_getElem?]
  constructor
  · rintro ⟨j, inst, h, rfl⟩; exact ⟨j, inst, h, rfl⟩
  · rintro ⟨j, inst, h, rfl⟩; exact ⟨j, inst, h, rfl⟩

theorem parseInstruction_key (now : Time) (slot i : Nat) (msg : pb.Message) (j : Nat)
    (inst : pb.CompiledInstruction) :
    (parseInstruction now slot i msg j inst).Slot = slot ∧
    (parseInstruction now slot i msg j inst).TransactionIndex = i ∧
    (parseInstruction now slot i msg j inst).InstructionIndex = j ∧
    (parseInstruction now slot i msg j inst).ProgramIdIndex = inst.ProgramIdIndex ∧
    (parseInstruction now slot i msg j inst).Data = inst.Data := by
  unfold parseInstruction
  cases msg.AccountKeys with
  | none => simp
  | some keys =>
    dsimp only
    split <;> simp

theorem parseAccountRow_key (now : Time) (slot i : Nat) (header : pb.MessageHeader)
    (m : pb.TransactionStatusMeta) (keys : List (List Byte)) (j : Nat) (key : List Byte) :
    (parseAccountRow now slot i header m keys j key).Slot = slot ∧
    (parseAccountRow now slot i header m keys j key).TransactionIndex = i ∧
    (parseAccountRow now slot i header m keys j key).AccountIndex = j := by
  unfold parseAccountRow
  dsimp only
  split <;> split <;> (try split) <;> simp

theorem parsePreTokenBalance_key (now : Time) (slot i : Nat) (postBalMap : TokenMap)
    (idx : Nat) (preBal : pb.TokenBalance) (row : TransactionTokenBalance)
    (h : parsePreTokenBalance now slot i postBalMap idx preBal = Except.ok row) :
    row.Slot = slot ∧ row.TransactionIndex = i ∧ row.AccountIndex = idx := by
  unfold parsePreTokenBalance at h
  cases h1 : preBal.UiTokenAmount with
  | none => simp [h1, deref] at h
  | some preUi =>
    simp only [h1, deref] at h
    cases h2 : TokenMap.get? postBalMap idx with
    | none =>
      simp only [h2, Except.ok.injEq] at h
      subst h; simp
    | some postBal =>
      simp only [h2] at h
      cases h3 : postBal.UiTokenAmount with
      | none => simp [h3] at h
      | some postUi =>
        simp only [h3, Except.ok.injEq] at h
        subst h; simp

theorem parsePostTokenBalance_key (now : Time) (slot i : Nat) (preBalMap : TokenMap)
    (idx : Nat) (postBal : pb.TokenBalance) (rows : List TransactionTokenBalance)
    (h : parsePostTokenBalance now slot i preBalMap idx postBal = Except.ok rows) :
    ∀ row ∈ rows, row.Slot = slot ∧ row.TransactionIndex = i ∧ row.AccountIndex = idx := by
  unfold parsePostTokenBalance at h
  cases h2 : TokenMap.get? preBalMap idx with
  | some _ =>
    simp only [h2, Except.ok.injEq] at h
    subst h; simp
  | none =>
    simp only [h2] at h
    cases h3 : postBal.UiTokenAmount with
    | none => simp [h3, deref] at h
    | some postUi =>
      simp only [h3, deref, Except.ok.injEq] at h
      subst h; simp

theorem TokenMap.get?_set (m : TokenMap) (k : Nat) (v : pb.TokenBalance) (k1 : Nat) :
    TokenMap.get? (TokenMap.set m k v) k1 = if k = k1 then some v else TokenMap.get? m k1 := by
  induction m with
  | nil => simp [TokenMap.set, TokenMap.get?]
  | cons e rest ih =>
    obtain ⟨k0, v0⟩ := e
    by_cases h : k0 = k
    · subst h
      simp only [TokenMap.set, if_true, TokenMap.get?]
      split <;> rfl
    · simp only [TokenMap.set, h, if_false, TokenMap.get?, ih]
      by_cases h1 : k0 = k1
      · subst h1
        simp [Ne.symm h]
      · simp [h1]

theorem TokenMap.keys_set (m : TokenMap) (k : Nat) (v : pb.TokenBalance) :
    (TokenMap.set m k v).map (fun e => e.1) =
      if k ∈ m.map (fun e => e.1) then m.map (fun e => e.1) else m.map (fun e => e.1) ++ [k] := by
  induction m with
  | nil => simp [TokenMap.set]
  | cons e rest ih =>
    obtain ⟨k0, v0⟩ := e
    by_cases h : k0 = k
    · subst h
      simp [TokenMap.set]
    · simp only [TokenMap.set, h, if_false, List.map_cons, ih, List.mem_cons, Ne.symm h, false_or]
      split <;> simp

theorem TokenMap.nodup_set (m : TokenMap) (k : Nat) (v : pb.TokenBalance)
    (h : (m.map (fun e => e.1)).Nodup) : ((TokenMap.set m k v).map (fun e => e.1)).Nodup := by
  rw [TokenMap.keys_set]
  split
  · exact h
  · rename_i hk
    rw [List.nodup_append]
    refine ⟨h, List.nodup_singleton k, ?_⟩
    intro a ha hb
    simp only [List.mem_singleton] at hb
    subst hb
    exact hk ha

theorem TokenMap.mem_keys_set (m : TokenMap) (k : Nat) (v : pb.TokenBalance) (k1 : Nat) :
    k1 ∈ (TokenMap.set m k v).map (fun e => e.1) ↔ k1 = k ∨ k1 ∈ m.map (fun e => e.1) := by
  rw [TokenMap.keys_set]
  split
  · rename_i hk
    constructor
    · intro h; exact Or.inr h
    · rintro (h | h)
      · subst h; exact hk
      · exact h
  · simp only [List.mem_append, List.mem_singleton]
    exact or_comm

theorem TokenMap.mem_iff_get? (m : TokenMap) (h : (m.map (fun e => e.1)).Nodup) (k : Nat)
    (v : pb.TokenBalance) : (k, v) ∈ m ↔ TokenMap.get? m k = some v := by
  induction m with
  | nil => simp [TokenMap.get?]
  | cons e rest ih =>
    obtain ⟨k0, v0⟩ := e
    simp only [List.map_cons, List.nodup_cons] at h
    by_cases hk : k0 = k
    · subst hk
      simp only [List.mem_cons, Prod.mk.injEq, true_and, TokenMap.get?, if_true, Option.some.injEq]
      constructor
      · rintro (h1 | h1)
        · exact h1.symm
        · exact absurd (List.mem_map_of_mem (fun e => e.1) h1) h.1
      · intro h1; exact Or.inl h1.symm
    · simp only [List.mem_cons, Prod.mk.injEq, TokenMap.get?, hk, if_false, ih h.2, Ne.symm hk,
        false_and, false_or]

theorem TokenMap.get?_eq_none_iff (m : TokenMap) (k : Nat) :
    TokenMap.get? m k = none ↔ k ∉ m.map (fun e => e.1) := by
  induction m with
  | nil => simp [TokenMap.get?]
  | cons e rest ih =>
    obtain ⟨k0, v0⟩ := e
    by_cases hk : k0 = k
    · subst hk; simp [TokenMap.get?]
    · simp [TokenMap.get?, hk, ih, Ne.symm hk]

/-- The map built from a list, started from a non-empty map. -/
theorem foldl_set_props (l : List pb.TokenBalance) (m : TokenMap)
    (h : (m.map (fun e => e.1)).Nodup) :
    ((l.foldl (fun m bal => TokenMap.set m bal.AccountIndex bal) m).map (fun e => e.1)).Nodup ∧
    (∀ k, k ∈ (l.foldl (fun m bal => TokenMap.set m bal.AccountIndex bal) m).map (fun e => e.1) ↔
        k ∈ l.map (fun b => b.AccountIndex) ∨ k ∈ m.map (fun e => e.1)) ∧
    (∀ k, TokenMap.get? (l.foldl (fun m bal => TokenMap.set m bal.AccountIndex bal) m) k =
        match l.reverse.find? (fun b => decide (b.AccountIndex = k)) with
        | some b => some b
        | none => TokenMap.get? m k) := by
  induction l generalizing m with
  | nil => simp [h]
  | cons b l ih =>
    obtain ⟨h1, h2, h3⟩ := ih (TokenMap.set m b.AccountIndex b) (TokenMap.nodup_set m _ _ h)
    refine ⟨h1, ?_, ?_⟩
    · intro k
      rw [List.foldl_cons, h2 k, TokenMap.mem_keys_set]
      simp only [List.map_cons, List.mem_cons]
      tauto
    · intro k
      rw [List.foldl_cons, h3 k, List.reverse_cons, List.find?_append]
      cases hf : List.find? (fun b => decide (b.AccountIndex = k)) l.reverse with
      | some b1 => simp
      | none =>
        simp only [Option.none_or, TokenMap.get?_set, List.find?_cons, List.find?_nil]
        by_cases hb : b.AccountIndex = k
        · simp [hb]
        · simp [hb]

theorem nodup_nonVoteFrom (i : Nat) (txs : List pb.SubscribeUpdateTransactionInfo) :
    ((nonVoteFrom i txs).map (fun p => p.1)).Nodup := by
  have h1 : ((txs.enumFrom i).map (fun p => p.1)).Nodup := by
    have : (txs.enumFrom i).map (fun p => p.1) = List.range' i txs.length :=
      List.enumFrom_map_fst i txs
    rw [this]
    exact List.nodup_range' i txs.length
  exact h1.sublist (List.Sublist.map _ (List.filter_sublist _))

theorem mem_nonVote_source (block : pb.SubscribeUpdateBlock) (k : Nat)
    (tx : pb.SubscribeUpdateTransactionInfo) :
    (k, tx) ∈ nonVoteFrom 0 (sourceTransactions block) ↔
      (sourceTransactions block)[k]? = some tx ∧ tx.IsVote = false := by
  rw [mem_nonVoteFrom]
  simp

/-- The rows of one position, among rows grouped by position. -/
theorem filter_flatMap_position {α β : Type} (key : β → Nat) (f : Nat × α → List β) :
    ∀ (l : List (Nat × α)) (i : Nat) (x : α),
      (l.map (fun p => p.1)).Nodup → (i, x) ∈ l →
      (∀ p ∈ l, ∀ b ∈ f p, key b = p.1) →
      (l.flatMap f).filter (fun b => decide (key b = i)) = f (i, x) := by
  intro l
  induction l with
  | nil => intro i x _ h; cases h
  | cons a l ih =>
    intro i x hnd hmem hkey
    simp only [List.map_cons, List.nodup_cons] at hnd
    rw [List.flatMap_cons, List.filter_append]
    rcases List.mem_cons.mp hmem with h | h
    · subst h
      have h1 : (f (i, x)).filter (fun b => decide (key b = i)) = f (i, x) := by
        rw [List.filter_eq_self]
        intro b hb
        simpa using hkey (i, x) (List.mem_cons_self _ _) b hb
      have h2 : (l.flatMap f).filter (fun b => decide (key b = i)) = [] := by
        rw [List.filter_eq_nil_iff]
        intro b hb
        obtain ⟨p, hp, hbp⟩ := List.mem_flatMap.mp hb
        have hk := hkey p (List.mem_cons_of_mem _ hp) b hbp
        simp only [decide_eq_true_eq]
        intro hbi
        apply hnd.1
        rw [← hbi, hk]
        exact List.mem_map_of_mem (fun p => p.1) hp
      rw [h1, h2, List.append_nil]
    · have h1 : (f a).filter (fun b => decide (key b = i)) = [] := by
        rw [List.filter_eq_nil_iff]
        intro b hb
        have hk := hkey a (List.mem_cons_self _ _) b hb
        simp only [decide_eq_true_eq]
        intro hbi
        apply hnd.1
        rw [← hk, hbi]
        exact List.mem_map_of_mem (fun p => p.1) h
      rw [h1, List.nil_append]
      exact ih i x hnd.2 h (fun p hp => hkey p (List.mem_cons_of_mem _ hp))

theorem txInstructions_key (now : Time) (slot i : Nat) (tx : pb.SubscribeUpdateTransactionInfo)
    (row : Instruction) (h : row ∈ txInstructions now slot i tx) :
    row.Slot = slot ∧ row.TransactionIndex = i := by
  unfold txInstructions at h
  cases hm : txMessage tx with
  | none => simp [hm] at h
  | some msg =>
    simp only [hm] at h
    obtain ⟨j, inst, _, rfl⟩ := (mem_parseInstructions now slot i msg row).mp h
    exact ⟨(parseInstruction_key now slot i msg j inst).1, (parseInstruction_key now slot i msg j inst).2.1⟩

/-- The account rows of a transaction, when its loop returns. -/
theorem txAccounts_rows (now : Time) (slot i : Nat) (tx : pb.SubscribeUpdateTransactionInfo)
    (m : pb.TransactionStatusMeta) (hmeta : tx.Meta = some m)
    (rows : List TransactionAccount) (h : txAccounts now slot i tx = Except.ok rows) :
    (accountKeyCount tx = 0 ∧ rows = []) ∨
    (∃ msg keys header, txMessage tx = some msg ∧ msg.AccountKeys = some keys ∧
        msg.Header = some header ∧
        rows = keys.enum.map (fun p => parseAccountRow now slot i header m keys p.1 p.2)) := by
  unfold txAccounts at h
  unfold accountKeyCount
  cases hm : txMessage tx with
  | none =>
    simp only [hm, Except.ok.injEq] at h
    exact Or.inl ⟨rfl, h.symm⟩
  | some msg =>
    simp only [hm] at h
    rw [hmeta] at h
    cases hk : msg.AccountKeys with
    | none =>
      simp only [parseAccounts, hk, Except.ok.injEq] at h
      exact Or.inl ⟨by simp [hk], h.symm⟩
    | some keys =>
      rcases (parseAccounts_ok_iff now slot i msg m keys hk rows).mp h with ⟨h1, h2⟩ | ⟨header, h1, h2⟩
      · subst h1; exact Or.inl ⟨by simp [hk], h2⟩
      · exact Or.inr ⟨msg, keys, header, rfl, hk, h1, h2⟩

theorem txAccounts_key (now : Time) (slot i : Nat) (tx : pb.SubscribeUpdateTransactionInfo)
    (row : TransactionAccount) (h : row ∈ rowsOf (txAccounts now slot i tx)) :
    row.Slot = slot ∧ row.TransactionIndex = i := by
  cases hr : txAccounts now slot i tx with
  | error e => simp [hr, rowsOf] at h
  | ok rows =>
    simp only [hr, rowsOf] at h
    cases hmeta : tx.Meta with
    | none =>
      unfold txAccounts at hr
      cases hm : txMessage tx with
      | none => simp only [hm, Except.ok.injEq] at hr; subst hr; cases h
      | some msg =>
        simp only [hm, hmeta, parseAccounts, Except.ok.injEq] at hr
        subst hr; cases h
    | some m =>
      rcases txAccounts_rows now slot i tx m hmeta rows hr with ⟨_, h2⟩ | ⟨msg, keys, header, _, _, _, h2⟩
      · subst h2; cases h
      · subst h2
        obtain ⟨p, _, rfl⟩ := List.mem_map.mp h
        exact ⟨(parseAccountRow_key now slot i header m keys p.1 p.2).1,
          (parseAccountRow_key now slot i header m keys p.1 p.2).2.1⟩

theorem parseSignatures_key (now : Time) (slot i : Nat) (tx : pb.SubscribeUpdateTransactionInfo)
    (row : TransactionSignature) (h : row ∈ parseSignatures now slot i tx) :
    row.Slot = slot ∧ row.TransactionIndex = i := by
  unfold parseSignatures at h
  cases ht : tx.Transaction with
  | none => simp [ht] at h
  | some t =>
    simp only [ht, List.mem_map] at h
    obtain ⟨sig, _, rfl⟩ := h
    exact ⟨rfl, rfl⟩

theorem parseLogs_key (now : Time) (slot i : Nat) (instructions : List Instruction)
    (tx : pb.SubscribeUpdateTransactionInfo) (row : TransactionLog)
    (h : row ∈ parseLogs now slot i instructions tx) :
    row.Slot = slot ∧ row.TransactionIndex = i := by
  unfold parseLogs at h
  cases hm : tx.Meta with
  | none => simp [hm] at h
  | some m =>
    simp only [hm] at h
    cases hl : m.LogMessages with
    | none => simp [hl] at h
    | some logs =>
      simp only [hl, List.mem_map] at h
      obtain ⟨p, _, rfl⟩ := h
      unfold parseLog
      cases instructions <;> exact ⟨rfl, rfl⟩

theorem logsFrom_key (now : Time) (slot : Nat) :
    ∀ (txs : List pb.SubscribeUpdateTransactionInfo) (i : Nat) (instructions : List Instruction)
      (row : TransactionLog), row ∈ logsFrom now slot i txs instructions →
      row.Slot = slot ∧ ∃ p ∈ nonVoteFrom i txs, row.TransactionIndex = p.1 := by
  intro txs
  induction txs with
  | nil => intro i instructions row h; simp [logsFrom] at h
  | cons tx rest ih =>
    intro i instructions row h
    cases hv : tx.IsVote with
    | true =>
      simp only [logsFrom, hv, if_true] at h
      rw [nonVoteFrom_cons_vote i tx rest hv]
      exact ih _ _ _ h
    | false =>
      simp only [logsFrom, hv, Bool.false_eq_true, if_false, List.mem_append] at h
      rw [nonVoteFrom_cons_nonVote i tx rest hv]
      rcases h with h | h
      · have := parseLogs_key now slot i _ tx row h
        exact ⟨this.1, (i, tx), List.mem_cons_self _ _, this.2⟩
      · obtain ⟨h1, p, hp, h2⟩ := ih _ _ _ h
        exact ⟨h1, p, List.mem_cons_of_mem _ hp, h2⟩

theorem TokenMap.mem_set (m : TokenMap) (k : Nat) (v : pb.TokenBalance) (k1 : Nat)
    (v1 : pb.TokenBalance) (h : (k1, v1) ∈ TokenMap.set m k v) :
    (k1 = k ∧ v1 = v) ∨ (k1, v1) ∈ m := by
  induction m with
  | nil =>
    simp only [TokenMap.set, List.mem_singleton, Prod.mk.injEq] at h
    exact Or.inl h
  | cons e rest ih =>
    obtain ⟨k0, v0⟩ := e
    by_cases hk : k0 = k
    · simp only [TokenMap.set, hk, if_true, List.mem_cons, Prod.mk.injEq] at h
      rcases h with h | h
      · exact Or.inl h
      · exact Or.inr (List.mem_cons_of_mem _ h)
    · simp only [TokenMap.set, hk, if_false, List.mem_cons] at h
      rcases h with h | h
      · exact Or.inr (by rw [h]; exact List.mem_cons_self _ _)
      · rcases ih h with h1 | h1
        · exact Or.inl h1
        · exact Or.inr (List.mem_cons_of_mem _ h1)

theorem foldl_set_mem (l : List pb.TokenBalance) (m : TokenMap) (k : Nat) (v : pb.TokenBalance)
    (h : (k, v) ∈ l.foldl (fun m bal => TokenMap.set m bal.AccountIndex bal) m) :
    (v ∈ l ∧ v.AccountIndex = k) ∨ (k, v) ∈ m := by
  induction l generalizing m with
  | nil => exact Or.inr h
  | cons b l ih =>
    rw [List.foldl_cons] at h
    rcases ih _ h with ⟨h1, h2⟩ | h1
    · exact Or.inl ⟨List.mem_cons_of_mem _ h1, h2⟩
    · rcases TokenMap.mem_set m _ _ _ _ h1 with ⟨h2, h3⟩ | h2
      · subst h3; exact Or.inl ⟨List.mem_cons_self _ _, h2.symm⟩
      · exact Or.inr h2

theorem buildMap_nodup (l : List pb.TokenBalance) : ((buildMap l).map (fun e => e.1)).Nodup :=
  (foldl_set_props l [] List.nodup_nil).1

theorem buildMap_mem_keys (l : List pb.TokenBalance) (k : Nat) :
    k ∈ (buildMap l).map (fun e => e.1) ↔ k ∈ l.map (fun b => b.AccountIndex) := by
  have := (foldl_set_props l [] List.nodup_nil).2.1 k
  simpa [buildMap] using this

theorem buildMap_get? (l : List pb.TokenBalance) (k : Nat) :
    TokenMap.get? (buildMap l) k = lastWithIndex l k := by
  have := (foldl_set_props l [] List.nodup_nil).2.2 k
  unfold buildMap lastWithIndex
  rw [this]
  cases List.find? (fun b => decide (b.AccountIndex = k)) l.reverse <;> rfl

theorem buildMap_mem (l : List pb.TokenBalance) (k : Nat) (v : pb.TokenBalance)
    (h : (k, v) ∈ buildMap l) : v ∈ l ∧ v.AccountIndex = k := by
  rcases foldl_set_mem l [] k v h with h1 | h1
  · exact h1
  · cases h1

theorem buildMap_mem_iff (l : List pb.TokenBalance) (k : Nat) (v : pb.TokenBalance) :
    (k, v) ∈ buildMap l ↔ lastWithIndex l k = some v := by
  rw [TokenMap.mem_iff_get? _ (buildMap_nodup l), buildMap_get?]

theorem lastWithIndex_eq_none_iff (l : List pb.TokenBalance) (k : Nat) :
    lastWithIndex l k = none ↔ k ∉ l.map (fun b => b.AccountIndex) := by
  rw [← buildMap_get?, TokenMap.get?_eq_none_iff, buildMap_mem_keys]

theorem lastWithIndex_mem (l : List pb.TokenBalance) (k : Nat) (v : pb.TokenBalance)
    (h : lastWithIndex l k = some v) : v ∈ l ∧ v.AccountIndex = k :=
  buildMap_mem l k v ((buildMap_mem_iff l k v).mpr h)

/-- The token-balance rows of a transaction, when its loops return. -/
theorem txTokenBalances_rows (now : Time) (ord : MapOrder) (slot i : Nat)
    (tx : pb.SubscribeUpdateTransactionInfo) (rows : List TransactionTokenBalance)
    (h : txTokenBalances now ord slot i tx = Except.ok rows) :
    (rows = [] ∧ (txMessage tx = none ∨ tx.Meta = none
        ∨ ∃ m, tx.Meta = some m ∧ m.PreTokenBalances = none)) ∨
    (∃ msg m pre rows1 rows2, txMessage tx = some msg ∧ tx.Meta = some m ∧
        m.PreTokenBalances = some pre ∧
        forRange (fun p => (parsePreTokenBalance now slot i (buildMap m.PostTokenBalances)
            p.1 p.2).map (fun r => [r])) (ord.range i false (buildMap pre)) = Except.ok rows1 ∧
        forRange (fun p => parsePostTokenBalance now slot i (buildMap pre) p.1 p.2)
            (ord.range i true (buildMap m.PostTokenBalances)) = Except.ok rows2 ∧
        rows = rows1 ++ rows2) := by
  unfold txTokenBalances at h
  cases hm : txMessage tx with
  | none =>
    simp only [hm, Except.ok.injEq] at h
    exact Or.inl ⟨h.symm, Or.inl rfl⟩
  | some msg =>
    simp only [hm] at h
    unfold parseTokenBalances at h
    cases hmeta : tx.Meta with
    | none =>
      simp only [hmeta, Except.ok.injEq] at h
      exact Or.inl ⟨h.symm, Or.inr (Or.inl rfl)⟩
    | some m =>
      simp only [hmeta] at h
      cases hp : m.PreTokenBalances with
      | none =>
        simp only [hp, Except.ok.injEq] at h
        exact Or.inl ⟨h.symm, Or.inr (Or.inr ⟨m, rfl, hp⟩)⟩
      | some pre =>
        simp only [hp] at h
        cases h1 : forRange (fun p => (parsePreTokenBalance now slot i (buildMap m.PostTokenBalances)
            p.1 p.2).map (fun r => [r])) (ord.range i false (buildMap pre)) with
        | error e => simp [h1] at h
        | ok rows1 =>
          simp only [h1] at h
          cases h2 : forRange (fun p => parsePostTokenBalance now slot i (buildMap pre) p.1 p.2)
              (ord.range i true (buildMap m.PostTokenBalances)) with
          | error e => simp [h2] at h
          | ok rows2 =>
            simp only [h2, Except.ok.injEq] at h
            exact Or.inr ⟨msg, m, pre, rows1, rows2, rfl, rfl, hp, h1, h2, h.symm⟩

/-- Where a token-balance row comes from: an entry of the pre map, or an entry of the
post map whose key the pre map lacks. -/
theorem mem_txTokenBalances (now : Time) (ord : MapOrder) (slot i : Nat)
    (tx : pb.SubscribeUpdateTransactionInfo) (row : TransactionTokenBalance)
    (h : row ∈ rowsOf (txTokenBalances now ord slot i tx)) :
    ∃ m pre, tx.Meta = some m ∧ m.PreTokenBalances = some pre ∧
      ((∃ idx preBal, (idx, preBal) ∈ buildMap pre ∧
          parsePreTokenBalance now slot i (buildMap m.PostTokenBalances) idx preBal = Except.ok row) ∨
       (∃ idx postBal rws, (idx, postBal) ∈ buildMap m.PostTokenBalances ∧
          parsePostTokenBalance now slot i (buildMap pre) idx postBal = Except.ok rws ∧ row ∈ rws)) := by
  cases hr : txTokenBalances now ord slot i tx with
  | error e => simp [hr, rowsOf] at h
  | ok rows =>
    simp only [hr, rowsOf] at h
    rcases txTokenBalances_rows now ord slot i tx rows hr with ⟨h1, _⟩ |
      ⟨msg, m, pre, rows1, rows2, _, hmeta, hpre, hf1, hf2, hrows⟩
    · subst h1; cases h
    · refine ⟨m, pre, hmeta, hpre, ?_⟩
      subst hrows
      rw [forRange_ok_iff] at hf1 hf2
      rcases List.mem_append.mp h with h | h
      · left
        rw [hf1.2] at h
        obtain ⟨p, hp, hrow⟩ := List.mem_flatMap.mp h
        obtain ⟨ys, hys⟩ := hf1.1 p hp
        have hp1 : p ∈ buildMap pre := (ord.perm i false _).mem_iff.mp hp
        cases hq : parsePreTokenBalance now slot i (buildMap m.PostTokenBalances) p.1 p.2 with
        | error e => simp [hq, Except.map] at hys
        | ok r1 =>
          simp only [hq, Except.map, rowsOf, List.mem_singleton] at hrow
          subst hrow
          exact ⟨p.1, p.2, hp1, hq⟩
      · right
        rw [hf2.2] at h
        obtain ⟨p, hp, hrow⟩ := List.mem_flatMap.mp h
        obtain ⟨ys, hys⟩ := hf2.1 p hp
        have hp1 : p ∈ buildMap m.PostTokenBalances := (ord.perm i true _).mem_iff.mp hp
        simp only [hys, rowsOf] at hrow
        exact ⟨p.1, p.2, ys, hp1, hys, hrow⟩

theorem txTokenBalances_key (now : Time) (ord : MapOrder) (slot i : Nat)
    (tx : pb.SubscribeUpdateTransactionInfo) (row : TransactionTokenBalance)
    (h : row ∈ rowsOf (txTokenBalances now ord slot i tx)) :
    row.Slot = slot ∧ row.TransactionIndex = i := by
  obtain ⟨m, pre, _, _, h1 | h1⟩ := mem_txTokenBalances now ord slot i tx row h
  · obtain ⟨idx, preBal, _, h2⟩ := h1
    have := parsePreTokenBalance_key now slot i _ idx preBal row h2
    exact ⟨this.1, this.2.1⟩
  · obtain ⟨idx, postBal, rws, _, h2, h3⟩ := h1
    have := parsePostTokenBalance_key now slot i _ idx postBal rws h2 row h3
    exact ⟨this.1, this.2.1⟩

theorem forRange_returns {α β : Type} (f : α → Except Panic (List β)) (l : List α)
    (h : ∀ x ∈ l, ∃ ys, f x = Except.ok ys) : ∃ rows, forRange f l = Except.ok rows :=
  ⟨_, (forRange_ok_iff f l _).mpr ⟨h, rfl⟩⟩

theorem parsePreTokenBalance_returns (now : Time) (slot i : Nat) (pre post : List pb.TokenBalance)
    (hpre : ∀ b ∈ pre, ∃ ui, b.UiTokenAmount = some ui)
    (hpost : ∀ b ∈ post, ∃ ui, b.UiTokenAmount = some ui)
    (idx : Nat) (preBal : pb.TokenBalance) (hmem : (idx, preBal) ∈ buildMap pre) :
    ∃ row, parsePreTokenBalance now slot i (buildMap post) idx preBal = Except.ok row := by
  obtain ⟨ui, hui⟩ := hpre preBal (buildMap_mem pre idx preBal hmem).1
  unfold parsePreTokenBalance
  simp only [hui, deref]
  cases hq : TokenMap.get? (buildMap post) idx with
  | none => exact ⟨_, rfl⟩
  | some postBal =>
    have hq1 : (idx, postBal) ∈ buildMap post :=
      (TokenMap.mem_iff_get? _ (buildMap_nodup post) idx postBal).mpr hq
    obtain ⟨pui, hpui⟩ := hpost postBal (buildMap_mem post idx postBal hq1).1
    simp only [hpui]
    exact ⟨_, rfl⟩

theorem parsePostTokenBalance_returns (now : Time) (slot i : Nat) (pre post : List pb.TokenBalance)
    (hpost : ∀ b ∈ post, ∃ ui, b.UiTokenAmount = some ui)
    (idx : Nat) (postBal : pb.TokenBalance) (hmem : (idx, postBal) ∈ buildMap post) :
    ∃ rows, parsePostTokenBalance now slot i (buildMap pre) idx postBal = Except.ok rows := by
  obtain ⟨ui, hui⟩ := hpost postBal (buildMap_mem post idx postBal hmem).1
  unfold parsePostTokenBalance
  cases hq : TokenMap.get? (buildMap pre) idx with
  | some _ => exact ⟨_, rfl⟩
  | none =>
    simp only [hui, deref]
    exact ⟨_, rfl⟩

/-- A complete transaction does not make the loop body panic. -/
theorem txReturns_of_complete (now : Time) (ord : MapOrder) (slot i : Nat)
    (tx : pb.SubscribeUpdateTransactionInfo) (hc : completeTx tx = true) :
    txReturns now ord slot i tx := by
  unfold completeTx at hc
  cases hmeta : tx.Meta with
  | none => simp [hmeta] at hc
  | some m =>
    simp only [hmeta, Bool.and_eq_true, List.all_eq_true, Option.isSome_iff_exists] at hc
    obtain ⟨⟨hhdr, hpre⟩, hpost⟩ := hc
    refine ⟨⟨m, hmeta⟩, ?_, ?_⟩
    · unfold txAccounts
      rw [hmeta]
      cases hm : txMessage tx with
      | none => exact ⟨_, rfl⟩
      | some msg =>
        simp only [hm, Option.isSome_iff_exists] at hhdr
        obtain ⟨header, hh⟩ := hhdr
        dsimp only
        cases hk : msg.AccountKeys with
        | none => exact ⟨[], by simp [parseAccounts, hk]⟩
        | some keys =>
          exact ⟨_, (parseAccounts_ok_iff now slot i msg m keys hk _).mpr
            (Or.inr ⟨header, hh, rfl⟩)⟩
    · unfold txTokenBalances
      rw [hmeta]
      cases hm : txMessage tx with
      | none => exact ⟨_, rfl⟩
      | some msg =>
        dsimp only
        unfold parseTokenBalances
        dsimp only
        cases hp : m.PreTokenBalances with
        | none => exact ⟨_, rfl⟩
        | some pre =>
          simp only [hp, Option.getD_some] at hpre
          dsimp only
          obtain ⟨rows1, h1⟩ := forRange_returns
            (fun p => (parsePreTokenBalance now slot i (buildMap m.PostTokenBalances)
              p.1 p.2).map (fun r => [r])) (ord.range i false (buildMap pre))
            (by
              intro x hx
              have hx1 : x ∈ buildMap pre := (ord.perm i false _).mem_iff.mp hx
              obtain ⟨row, hrow⟩ := parsePreTokenBalance_returns now slot i pre
                m.PostTokenBalances hpre hpost x.1 x.2 hx1
              exact ⟨[row], by simp [hrow, Except.map]⟩)
          obtain ⟨rows2, h2⟩ := forRange_returns
            (fun p => parsePostTokenBalance now slot i (buildMap pre) p.1 p.2)
            (ord.range i true (buildMap m.PostTokenBalances))
            (by
              intro x hx
              have hx1 : x ∈ buildMap m.PostTokenBalances := (ord.perm i true _).mem_iff.mp hx
              exact parsePostTokenBalance_returns now slot i pre m.PostTokenBalances hpost
                x.1 x.2 hx1)
          exact ⟨rows1 ++ rows2, by simp only [h1, h2]⟩

/-- On a complete block `ParseBlock` returns, with a nil error. -/
theorem ParseBlock_returns_of_complete (now : Time) (ord : MapOrder)
    (block : pb.SubscribeUpdateBlock) (hc : completeBlock block = true) :
    ParseBlock now ord block = Except.ok (aggregateOf now ord block, none) := by
  rw [ParseBlock_ok_iff]
  refine ⟨rfl, ?_, rfl⟩
  rintro ⟨k, tx⟩ hp
  obtain ⟨hk, hv⟩ := (mem_nonVote_source block k tx).mp hp
  unfold completeBlock at hc
  rw [List.all_eq_true] at hc
  have := hc tx (List.getElem?_mem hk)
  simp only [hv, Bool.false_or] at this
  exact txReturns_of_complete now ord block.Slot k tx this

theorem flatMap_congr_mem {α β : Type} (l : List α) (f g : α → List β)
    (h : ∀ x ∈ l, f x = g x) : l.flatMap f = l.flatMap g := by
  induction l with
  | nil => rfl
  | cons a l ih =>
    rw [List.flatMap_cons, List.flatMap_cons, h a (List.mem_cons_self _ _),
      ih (fun x hx => h x (List.mem_cons_of_mem _ hx))]

theorem flatMap_singleton_eq_map {α β : Type} (l : List α) (f : α → β) :
    l.flatMap (fun x => [f x]) = l.map f := by
  induction l with
  | nil => rfl
  | cons a l ih => simp [List.flatMap_cons, ih]

theorem length_nonVoteFrom (i : Nat) (txs : List pb.SubscribeUpdateTransactionInfo) :
    (nonVoteFrom i txs).length = (txs.filter (fun tx => !tx.IsVote)).length := by
  induction txs generalizing i with
  | nil => rfl
  | cons tx rest ih =>
    cases hv : tx.IsVote with
    | true => rw [nonVoteFrom_cons_vote i tx rest hv]; simp [hv, ih]
    | false => rw [nonVoteFrom_cons_nonVote i tx rest hv]; simp [hv, ih]

theorem txRow_index (now bt : Time) (slot : Nat) (bh : String) (i : Nat)
    (tx : pb.SubscribeUpdateTransactionInfo) (t : Transaction)
    (h : t ∈ txRow now bt slot bh i tx) : t.Slot = slot ∧ t.TransactionIndex = i := by
  unfold txRow at h
  cases hm : tx.Meta with
  | none => simp [hm] at h
  | some m =>
    simp only [hm, List.mem_singleton] at h
    subst h
    unfold parseTransactionRow
    rw [hm]
    dsimp only
    cases m.Err <;> cases m.ComputeUnitsConsumed <;> cases tx.Transaction with
    | none => exact ⟨rfl, rfl⟩
    | some t =>
      dsimp only
      cases t.Message with
      | none => exact ⟨rfl, rfl⟩
      | some msg =>
        dsimp only
        cases msg.Header <;> cases msg.RecentBlockhash <;> exact ⟨rfl, rfl⟩

theorem txRow_map_index (now bt : Time) (slot : Nat) (bh : String) (i : Nat)
    (tx : pb.SubscribeUpdateTransactionInfo) (m : pb.TransactionStatusMeta)
    (hm : tx.Meta = some m) :
    (txRow now bt slot bh i tx).map (fun t => t.TransactionIndex) = [i] := by
  have h1 : txRow now bt slot bh i tx = [parseTransactionRow now bt slot bh i tx m] := by
    simp [txRow, hm]
  have h2 := txRow_index now bt slot bh i tx (parseTransactionRow now bt slot bh i tx m)
    (by rw [h1]; exact List.mem_singleton_self _)
  rw [h1, List.map_singleton, h2.2]

theorem txInstructions_map_index (now : Time) (slot i : Nat)
    (tx : pb.SubscribeUpdateTransactionInfo) :
    (txInstructions now slot i tx).map (fun x => x.TransactionIndex)
      = List.replicate (instructionCount tx) i := by
  unfold txInstructions instructionCount
  cases txMessage tx with
  | none => rfl
  | some msg =>
    dsimp only
    unfold parseInstructions
    rw [List.map_map]
    have : ((fun x : Instruction => x.TransactionIndex) ∘
        fun p : Nat × pb.CompiledInstruction => parseInstruction now slot i msg p.1 p.2)
        = fun _ => i := by
      funext p
      exact (parseInstruction_key now slot i msg p.1 p.2).2.1
    rw [this, List.map_const', List.enum_length]

theorem txAccounts_map_index (now : Time) (slot i : Nat)
    (tx : pb.SubscribeUpdateTransactionInfo) (m : pb.TransactionStatusMeta)
    (hmeta : tx.Meta = some m) (rows : List TransactionAccount)
    (h : txAccounts now slot i tx = Except.ok rows) :
    rows.map (fun a => a.TransactionIndex) = List.replicate (accountKeyCount tx) i := by
  rcases txAccounts_rows now slot i tx m hmeta rows h with ⟨h1, h2⟩ |
    ⟨msg, keys, header, hmsg, hk, _, h2⟩
  · rw [h1, h2]; rfl
  · have hc : accountKeyCount tx = keys.length := by simp [accountKeyCount, hmsg, hk]
    rw [hc, h2, List.map_map]
    have : ((fun a : TransactionAccount => a.TransactionIndex) ∘
        fun p : Nat × List Byte => parseAccountRow now slot i header m keys p.1 p.2)
        = fun _ => i := by
      funext p
      exact (parseAccountRow_key now slot i header m keys p.1 p.2).2.1
    rw [this, List.map_const', List.enum_length]

theorem parseSignatures_map_index (now : Time) (slot i : Nat)
    (tx : pb.SubscribeUpdateTransactionInfo) :
    (parseSignatures now slot i tx).map (fun s => s.TransactionIndex)
      = List.replicate (signatureCount tx) i := by
  unfold parseSignatures signatureCount
  cases tx.Transaction with
  | none => rfl
  | some t =>
    dsimp only
    rw [List.map_map]
    have : ((fun s : TransactionSignature => s.TransactionIndex) ∘
        fun sig : List Byte =>
          ({ Signature := base58.Encode sig, Slot := slot, TransactionIndex := i,
             CreatedAt := now, UpdatedAt := now } : TransactionSignature))
        = fun _ => i := by
      funext p
      rfl
    rw [this, List.map_const']

/-- C1 (counterexample): in a block of two transactions of which the first is the
one vote, the single transaction row gets index 1, not 0. -/
theorem ParseBlock_vote_first_index_one :
    (sourceTransactions voteFirstBlock).length = 2 ∧
    ((sourceTransactions voteFirstBlock).filter (fun tx => tx.IsVote)).length = 1 ∧
    ∃ r, ParseBlock 0 MapOrder.insertion voteFirstBlock = Except.ok (r, none) ∧
      r.Transactions.map (fun t => t.TransactionIndex) = [1] ∧
      r.Transactions.map (fun t => t.TransactionIndex) ≠ [0] :=
  ⟨rfl, rfl, aggregateOf 0 MapOrder.insertion voteFirstBlock, rfl, rfl, by decide⟩

/-- C1 (amended): on every block on which `ParseBlock` returns, the transaction rows
carry, in source order, the positions in the source slice of the transactions
that are not votes (a vote does consume a position); the instruction, account and
signature rows of a transaction carry that same position, once per instruction,
account key and signature.  For a block of two transactions with one vote the
single row has index 1 when the vote comes first and 0 when it comes last. -/
theorem ParseBlock_index_is_source_position (now : Time) (ord : MapOrder)
    (block : pb.SubscribeUpdateBlock) (r : ParsedBlock) (e : Option GoError)
    (h : ParseBlock now ord block = Except.ok (r, e)) :
    r.Transactions.map (fun t => t.TransactionIndex)
      = (nonVoteFrom 0 (sourceTransactions block)).map (fun p => p.1) ∧
    r.TransactionInstructions.map (fun x => x.TransactionIndex)
      = (nonVoteFrom 0 (sourceTransactions block)).flatMap
          (fun p => List.replicate (instructionCount p.2) p.1) ∧
    r.TransactionAccounts.map (fun x => x.TransactionIndex)
      = (nonVoteFrom 0 (sourceTransactions block)).flatMap
          (fun p => List.replicate (accountKeyCount p.2) p.1) ∧
    r.TransactionSignatures.map (fun x => x.TransactionIndex)
      = (nonVoteFrom 0 (sourceTransactions block)).flatMap
          (fun p => List.replicate (signatureCount p.2) p.1) ∧
    (∀ a b, sourceTransactions block = [a, b] → a.IsVote = true → b.IsVote = false →
      r.Transactions.map (fun t => t.TransactionIndex) = [1]) ∧
    (∀ a b, sourceTransactions block = [a, b] → a.IsVote = false → b.IsVote = true →
      r.Transactions.map (fun t => t.TransactionIndex) = [0]) := by
  obtain ⟨_, hall, hr⟩ := (ParseBlock_ok_iff now ord block r e).mp h
  have h1 : r.Transactions.map (fun t => t.TransactionIndex)
      = (nonVoteFrom 0 (sourceTransactions block)).map (fun p => p.1) := by
    rw [hr]
    simp only [aggregateOf]
    rw [List.map_flatMap, ← flatMap_singleton_eq_map]
    apply flatMap_congr_mem
    intro p hp
    obtain ⟨⟨m, hm⟩, _, _⟩ := hall p hp
    exact txRow_map_index _ _ _ _ _ _ m hm
  refine ⟨h1, ?_, ?_, ?_, ?_, ?_⟩
  · rw [hr]
    simp only [aggregateOf]
    rw [List.map_flatMap]
    apply flatMap_congr_mem
    intro p _
    exact txInstructions_map_index _ _ _ _
  · rw [hr]
    simp only [aggregateOf]
    rw [List.map_flatMap]
    apply flatMap_congr_mem
    intro p hp
    obtain ⟨⟨m, hm⟩, ⟨rows, hrows⟩, _⟩ := hall p hp
    rw [hrows]
    exact txAccounts_map_index _ _ _ _ m hm rows hrows
  · rw [hr]
    simp only [aggregateOf]
    rw [List.map_flatMap]
    apply flatMap_congr_mem
    intro p _
    exact parseSignatures_map_index _ _ _ _
  · intro a b hab ha hb
    rw [h1, hab, nonVoteFrom_cons_vote 0 a [b] ha, nonVoteFrom_cons_nonVote 1 b [] hb]
    rfl
  · intro a b hab ha hb
    rw [h1, hab, nonVoteFrom_cons_nonVote 0 a [b] ha, nonVoteFrom_cons_vote 1 b [] hb]
    rfl

/-- C1 (witness): the amended statement at the sample block whose first transaction
is a vote. -/
theorem ParseBlock_index_is_source_position_witness :
    ParseBlock 7 MapOrder.insertion voteFirstBlock
      = Except.ok (aggregateOf 7 MapOrder.insertion voteFirstBlock, none) ∧
    (aggregateOf 7 MapOrder.insertion voteFirstBlock).Transactions.map
      (fun t => t.TransactionIndex) = [1] ∧
    (aggregateOf 7 MapOrder.insertion voteFirstBlock).TransactionInstructions.map
      (fun x => x.TransactionIndex) = [1, 1] ∧
    (aggregateOf 7 MapOrder.insertion voteFirstBlock).TransactionAccounts.map
      (fun x => x.TransactionIndex) = [1, 1, 1, 1] ∧
    (aggregateOf 7 MapOrder.insertion voteFirstBlock).TransactionSignatures.map
      (fun x => x.TransactionIndex) = [1, 1] :=
  have h := ParseBlock_index_is_source_position 7 MapOrder.insertion voteFirstBlock
    (aggregateOf 7 MapOrder.insertion voteFirstBlock) none rfl
  ⟨rfl, h.1, h.2.1, h.2.2.1, h.2.2.2.1⟩

/-- C2: on every block on which `ParseBlock` returns an aggregate, the number of
transaction rows is the number of source transactions whose `IsVote` flag is
false, and `Block.TransactionCount` is that number of rows. -/
theorem ParseBlock_transaction_count (now : Time) (ord : MapOrder)
    (block : pb.SubscribeUpdateBlock) (r : ParsedBlock) (e : Option GoError)
    (h : ParseBlock now ord block = Except.ok (r, e)) :
    r.Transactions.length
      = ((sourceTransactions block).filter (fun tx => tx.IsVote = false)).length ∧
    r.Block.TransactionCount = r.Transactions.length := by
  obtain ⟨_, hall, hr⟩ := (ParseBlock_ok_iff now ord block r e).mp h
  have hlen : r.Transactions.length = (nonVoteFrom 0 (sourceTransactions block)).length := by
    rw [hr]
    exact length_flatMap_txRow now _ _ _ _ (fun p hp => (hall p hp).1)
  have hcount : r.Block.TransactionCount = (nonVoteFrom 0 (sourceTransactions block)).length := by
    rw [hr]; rfl
  refine ⟨?_, by rw [hcount, hlen]⟩
  rw [hlen, length_nonVoteFrom]
  congr 1
  apply List.filter_congr
  intro tx _
  cases tx.IsVote <;> rfl

/-- C2 (witness): the sample block with one vote among two transactions has one
transaction row and a transaction count of one. -/
theorem ParseBlock_transaction_count_witness :
    ParseBlock 7 MapOrder.insertion voteLastBlock
      = Except.ok (aggregateOf 7 MapOrder.insertion voteLastBlock, none) ∧
    (aggregateOf 7 MapOrder.insertion voteLastBlock).Transactions.length = 1 ∧
    (aggregateOf 7 MapOrder.insertion voteLastBlock).Block.TransactionCount = 1 :=
  have h := ParseBlock_transaction_count 7 MapOrder.insertion voteLastBlock
    (aggregateOf 7 MapOrder.insertion voteLastBlock) none rfl
  ⟨rfl, h.1, h.2.trans h.1⟩

/-- C3: in every aggregate `ParseBlock` returns, every instruction, account,
token-balance, signature and log row has the slot of the block row, and its
transaction index is the index of a transaction row of that same slot. -/
theorem ParseBlock_no_orphan_rows (now : Time) (ord : MapOrder)
    (block : pb.SubscribeUpdateBlock) (r : ParsedBlock) (e : Option GoError)
    (h : ParseBlock now ord block = Except.ok (r, e)) :
    (∀ row ∈ r.TransactionInstructions, row.Slot = r.Block.Slot ∧
      ∃ t ∈ r.Transactions, t.Slot = row.Slot ∧ t.TransactionIndex = row.TransactionIndex) ∧
    (∀ row ∈ r.TransactionAccounts, row.Slot = r.Block.Slot ∧
      ∃ t ∈ r.Transactions, t.Slot = row.Slot ∧ t.TransactionIndex = row.TransactionIndex) ∧
    (∀ row ∈ r.TransactionTokenBalances, row.Slot = r.Block.Slot ∧
      ∃ t ∈ r.Transactions, t.Slot = row.Slot ∧ t.TransactionIndex = row.TransactionIndex) ∧
    (∀ row ∈ r.TransactionSignatures, row.Slot = r.Block.Slot ∧
      ∃ t ∈ r.Transactions, t.Slot = row.Slot ∧ t.TransactionIndex = row.TransactionIndex) ∧
    (∀ row ∈ r.TransactionLogs, row.Slot = r.Block.Slot ∧
      ∃ t ∈ r.Transactions, t.Slot = row.Slot ∧ t.TransactionIndex = row.TransactionIndex) := by
  obtain ⟨_, hall, hr⟩ := (ParseBlock_ok_iff now ord block r e).mp h
  have hslot : r.Block.Slot = block.Slot := by rw [hr]; rfl
  have hparent : ∀ p ∈ nonVoteFrom 0 (sourceTransactions block),
      ∃ t ∈ r.Transactions, t.Slot = block.Slot ∧ t.TransactionIndex = p.1 := by
    intro p hp
    obtain ⟨⟨m, hm⟩, _, _⟩ := hall p hp
    have hmem : parseTransactionRow now (pb.GetTimestamp block.BlockTime) block.Slot
        block.Blockhash p.1 p.2 m ∈ r.Transactions := by
      rw [hr]
      simp only [aggregateOf]
      exact List.mem_flatMap.mpr ⟨p, hp, by simp [txRow, hm]⟩
    have hkey := txRow_index now (pb.GetTimestamp block.BlockTime) block.Slot block.Blockhash
      p.1 p.2 _ (show parseTransactionRow now (pb.GetTimestamp block.BlockTime) block.Slot
        block.Blockhash p.1 p.2 m ∈ txRow now (pb.GetTimestamp block.BlockTime) block.Slot
          block.Blockhash p.1 p.2 by simp [txRow, hm])
    exact ⟨_, hmem, hkey.1, hkey.2⟩
  rw [hslot]
  refine ⟨?_, ?_, ?_, ?_, ?_⟩
  · intro row hrow
    rw [hr] at hrow
    obtain ⟨p, hp, hrow⟩ := List.mem_flatMap.mp hrow
    obtain ⟨h1, h2⟩ := txInstructions_key now block.Slot p.1 p.2 row hrow
    obtain ⟨t, ht, ht1, ht2⟩ := hparent p hp
    exact ⟨h1, t, ht, by rw [ht1, h1], by rw [ht2, h2]⟩
  · intro row hrow
    rw [hr] at hrow
    obtain ⟨p, hp, hrow⟩ := List.mem_flatMap.mp hrow
    obtain ⟨h1, h2⟩ := txAccounts_key now block.Slot p.1 p.2 row hrow
    obtain ⟨t, ht, ht1, ht2⟩ := hparent p hp
    exact ⟨h1, t, ht, by rw [ht1, h1], by rw [ht2, h2]⟩
  · intro row hrow
    rw [hr] at hrow
    obtain ⟨p, hp, hrow⟩ := List.mem_flatMap.mp hrow
    obtain ⟨h1, h2⟩ := txTokenBalances_key now ord block.Slot p.1 p.2 row hrow
    obtain ⟨t, ht, ht1, ht2⟩ := hparent p hp
    exact ⟨h1, t, ht, by rw [ht1, h1], by rw [ht2, h2]⟩
  · intro row hrow
    rw [hr] at hrow
    obtain ⟨p, hp, hrow⟩ := List.mem_flatMap.mp hrow
    obtain ⟨h1, h2⟩ := parseSignatures_key now block.Slot p.1 p.2 row hrow
    obtain ⟨t, ht, ht1, ht2⟩ := hparent p hp
    exact ⟨h1, t, ht, by rw [ht1, h1], by rw [ht2, h2]⟩
  · intro row hrow
    rw [hr] at hrow
    obtain ⟨h1, p, hp, h2⟩ := logsFrom_key now block.Slot _ 0 [] row hrow
    obtain ⟨t, ht, ht1, ht2⟩ := hparent p hp
    exact ⟨h1, t, ht, by rw [ht1, h1], by rw [ht2, h2]⟩

/-- C3 (witness): the statement at the sample block whose first transaction is a
vote. -/
theorem ParseBlock_no_orphan_rows_witness :
    ParseBlock 7 MapOrder.insertion voteFirstBlock
      = Except.ok (aggregateOf 7 MapOrder.insertion voteFirstBlock, none) ∧
    (aggregateOf 7 MapOrder.insertion voteFirstBlock).TransactionLogs.length = 2 ∧
    ∀ row ∈ (aggregateOf 7 MapOrder.insertion voteFirstBlock).TransactionLogs,
      row.Slot = (aggregateOf 7 MapOrder.insertion voteFirstBlock).Block.Slot ∧
      ∃ t ∈ (aggregateOf 7 MapOrder.insertion voteFirstBlock).Transactions,
        t.Slot = row.Slot ∧ t.TransactionIndex = row.TransactionIndex :=
  ⟨rfl, rfl, (ParseBlock_no_orphan_rows 7 MapOrder.insertion voteFirstBlock
    (aggregateOf 7 MapOrder.insertion voteFirstBlock) none rfl).2.2.2.2⟩

/-- The flags and balances of an account row. -/
theorem parseAccountRow_fields (now : Time) (slot i : Nat) (header : pb.MessageHeader)
    (m : pb.TransactionStatusMeta) (keys : List (List Byte)) (j : Nat) (key : List Byte) :
    (parseAccountRow now slot i header m keys j key).IsSigner
      = decide (j < header.NumRequiredSignatures) ∧
    (parseAccountRow now slot i header m keys j key).IsWritable
      = (decide (j < u32sub header.NumRequiredSignatures header.NumReadonlySignedAccounts)
          || (decide (j ≥ header.NumRequiredSignatures)
              && decide ((j : Int) < (keys.length : Int) - (header.NumReadonlyUnsignedAccounts : Int)))) ∧
    (parseAccountRow now slot i header m keys j key).PreBalance = (m.PreBalances[j]?).getD 0 ∧
    (parseAccountRow now slot i header m keys j key).PostBalance = (m.PostBalances[j]?).getD 0 ∧
    (parseAccountRow now slot i header m keys j key).BalanceChange
      = (if j < m.PostBalances.length ∧ 0 < (m.PreBalances[j]?).getD 0 then
          int64sub (toInt64 (((m.PostBalances[j]?).getD 0 : Nat) : Int))
            (toInt64 (((m.PreBalances[j]?).getD 0 : Nat) : Int))
        else 0) ∧
    (parseAccountRow now slot i header m keys j key).Pubkey = base58.Encode key ∧
    (parseAccountRow now slot i header m keys j key).AccountAddress = base58.Encode key := by
  unfold parseAccountRow
  dsimp only
  by_cases h1 : j < m.PreBalances.length <;> by_cases h2 : j < m.PostBalances.length
  · simp only [h1, h2, dite_true, List.get_eq_getElem, List.getElem?_eq_getElem,
      Option.getD_some, true_and]
    by_cases h3 : 0 < m.PreBalances[j]
    · simp [h3]
    · simp [h3]
  · simp [h1, h2, List.getElem?_eq_none (Nat.le_of_not_lt h2)]
  · simp [h1, h2, List.getElem?_eq_none (Nat.le_of_not_lt h1)]
  · simp [h1, h2, List.getElem?_eq_none (Nat.le_of_not_lt h1),
      List.getElem?_eq_none (Nat.le_of_not_lt h2)]

/-- The account rows of the transaction at position `i`, in a returned aggregate. -/
theorem accounts_of_position (now : Time) (ord : MapOrder) (block : pb.SubscribeUpdateBlock)
    (r : ParsedBlock) (e : Option GoError)
    (h : ParseBlock now ord block = Except.ok (r, e))
    (i : Nat) (tx : pb.SubscribeUpdateTransactionInfo)
    (htx : (sourceTransactions block)[i]? = some tx) (hv : tx.IsVote = false) :
    ∃ m, tx.Meta = some m ∧
      ((accountKeyCount tx = 0 ∧
          r.TransactionAccounts.filter (fun a => decide (a.TransactionIndex = i)) = []) ∨
       (∃ msg keys header, txMessage tx = some msg ∧ msg.AccountKeys = some keys ∧
          msg.Header = some header ∧
          r.TransactionAccounts.filter (fun a => decide (a.TransactionIndex = i))
            = keys.enum.map (fun p => parseAccountRow now block.Slot i header m keys p.1 p.2))) := by
  obtain ⟨_, hall, hr⟩ := (ParseBlock_ok_iff now ord block r e).mp h
  have hp : (i, tx) ∈ nonVoteFrom 0 (sourceTransactions block) :=
    (mem_nonVote_source block i tx).mpr ⟨htx, hv⟩
  obtain ⟨⟨m, hm⟩, ⟨rows, hrows⟩, _⟩ := hall (i, tx) hp
  have hfilter : r.TransactionAccounts.filter (fun a => decide (a.TransactionIndex = i)) = rows := by
    rw [hr]
    simp only [aggregateOf]
    rw [filter_flatMap_position (fun a : TransactionAccount => a.TransactionIndex)
      (fun p => rowsOf (txAccounts now block.Slot p.1 p.2)) _ i tx
      (nodup_nonVoteFrom 0 _) hp
      (fun p _ b hb => (txAccounts_key now block.Slot p.1 p.2 b hb).2)]
    simp only [hrows, rowsOf]
  refine ⟨m, hm, ?_⟩
  rw [hfilter]
  exact txAccounts_rows now block.Slot i tx m hm rows hrows

/-- Where an account row of a returned aggregate comes from. -/
theorem mem_accounts (now : Time) (ord : MapOrder) (block : pb.SubscribeUpdateBlock)
    (r : ParsedBlock) (e : Option GoError)
    (h : ParseBlock now ord block = Except.ok (r, e))
    (row : TransactionAccount) (hrow : row ∈ r.TransactionAccounts) :
    ∃ tx msg m keys header key,
      (sourceTransactions block)[row.TransactionIndex]? = some tx ∧ tx.IsVote = false ∧
      txMessage tx = some msg ∧ tx.Meta = some m ∧ msg.AccountKeys = some keys ∧
      msg.Header = some header ∧ keys[row.AccountIndex]? = some key ∧
      row = parseAccountRow now block.Slot row.TransactionIndex header m keys row.AccountIndex key := by
  obtain ⟨_, hall, hr⟩ := (ParseBlock_ok_iff now ord block r e).mp h
  rw [hr] at hrow
  obtain ⟨⟨i, tx⟩, hp, hrow⟩ := List.mem_flatMap.mp hrow
  obtain ⟨htx, hv⟩ := (mem_nonVote_source block i tx).mp hp
  obtain ⟨⟨m, hm⟩, ⟨rows, hrows⟩, _⟩ := hall (i, tx) hp
  simp only [hrows, rowsOf] at hrow
  rcases txAccounts_rows now block.Slot i tx m hm rows hrows with ⟨_, h2⟩ |
    ⟨msg, keys, header, hmsg, hk, hh, h2⟩
  · subst h2; cases hrow
  · subst h2
    obtain ⟨⟨j, key⟩, hjk, hrow⟩ := List.mem_map.mp hrow
    have hkey := parseAccountRow_key now block.Slot i header m keys j key
    have hj : keys[j]? = some key := List.mk_mem_enum_iff_getElem?.mp hjk
    subst hrow
    refine ⟨tx, msg, m, keys, header, key, ?_, hv, hmsg, hm, hk, hh, ?_, ?_⟩
    · rw [hkey.2.1]; exact htx
    · rw [hkey.2.2]; exact hj
    · rw [hkey.2.1, hkey.2.2]

/-- The account row of a key of a transaction that is not a vote is in the returned
aggregate. -/
theorem accounts_mem (now : Time) (ord : MapOrder) (block : pb.SubscribeUpdateBlock)
    (r : ParsedBlock) (e : Option GoError)
    (h : ParseBlock now ord block = Except.ok (r, e))
    (i : Nat) (tx : pb.SubscribeUpdateTransactionInfo) (msg : pb.Message)
    (keys : List (List Byte)) (j : Nat) (key : List Byte)
    (htx : (sourceTransactions block)[i]? = some tx) (hv : tx.IsVote = false)
    (hmsg : txMessage tx = some msg) (hk : msg.AccountKeys = some keys)
    (hj : keys[j]? = some key) :
    ∃ m header, tx.Meta = some m ∧ msg.Header = some header ∧
      parseAccountRow now block.Slot i header m keys j key ∈ r.TransactionAccounts := by
  obtain ⟨m, hm, hcases⟩ := accounts_of_position now ord block r e h i tx htx hv
  rcases hcases with ⟨h0, _⟩ | ⟨msg1, keys1, header, hmsg1, hk1, hh, hrows⟩
  · simp only [accountKeyCount, hmsg, hk, List.length_eq_zero] at h0
    subst h0
    simp at hj
  · rw [hmsg] at hmsg1
    cases hmsg1
    rw [hk] at hk1
    cases hk1
    refine ⟨m, header, hm, hh, ?_⟩
    have : parseAccountRow now block.Slot i header m keys j key
        ∈ r.TransactionAccounts.filter (fun a => decide (a.TransactionIndex = i)) := by
      rw [hrows]
      exact List.mem_map.mpr ⟨(j, key), List.mk_mem_enum_iff_getElem?.mpr hj, rfl⟩
    exact (List.mem_filter.mp this).1

/-- C4 (the code at the failing input): with 1 required signature, 2 read-only signed
accounts, 1 read-only unsigned account and 1 account key, neither interval of the
claim contains index 0, yet the row of index 0 is writable: the `uint32`
difference `1 - 2` wraps around to `4294967295`. -/
theorem ParseBlock_readonly_excess_is_writable :
    u32sub 1 2 = 4294967295 ∧
    ¬ ((0 : Int) ≤ 0 ∧ (0 : Int) < 1 - 2) ∧ ¬ ((1 : Int) ≤ 0 ∧ (0 : Int) < 1 - 1) ∧
    ∃ r, ParseBlock 0 MapOrder.insertion readonlyExcessBlock = Except.ok (r, none) ∧
      r.TransactionAccounts.map (fun a => (a.AccountIndex, a.IsWritable)) = [(0, true)] :=
  ⟨rfl, by decide, by decide, aggregateOf 0 MapOrder.insertion readonlyExcessBlock, rfl, rfl⟩

/-- The writable flag follows the two intervals of the header whenever the read-only
signed accounts do not exceed the required signatures (all counts being `uint32`
values): then the `uint32` difference does not wrap around. -/
theorem parseAccountRow_isWritable_of_le (now : Time) (slot i : Nat)
    (header : pb.MessageHeader) (m : pb.TransactionStatusMeta) (keys : List (List Byte))
    (j : Nat) (key : List Byte)
    (hreq : header.NumRequiredSignatures < 2 ^ 32)
    (hle : header.NumReadonlySignedAccounts ≤ header.NumRequiredSignatures) :
    (parseAccountRow now slot i header m keys j key).IsWritable = true ↔
      ((0 : Int) ≤ j ∧ (j : Int)
          < (header.NumRequiredSignatures : Int) - (header.NumReadonlySignedAccounts : Int)) ∨
      ((header.NumRequiredSignatures : Int) ≤ j ∧ (j : Int)
          < (keys.length : Int) - (header.NumReadonlyUnsignedAccounts : Int)) := by
  rw [(parseAccountRow_fields now slot i header m keys j key).2.1]
  have hsub : u32sub header.NumRequiredSignatures header.NumReadonlySignedAccounts
      = header.NumRequiredSignatures - header.NumReadonlySignedAccounts := by
    unfold u32sub
    have h1 : header.NumReadonlySignedAccounts < 2 ^ 32 := Nat.lt_of_le_of_lt hle hreq
    rw [Nat.mod_eq_of_lt hreq, Nat.mod_eq_of_lt h1]
    omega
  rw [hsub]
  simp only [Bool.or_eq_true, Bool.and_eq_true, decide_eq_true_eq, ge_iff_le]
  omega

/-- C5: in every aggregate `ParseBlock` returns, an account row is a signer exactly
when its account index is below the number of required signatures of the header
of its transaction; and every account key of a transaction that is not a vote
has such a row. -/
theorem ParseBlock_isSigner (now : Time) (ord : MapOrder) (block : pb.SubscribeUpdateBlock)
    (r : ParsedBlock) (e : Option GoError)
    (h : ParseBlock now ord block = Except.ok (r, e)) :
    (∀ row ∈ r.TransactionAccounts, ∃ tx msg header keys,
      (sourceTransactions block)[row.TransactionIndex]? = some tx ∧ tx.IsVote = false ∧
      txMessage tx = some msg ∧ msg.Header = some header ∧ msg.AccountKeys = some keys ∧
      row.AccountIndex < keys.length ∧
      (row.IsSigner = true ↔ row.AccountIndex < header.NumRequiredSignatures)) ∧
    (∀ i tx msg keys j, (sourceTransactions block)[i]? = some tx → tx.IsVote = false →
      txMessage tx = some msg → msg.AccountKeys = some keys → j < keys.length →
      ∃ header, msg.Header = some header ∧
        ∃ row ∈ r.TransactionAccounts, row.TransactionIndex = i ∧ row.AccountIndex = j ∧
          (row.IsSigner = true ↔ j < header.NumRequiredSignatures)) := by
  constructor
  · intro row hrow
    obtain ⟨tx, msg, m, keys, header, key, htx, hv, hmsg, _, hk, hh, hj, hrw⟩ :=
      mem_accounts now ord block r e h row hrow
    refine ⟨tx, msg, header, keys, htx, hv, hmsg, hh, hk, ?_, ?_⟩
    · exact (List.getElem?_eq_some_iff.mp hj).1
    · have hs := (parseAccountRow_fields now block.Slot row.TransactionIndex header m keys
        row.AccountIndex key).1
      rw [← hrw] at hs
      rw [hs]
      simp
  · intro i tx msg keys j htx hv hmsg hk hj
    obtain ⟨m, header, _, hh, hmem⟩ := accounts_mem now ord block r e h i tx msg keys j
      (keys.get ⟨j, hj⟩) htx hv hmsg hk (by simp)
    refine ⟨header, hh, _, hmem, ?_, ?_, ?_⟩
    · exact (parseAccountRow_key now block.Slot i header m keys j _).2.1
    · exact (parseAccountRow_key now block.Slot i header m keys j _).2.2
    · rw [(parseAccountRow_fields now block.Slot i header m keys j _).1]
      simp

/-- C5 (witness): the signer flags of the sample block. -/
theorem ParseBlock_isSigner_witness :
    ParseBlock 7 MapOrder.insertion voteFirstBlock
      = Except.ok (aggregateOf 7 MapOrder.insertion voteFirstBlock, none) ∧
    (aggregateOf 7 MapOrder.insertion voteFirstBlock).TransactionAccounts.map
      (fun a => (a.AccountIndex, a.IsSigner)) = [(0, true), (1, true), (2, false), (3, false)] ∧
    ∀ row ∈ (aggregateOf 7 MapOrder.insertion voteFirstBlock).TransactionAccounts,
      ∃ tx msg header keys,
        (sourceTransactions voteFirstBlock)[row.TransactionIndex]? = some tx ∧
        tx.IsVote = false ∧ txMessage tx = some msg ∧ msg.Header = some header ∧
        msg.AccountKeys = some keys ∧ row.AccountIndex < keys.length ∧
        (row.IsSigner = true ↔ row.AccountIndex < header.NumRequiredSignatures) :=
  ⟨rfl, rfl, (ParseBlock_isSigner 7 MapOrder.insertion voteFirstBlock
    (aggregateOf 7 MapOrder.insertion voteFirstBlock) none rfl).1⟩

/-- C6: for a transaction that is not a vote, with 4 account keys and the header
counts 2 required signatures, 1 read-only signed and 1 read-only unsigned
account, every aggregate `ParseBlock` returns holds for it exactly 4 account rows,
of account indices 0 to 3, signer flags true, true, false, false and writable
flags true, false, true, false; and `ParseBlock` does return on every complete
block. -/
theorem ParseBlock_account_flags_scenario (now : Time) (ord : MapOrder)
    (block : pb.SubscribeUpdateBlock) (i : Nat) (tx : pb.SubscribeUpdateTransactionInfo)
    (msg : pb.Message) (keys : List (List Byte))
    (htx : (sourceTransactions block)[i]? = some tx) (hv : tx.IsVote = false)
    (hmsg : txMessage tx = some msg) (hk : msg.AccountKeys = some keys)
    (hlen : keys.length = 4)
    (hh : msg.Header = some { NumRequiredSignatures := 2, NumReadonlySignedAccounts := 1,
                              NumReadonlyUnsignedAccounts := 1 }) :
    (∀ r e, ParseBlock now ord block = Except.ok (r, e) →
      (r.TransactionAccounts.filter (fun a => decide (a.TransactionIndex = i))).map
          (fun a => (a.AccountIndex, a.IsSigner, a.IsWritable))
        = [(0, true, true), (1, true, false), (2, false, true), (3, false, false)]) ∧
    (completeBlock block = true → ∃ r, ParseBlock now ord block = Except.ok (r, none)) := by
  refine ⟨?_, fun hc => ⟨_, ParseBlock_returns_of_complete now ord block hc⟩⟩
  intro r e h
  obtain ⟨m, _, hcases⟩ := accounts_of_position now ord block r e h i tx htx hv
  rcases hcases with ⟨h0, _⟩ | ⟨msg1, keys1, header, hmsg1, hk1, hh1, hrows⟩
  · simp [accountKeyCount, hmsg, hk, hlen] at h0
  · rw [hmsg] at hmsg1
    cases hmsg1
    rw [hk] at hk1
    cases hk1
    rw [hh] at hh1
    cases hh1
    rw [hrows, List.map_map]
    match keys, hlen with
    | [k0, k1, k2, k3], _ =>
      simp only [List.enum_cons, List.enumFrom_cons, List.enumFrom_nil, List.map_cons,
        List.map_nil, Function.comp, parseAccountRow_key, parseAccountRow_fields]
      rfl

/-- C6 (witness): the scenario at the sample block, whose transaction at position 1
has that header and 4 account keys. -/
theorem ParseBlock_account_flags_scenario_witness :
    ParseBlock 7 MapOrder.insertion voteFirstBlock
      = Except.ok (aggregateOf 7 MapOrder.insertion voteFirstBlock, none) ∧
    ((aggregateOf 7 MapOrder.insertion voteFirstBlock).TransactionAccounts.filter
        (fun a => decide (a.TransactionIndex = 1))).map
          (fun a => (a.AccountIndex, a.IsSigner, a.IsWritable))
      = [(0, true, true), (1, true, false), (2, false, true), (3, false, false)] :=
  ⟨rfl, (ParseBlock_account_flags_scenario 7 MapOrder.insertion voteFirstBlock 1 sampleTx
    sampleMessage [[0, 1], [2], [3], [4]] rfl rfl rfl rfl rfl rfl).1
    (aggregateOf 7 MapOrder.insertion voteFirstBlock) none rfl⟩

/-- C9: in every aggregate `ParseBlock` returns, an account row whose pre-balance
list has no entry at its account index, or the entry 0, has the balance change 0;
so a balance change other than 0 comes with a present, positive pre-balance. -/
theorem ParseBlock_balanceChange_unset (now : Time) (ord : MapOrder)
    (block : pb.SubscribeUpdateBlock) (r : ParsedBlock) (e : Option GoError)
    (h : ParseBlock now ord block = Except.ok (r, e)) :
    ∀ row ∈ r.TransactionAccounts, ∃ tx m,
      (sourceTransactions block)[row.TransactionIndex]? = some tx ∧ tx.IsVote = false ∧
      tx.Meta = some m ∧
      ((m.PreBalances[row.AccountIndex]? = none ∨ m.PreBalances[row.AccountIndex]? = some 0) →
        row.BalanceChange = 0) ∧
      (row.BalanceChange ≠ 0 →
        ∃ pre, m.PreBalances[row.AccountIndex]? = some pre ∧ 0 < pre) := by
  intro row hrow
  obtain ⟨tx, msg, m, keys, header, key, htx, hv, _, hm, _, _, _, hrw⟩ :=
    mem_accounts now ord block r e h row hrow
  have hbc := (parseAccountRow_fields now block.Slot row.TransactionIndex header m keys
    row.AccountIndex key).2.2.2.2.1
  rw [← hrw] at hbc
  have h1 : (m.PreBalances[row.AccountIndex]? = none ∨ m.PreBalances[row.AccountIndex]? = some 0) →
      row.BalanceChange = 0 := by
    intro hpre
    rw [hbc]
    rcases hpre with hpre | hpre <;> simp [hpre]
  refine ⟨tx, m, htx, hv, hm, h1, ?_⟩
  intro hne
  cases hpre : m.PreBalances[row.AccountIndex]? with
  | none => exact absurd (h1 (Or.inl hpre)) hne
  | some pre =>
    refine ⟨pre, rfl, ?_⟩
    rcases Nat.eq_zero_or_pos pre with h0 | h0
    · subst h0; exact absurd (h1 (Or.inr hpre)) hne
    · exact h0

/-- C9 (witness): in the sample block the rows of the account indices 1 (pre-balance
0) and 3 (no pre-balance) have the balance change 0 although their post-balances
are 3 and 1. -/
theorem ParseBlock_balanceChange_unset_witness :
    ParseBlock 7 MapOrder.insertion voteFirstBlock
      = Except.ok (aggregateOf 7 MapOrder.insertion voteFirstBlock, none) ∧
    (aggregateOf 7 MapOrder.insertion voteFirstBlock).TransactionAccounts.map
      (fun a => (a.AccountIndex, a.PreBalance, a.PostBalance, a.BalanceChange))
      = [(0, 10, 7, -3), (1, 0, 3, 0), (2, 8, 8, 0), (3, 0, 1, 0)] ∧
    ∀ row ∈ (aggregateOf 7 MapOrder.insertion voteFirstBlock).TransactionAccounts, ∃ tx m,
      (sourceTransactions voteFirstBlock)[row.TransactionIndex]? = some tx ∧ tx.IsVote = false ∧
      tx.Meta = some m ∧
      ((m.PreBalances[row.AccountIndex]? = none ∨ m.PreBalances[row.AccountIndex]? = some 0) →
        row.BalanceChange = 0) ∧
      (row.BalanceChange ≠ 0 →
        ∃ pre, m.PreBalances[row.AccountIndex]? = some pre ∧ 0 < pre) :=
  ⟨rfl, rfl, ParseBlock_balanceChange_unset 7 MapOrder.insertion voteFirstBlock
    (aggregateOf 7 MapOrder.insertion voteFirstBlock) none rfl⟩

/-- C7 (the code at the failing input): a transaction without a pre-token-balance list
and with one post-token-balance record, of account index 3, gets no token-balance
row at all, whatever the clock reading and the map order. -/
theorem ParseBlock_post_only_dropped (now : Time) (ord : MapOrder) :
    (sourceTransactions postOnlyBlock).map
        (fun tx => (tx.Meta.map (fun m => m.PreTokenBalances),
          tx.Meta.map (fun m => m.PostTokenBalances.map (fun b => b.AccountIndex))))
      = [(some none, some [3])] ∧
    ∃ r, ParseBlock now ord postOnlyBlock = Except.ok (r, none) ∧
      r.Transactions.length = 1 ∧ r.TransactionTokenBalances = [] :=
  ⟨rfl, _, rfl, rfl, rfl⟩

/-- The keys of the rows a loop appends, from the keys each iteration appends. -/
theorem forRange_map_key {α β γ : Type} (f : α → Except Panic (List β)) (key : β → γ)
    (c : α → List γ) (l : List α) (rows : List β) (h : forRange f l = Except.ok rows)
    (hc : ∀ x ∈ l, ∀ ys, f x = Except.ok ys → ys.map key = c x) :
    rows.map key = l.flatMap c := by
  obtain ⟨h1, h2⟩ := (forRange_ok_iff f l rows).mp h
  rw [h2, List.map_flatMap]
  apply flatMap_congr_mem
  intro x hx
  obtain ⟨ys, hys⟩ := h1 x hx
  rw [hys]
  exact hc x hx ys hys

theorem flatMap_ite_singleton {α β : Type} (l : List α) (p : α → Bool) (g : α → β) :
    l.flatMap (fun x => if p x = true then [g x] else []) = (l.filter p).map g := by
  induction l with
  | nil => rfl
  | cons a l ih =>
    rw [List.flatMap_cons, ih]
    cases hp : p a <;> simp [List.filter_cons, hp]

/-- The token-balance rows of the transaction at position `i`, in a returned
aggregate. -/
theorem tokenBalances_of_position (now : Time) (ord : MapOrder)
    (block : pb.SubscribeUpdateBlock) (r : ParsedBlock) (e : Option GoError)
    (h : ParseBlock now ord block = Except.ok (r, e))
    (i : Nat) (tx : pb.SubscribeUpdateTransactionInfo)
    (htx : (sourceTransactions block)[i]? = some tx) (hv : tx.IsVote = false) :
    txTokenBalances now ord block.Slot i tx = Except.ok
      (r.TransactionTokenBalances.filter (fun a => decide (a.TransactionIndex = i))) := by
  obtain ⟨_, hall, hr⟩ := (ParseBlock_ok_iff now ord block r e).mp h
  have hp : (i, tx) ∈ nonVoteFrom 0 (sourceTransactions block) :=
    (mem_nonVote_source block i tx).mpr ⟨htx, hv⟩
  obtain ⟨_, _, ⟨rows, hrows⟩⟩ := hall (i, tx) hp
  rw [hr]
  simp only [aggregateOf]
  rw [filter_flatMap_position (fun a : TransactionTokenBalance => a.TransactionIndex)
    (fun p => rowsOf (txTokenBalances now ord block.Slot p.1 p.2)) _ i tx
    (nodup_nonVoteFrom 0 _) hp
    (fun p _ b hb => (txTokenBalances_key now ord block.Slot p.1 p.2 b hb).2)]
  simp only [hrows, rowsOf]

/-- When the pre-token-balance list of a transaction is present (not nil), the
account indices of its token-balance rows are the account indices of its pre and
post lists, each once. -/
theorem tokenBalance_indices_of_present_pre (now : Time) (ord : MapOrder)
    (block : pb.SubscribeUpdateBlock) (r : ParsedBlock) (e : Option GoError)
    (h : ParseBlock now ord block = Except.ok (r, e))
    (i : Nat) (tx : pb.SubscribeUpdateTransactionInfo) (msg : pb.Message)
    (m : pb.TransactionStatusMeta) (pre : List pb.TokenBalance)
    (htx : (sourceTransactions block)[i]? = some tx) (hv : tx.IsVote = false)
    (hmsg : txMessage tx = some msg) (hm : tx.Meta = some m)
    (hpre : m.PreTokenBalances = some pre) :
    ((r.TransactionTokenBalances.filter (fun a => decide (a.TransactionIndex = i))).map
        (fun a => a.AccountIndex)).Nodup ∧
    ∀ k, k ∈ (r.TransactionTokenBalances.filter (fun a => decide (a.TransactionIndex = i))).map
        (fun a => a.AccountIndex) ↔
      (k ∈ pre.map (fun b => b.AccountIndex)
        ∨ k ∈ m.PostTokenBalances.map (fun b => b.AccountIndex)) := by
  have hrows := tokenBalances_of_position now ord block r e h i tx htx hv
  rcases txTokenBalances_rows now ord block.Slot i tx _ hrows with ⟨_, h1 | h1 | ⟨m1, h1, h2⟩⟩ |
    ⟨msg1, m1, pre1, rows1, rows2, _, hm1, hpre1, hf1, hf2, hrw⟩
  · rw [hmsg] at h1; cases h1
  · rw [hm] at h1; cases h1
  · rw [hm] at h1; cases h1; rw [hpre] at h2; cases h2
  · rw [hm] at hm1
    cases hm1
    rw [hpre] at hpre1
    cases hpre1
    have hk1 : rows1.map (fun a => a.AccountIndex)
        = (ord.range i false (buildMap pre)).map (fun p => p.1) := by
      rw [← flatMap_singleton_eq_map (ord.range i false (buildMap pre)) (fun p => p.1)]
      apply forRange_map_key _ _ _ _ _ hf1
      intro x _ ys hys
      cases hq : parsePreTokenBalance now block.Slot i (buildMap m.PostTokenBalances) x.1 x.2 with
      | error err => simp [hq, Except.map] at hys
      | ok row =>
        simp only [hq, Except.map, Except.ok.injEq] at hys
        subst hys
        simp [(parsePreTokenBalance_key now block.Slot i _ x.1 x.2 row hq).2.2]
    have hk2 : rows2.map (fun a => a.AccountIndex)
        = ((ord.range i true (buildMap m.PostTokenBalances)).filter
            (fun p => (TokenMap.get? (buildMap pre) p.1).isNone)).map (fun p => p.1) := by
      rw [← flatMap_ite_singleton (ord.range i true (buildMap m.PostTokenBalances))
        (fun p => (TokenMap.get? (buildMap pre) p.1).isNone) (fun p => p.1)]
      apply forRange_map_key _ _ _ _ _ hf2
      intro x _ ys hys
      have hkey := parsePostTokenBalance_key now block.Slot i (buildMap pre) x.1 x.2 ys hys
      unfold parsePostTokenBalance at hys
      cases hq : TokenMap.get? (buildMap pre) x.1 with
      | some v =>
        simp only [hq, Except.ok.injEq] at hys
        subst hys
        simp
      | none =>
        simp only [hq] at hys
        cases hu : x.2.UiTokenAmount with
        | none => simp [hu, deref] at hys
        | some ui =>
          simp only [hu, deref, Except.ok.injEq] at hys
          subst hys
          simp
    have hperm1 : ((ord.range i false (buildMap pre)).map (fun p => p.1)).Perm
        ((buildMap pre).map (fun p => p.1)) := (ord.perm i false _).map _
    have hperm2 : ((ord.range i true (buildMap m.PostTokenBalances)).map (fun p => p.1)).Perm
        ((buildMap m.PostTokenBalances).map (fun p => p.1)) := (ord.perm i true _).map _
    have hmem2 : ∀ k, k ∈ rows2.map (fun a => a.AccountIndex) ↔
        (k ∈ m.PostTokenBalances.map (fun b => b.AccountIndex)
          ∧ k ∉ pre.map (fun b => b.AccountIndex)) := by
      intro k
      rw [hk2]
      constructor
      · intro hk
        obtain ⟨p, hp, hpk⟩ := List.mem_map.mp hk
        obtain ⟨hp1, hp2⟩ := List.mem_filter.mp hp
        rw [Option.isNone_iff_eq_none, TokenMap.get?_eq_none_iff, buildMap_mem_keys] at hp2
        have : p.1 ∈ (buildMap m.PostTokenBalances).map (fun e => e.1) :=
          List.mem_map_of_mem (fun e => e.1) ((ord.perm i true _).mem_iff.mp hp1)
        rw [buildMap_mem_keys] at this
        rw [← hpk]
        exact ⟨this, hp2⟩
      · rintro ⟨hk, hnk⟩
        have : k ∈ (buildMap m.PostTokenBalances).map (fun e => e.1) :=
          (buildMap_mem_keys _ _).mpr hk
        obtain ⟨p, hp, hpk⟩ := List.mem_map.mp this
        refine List.mem_map.mpr ⟨p, List.mem_filter.mpr ⟨(ord.perm i true _).mem_iff.mpr hp, ?_⟩, hpk⟩
        rw [Option.isNone_iff_eq_none, TokenMap.get?_eq_none_iff, buildMap_mem_keys, hpk]
        exact hnk
    have hmem1 : ∀ k, k ∈ rows1.map (fun a => a.AccountIndex) ↔
        k ∈ pre.map (fun b => b.AccountIndex) := by
      intro k
      rw [hk1, hperm1.mem_iff, buildMap_mem_keys]
    rw [hrw, List.map_append]
    constructor
    · rw [List.nodup_append]
      refine ⟨?_, ?_, ?_⟩
      · rw [hk1]
        exact (hperm1.nodup_iff).mpr (buildMap_nodup pre)
      · rw [hk2]
        exact ((hperm2.nodup_iff).mpr (buildMap_nodup _)).sublist
          (List.Sublist.map _ (List.filter_sublist _))
      · intro k hk1' hk2'
        exact ((hmem2 k).mp hk2').2 ((hmem1 k).mp hk1')
    · intro k
      rw [List.mem_append, hmem1, hmem2]
      tauto

/-- The fields of the row of an entry of the pre map. -/
theorem parsePreTokenBalance_fields (now : Time) (slot i : Nat) (postBalMap : TokenMap)
    (idx : Nat) (preBal : pb.TokenBalance) (row : TransactionTokenBalance)
    (h : parsePreTokenBalance now slot i postBalMap idx preBal = Except.ok row) :
    ∃ preUi, preBal.UiTokenAmount = some preUi ∧
      row.Mint = preBal.Mint ∧ row.Owner = preBal.Owner ∧ row.Decimals = preUi.Decimals ∧
      row.PreAmount = preUi.Amount ∧ row.PreUiAmount = preUi.UiAmount ∧
      (∀ postBal, TokenMap.get? postBalMap idx = some postBal →
        ∃ postUi, postBal.UiTokenAmount = some postUi ∧
          row.PostAmount = postUi.Amount ∧ row.PostUiAmount = postUi.UiAmount ∧
          row.Amount = postUi.Amount ∧ row.UiTokenAmount = postUi.UiAmount) ∧
      (TokenMap.get? postBalMap idx = none →
        row.PostAmount = "" ∧ row.PostUiAmount = 0 ∧ row.Amount = "" ∧ row.UiTokenAmount = 0) := by
  unfold parsePreTokenBalance at h
  cases h1 : preBal.UiTokenAmount with
  | none => simp [h1, deref] at h
  | some preUi =>
    simp only [h1, deref] at h
    cases h2 : TokenMap.get? postBalMap idx with
    | none =>
      simp only [h2, Except.ok.injEq] at h
      subst h
      exact ⟨preUi, rfl, rfl, rfl, rfl, rfl, rfl, fun _ hq => (by cases hq),
        fun _ => ⟨rfl, rfl, rfl, rfl⟩⟩
    | some postBal =>
      simp only [h2] at h
      cases h3 : postBal.UiTokenAmount with
      | none => simp [h3] at h
      | some postUi =>
        simp only [h3, Except.ok.injEq] at h
        subst h
        refine ⟨preUi, rfl, rfl, rfl, rfl, rfl, rfl, ?_, fun hq => (by cases hq)⟩
        intro q hq
        cases hq
        exact ⟨postUi, h3, rfl, rfl, rfl, rfl⟩

/-- The fields of the row of an entry of the post map whose key the pre map lacks. -/
theorem parsePostTokenBalance_fields (now : Time) (slot i : Nat) (preBalMap : TokenMap)
    (idx : Nat) (postBal : pb.TokenBalance) (rows : List TransactionTokenBalance)
    (h : parsePostTokenBalance now slot i preBalMap idx postBal = Except.ok rows)
    (row : TransactionTokenBalance) (hrow : row ∈ rows) :
    TokenMap.get? preBalMap idx = none ∧
    ∃ postUi, postBal.UiTokenAmount = some postUi ∧
      row.Mint = postBal.Mint ∧ row.Owner = postBal.Owner ∧ row.Decimals = postUi.Decimals ∧
      row.PreAmount = "" ∧ row.PreUiAmount = 0 ∧
      row.PostAmount = postUi.Amount ∧ row.PostUiAmount = postUi.UiAmount ∧
      row.Amount = postUi.Amount ∧ row.UiTokenAmount = postUi.UiAmount := by
  unfold parsePostTokenBalance at h
  cases h2 : TokenMap.get? preBalMap idx with
  | some _ =>
    simp only [h2, Except.ok.injEq] at h
    subst h
    cases hrow
  | none =>
    simp only [h2] at h
    cases h3 : postBal.UiTokenAmount with
    | none => simp [h3, deref] at h
    | some postUi =>
      simp only [h3, deref, Except.ok.injEq] at h
      subst h
      rw [List.mem_singleton] at hrow
      subst hrow
      exact ⟨rfl, postUi, rfl, rfl, rfl, rfl, rfl, rfl, rfl, rfl, rfl, rfl⟩

/-- Where a token-balance row of a returned aggregate comes from. -/
theorem mem_tokenBalances (now : Time) (ord : MapOrder) (block : pb.SubscribeUpdateBlock)
    (r : ParsedBlock) (e : Option GoError)
    (h : ParseBlock now ord block = Except.ok (r, e))
    (row : TransactionTokenBalance) (hrow : row ∈ r.TransactionTokenBalances) :
    ∃ tx, (sourceTransactions block)[row.TransactionIndex]? = some tx ∧ tx.IsVote = false ∧
      row ∈ rowsOf (txTokenBalances now ord block.Slot row.TransactionIndex tx) := by
  obtain ⟨_, _, hr⟩ := (ParseBlock_ok_iff now ord block r e).mp h
  rw [hr] at hrow
  obtain ⟨⟨i, tx⟩, hp, hrow⟩ := List.mem_flatMap.mp hrow
  obtain ⟨htx, hv⟩ := (mem_nonVote_source block i tx).mp hp
  have hi := (txTokenBalances_key now ord block.Slot i tx row hrow).2
  rw [hi]
  exact ⟨tx, htx, hv, hrow⟩

/-- C8: in every aggregate `ParseBlock` returns, a token-balance row belongs to a
transaction that is not a vote and has a pre-token-balance list; if the account
index of the row occurs in both the pre and the post list, the row carries the
amount and UI amount of the pre record as pre fields and those of the post record
as post fields; if it occurs in the post list only, the pre amount is the empty
string, the pre UI amount is 0, and the post fields, mint, owner and decimals are
those of the post record.  (The record of an index is the last one of the list
with that index.) -/
theorem ParseBlock_tokenBalance_fields (now : Time) (ord : MapOrder)
    (block : pb.SubscribeUpdateBlock) (r : ParsedBlock) (e : Option GoError)
    (h : ParseBlock now ord block = Except.ok (r, e)) :
    ∀ row ∈ r.TransactionTokenBalances, ∃ tx m pre,
      (sourceTransactions block)[row.TransactionIndex]? = some tx ∧ tx.IsVote = false ∧
      tx.Meta = some m ∧ m.PreTokenBalances = some pre ∧
      (row.AccountIndex ∈ pre.map (fun b => b.AccountIndex) →
        row.AccountIndex ∈ m.PostTokenBalances.map (fun b => b.AccountIndex) →
        ∃ preBal postBal preUi postUi,
          lastWithIndex pre row.AccountIndex = some preBal ∧
          lastWithIndex m.PostTokenBalances row.AccountIndex = some postBal ∧
          preBal.UiTokenAmount = some preUi ∧ postBal.UiTokenAmount = some postUi ∧
          row.PreAmount = preUi.Amount ∧ row.PreUiAmount = preUi.UiAmount ∧
          row.PostAmount = postUi.Amount ∧ row.PostUiAmount = postUi.UiAmount) ∧
      (row.AccountIndex ∉ pre.map (fun b => b.AccountIndex) →
        row.AccountIndex ∈ m.PostTokenBalances.map (fun b => b.AccountIndex) →
        ∃ postBal postUi,
          lastWithIndex m.PostTokenBalances row.AccountIndex = some postBal ∧
          postBal.UiTokenAmount = some postUi ∧
          row.PreAmount = "" ∧ row.PreUiAmount = 0 ∧
          row.PostAmount = postUi.Amount ∧ row.PostUiAmount = postUi.UiAmount ∧
          row.Mint = postBal.Mint ∧ row.Owner = postBal.Owner ∧
          row.Decimals = postUi.Decimals) := by
  intro row hrow
  obtain ⟨tx, htx, hv, hmem⟩ := mem_tokenBalances now ord block r e h row hrow
  obtain ⟨m, pre, hm, hpre, hsrc⟩ :=
    mem_txTokenBalances now ord block.Slot row.TransactionIndex tx row hmem
  refine ⟨tx, m, pre, htx, hv, hm, hpre, ?_, ?_⟩
  · intro hinPre hinPost
    rcases hsrc with ⟨idx, preBal, hin, hok⟩ | ⟨idx, postBal, rws, _, hok, hr⟩
    · have hidx := (parsePreTokenBalance_key now block.Slot row.TransactionIndex _ idx preBal
        row hok).2.2
      obtain ⟨preUi, hpu, _, _, _, hpa, hpui, hboth, _⟩ :=
        parsePreTokenBalance_fields now block.Slot row.TransactionIndex _ idx preBal row hok
      rw [← hidx] at hin hboth
      cases hq : lastWithIndex m.PostTokenBalances row.AccountIndex with
      | none => exact absurd hinPost ((lastWithIndex_eq_none_iff _ _).mp hq)
      | some postBal =>
        obtain ⟨postUi, hqu, hqa, hqui, _, _⟩ := hboth postBal (by rw [buildMap_get?]; exact hq)
        exact ⟨preBal, postBal, preUi, postUi, (buildMap_mem_iff pre _ _).mp hin, rfl, hpu, hqu,
          hpa, hpui, hqa, hqui⟩
    · have hidx := (parsePostTokenBalance_key now block.Slot row.TransactionIndex _ idx postBal
        rws hok row hr).2.2
      have hnone := (parsePostTokenBalance_fields now block.Slot row.TransactionIndex _ idx
        postBal rws hok row hr).1
      rw [← hidx, buildMap_get?, lastWithIndex_eq_none_iff] at hnone
      exact absurd hinPre hnone
  · intro hnotPre _
    rcases hsrc with ⟨idx, preBal, hin, hok⟩ | ⟨idx, postBal, rws, hin, hok, hr⟩
    · have hidx := (parsePreTokenBalance_key now block.Slot row.TransactionIndex _ idx preBal
        row hok).2.2
      rw [← hidx] at hin
      have := (buildMap_mem_keys pre row.AccountIndex).mp
        (List.mem_map_of_mem (fun e => e.1) hin)
      exact absurd this hnotPre
    · have hidx := (parsePostTokenBalance_key now block.Slot row.TransactionIndex _ idx postBal
        rws hok row hr).2.2
      obtain ⟨_, postUi, hqu, hmint, howner, hdec, hpa, hpui, hqa, hqui, _, _⟩ :=
        parsePostTokenBalance_fields now block.Slot row.TransactionIndex _ idx postBal rws hok
          row hr
      rw [← hidx] at hin
      exact ⟨postBal, postUi, (buildMap_mem_iff _ _ _).mp hin, hqu, hpa, hpui, hqa, hqui, hmint,
        howner, hdec⟩

/-- C8 (witness): the token-balance rows of the sample block (pre list with the
indices 2 and 3, post list with the indices 3 and 1). -/
theorem ParseBlock_tokenBalance_fields_witness :
    ParseBlock 7 MapOrder.insertion voteFirstBlock
      = Except.ok (aggregateOf 7 MapOrder.insertion voteFirstBlock, none) ∧
    (aggregateOf 7 MapOrder.insertion voteFirstBlock).TransactionTokenBalances.map
      (fun a => (a.AccountIndex, a.PreAmount, a.PreUiAmount, a.PostAmount, a.PostUiAmount))
      = [(2, "100", 1, "", 0), (3, "200", 2, "150", 3), (1, "", 0, "50", 4)] ∧
    ∀ row ∈ (aggregateOf 7 MapOrder.insertion voteFirstBlock).TransactionTokenBalances,
      ∃ tx m pre,
        (sourceTransactions voteFirstBlock)[row.TransactionIndex]? = some tx ∧
        tx.IsVote = false ∧ tx.Meta = some m ∧ m.PreTokenBalances = some pre ∧
        (row.AccountIndex ∈ pre.map (fun b => b.AccountIndex) →
          row.AccountIndex ∈ m.PostTokenBalances.map (fun b => b.AccountIndex) →
          ∃ preBal postBal preUi postUi,
            lastWithIndex pre row.AccountIndex = some preBal ∧
            lastWithIndex m.PostTokenBalances row.AccountIndex = some postBal ∧
            preBal.UiTokenAmount = some preUi ∧ postBal.UiTokenAmount = some postUi ∧
            row.PreAmount = preUi.Amount ∧ row.PreUiAmount = preUi.UiAmount ∧
            row.PostAmount = postUi.Amount ∧ row.PostUiAmount = postUi.UiAmount) ∧
        (row.AccountIndex ∉ pre.map (fun b => b.AccountIndex) →
          row.AccountIndex ∈ m.PostTokenBalances.map (fun b => b.AccountIndex) →
          ∃ postBal postUi,
            lastWithIndex m.PostTokenBalances row.AccountIndex = some postBal ∧
            postBal.UiTokenAmount = some postUi ∧
            row.PreAmount = "" ∧ row.PreUiAmount = 0 ∧
            row.PostAmount = postUi.Amount ∧ row.PostUiAmount = postUi.UiAmount ∧
            row.Mint = postBal.Mint ∧ row.Owner = postBal.Owner ∧
            row.Decimals = postUi.Decimals) :=
  ⟨rfl, rfl, ParseBlock_tokenBalance_fields 7 MapOrder.insertion voteFirstBlock
    (aggregateOf 7 MapOrder.insertion voteFirstBlock) none rfl⟩

/-- The program id of an instruction row: the base-58 text of the account key at the
program-id index, or the empty string when there is no such key. -/
theorem parseInstruction_programId (now : Time) (slot i : Nat) (msg : pb.Message) (j : Nat)
    (inst : pb.CompiledInstruction) :
    (∀ keys key, msg.AccountKeys = some keys → keys[inst.ProgramIdIndex]? = some key →
      (parseInstruction now slot i msg j inst).ProgramId = base58.Encode key) ∧
    (∀ keys, msg.AccountKeys = some keys → keys.length ≤ inst.ProgramIdIndex →
      (parseInstruction now slot i msg j inst).ProgramId = "") ∧
    (msg.AccountKeys = none → (parseInstruction now slot i msg j inst).ProgramId = "") := by
  unfold parseInstruction
  refine ⟨?_, ?_, ?_⟩
  · intro keys key hk hkey
    obtain ⟨hlt, hget⟩ := List.getElem?_eq_some_iff.mp hkey
    simp only [hk, hlt, dite_true, List.get_eq_getElem, hget]
  · intro keys hk hle
    simp only [hk, Nat.not_lt.mpr hle, dite_false]
  · intro hk
    simp only [hk]

/-- The instruction rows of the transaction at position `i`, in a returned
aggregate. -/
theorem instructions_of_position (now : Time) (ord : MapOrder)
    (block : pb.SubscribeUpdateBlock) (r : ParsedBlock) (e : Option GoError)
    (h : ParseBlock now ord block = Except.ok (r, e))
    (i : Nat) (tx : pb.SubscribeUpdateTransactionInfo)
    (htx : (sourceTransactions block)[i]? = some tx) (hv : tx.IsVote = false) :
    r.TransactionInstructions.filter (fun a => decide (a.TransactionIndex = i))
      = txInstructions now block.Slot i tx := by
  obtain ⟨_, _, hr⟩ := (ParseBlock_ok_iff now ord block r e).mp h
  have hp : (i, tx) ∈ nonVoteFrom 0 (sourceTransactions block) :=
    (mem_nonVote_source block i tx).mpr ⟨htx, hv⟩
  rw [hr]
  simp only [aggregateOf]
  exact filter_flatMap_position (fun a : Instruction => a.TransactionIndex)
    (fun p => txInstructions now block.Slot p.1 p.2) _ i tx
    (nodup_nonVoteFrom 0 _) hp
    (fun p _ b hb => (txInstructions_key now block.Slot p.1 p.2 b hb).2)

/-- C10: in every aggregate `ParseBlock` returns, the instruction rows of a
transaction that is not a vote are one per source instruction, in source order;
the row of an instruction carries the source program-id index, and as program id
the base-58 text of the account key at that index, or the empty string when the
index is not below the number of account keys or the account-key list is absent.
An index out of range does not make `ParseBlock` fail: it returns on every
complete block, whatever the program-id indices. -/
theorem ParseBlock_programId_resolution (now : Time) (ord : MapOrder)
    (block : pb.SubscribeUpdateBlock) :
    (∀ r e, ParseBlock now ord block = Except.ok (r, e) →
      ∀ (i : Nat) (tx : pb.SubscribeUpdateTransactionInfo) (msg : pb.Message),
        (sourceTransactions block)[i]? = some tx → tx.IsVote = false →
        txMessage tx = some msg →
        (r.TransactionInstructions.filter (fun a => decide (a.TransactionIndex = i))).length
          = msg.Instructions.length ∧
        ∀ (j : Nat) (inst : pb.CompiledInstruction), msg.Instructions[j]? = some inst →
          ∃ row : Instruction, (r.TransactionInstructions.filter
              (fun a => decide (a.TransactionIndex = i)))[j]? = some row ∧
            row.InstructionIndex = j ∧ row.ProgramIdIndex = inst.ProgramIdIndex ∧
            (∀ keys key, msg.AccountKeys = some keys → keys[inst.ProgramIdIndex]? = some key →
              row.ProgramId = encodeBase58 key) ∧
            (∀ keys, msg.AccountKeys = some keys → keys.length ≤ inst.ProgramIdIndex →
              row.ProgramId = "") ∧
            (msg.AccountKeys = none → row.ProgramId = "")) ∧
    (completeBlock block = true → ∃ r, ParseBlock now ord block = Except.ok (r, none)) := by
  refine ⟨?_, fun hc => ⟨_, ParseBlock_returns_of_complete now ord block hc⟩⟩
  intro r e h i tx msg htx hv hmsg
  rw [instructions_of_position now ord block r e h i tx htx hv]
  simp only [txInstructions, hmsg, parseInstructions]
  refine ⟨by rw [List.length_map, List.enum_length], ?_⟩
  intro j inst hj
  refine ⟨parseInstruction now block.Slot i msg j inst, ?_, ?_, ?_, ?_⟩
  · rw [List.getElem?_map, List.enum, List.getElem?_enumFrom, hj]
    simp
  · exact (parseInstruction_key now block.Slot i msg j inst).2.2.1
  · exact (parseInstruction_key now block.Slot i msg j inst).2.2.2.1
  · exact parseInstruction_programId now block.Slot i msg j inst

/-- C10 (witness): the sample block is complete, so `ParseBlock` returns on it; the
second instruction of its transaction at position 1 has the program-id index 7
with 4 account keys, and its row is emitted with that index and the empty
program id. -/
theorem ParseBlock_programId_resolution_witness :
    completeBlock voteFirstBlock = true ∧
    ParseBlock 7 MapOrder.insertion voteFirstBlock
      = Except.ok (aggregateOf 7 MapOrder.insertion voteFirstBlock, none) ∧
    (∃ r, ParseBlock 7 MapOrder.insertion voteFirstBlock = Except.ok (r, none)) ∧
    (∃ row : Instruction,
      ((aggregateOf 7 MapOrder.insertion voteFirstBlock).TransactionInstructions.filter
          (fun a => decide (a.TransactionIndex = 1)))[1]? = some row ∧
        row.InstructionIndex = 1 ∧ row.ProgramIdIndex = 7 ∧ row.ProgramId = "") ∧
    (aggregateOf 7 MapOrder.insertion voteFirstBlock).TransactionInstructions.map
      (fun a => (a.TransactionIndex, a.InstructionIndex, a.ProgramIdIndex, a.ProgramId))
      = [(1, 0, 1, "3"), (1, 1, 7, "")] :=
  have h := ParseBlock_programId_resolution 7 MapOrder.insertion voteFirstBlock
  have h1 := (h.1 (aggregateOf 7 MapOrder.insertion voteFirstBlock) none rfl 1 sampleTx
    sampleMessage rfl rfl rfl).2 1 { ProgramIdIndex := 7, Data := [] } rfl
  ⟨rfl, rfl, h.2 rfl,
    h1.elim (fun row hrow => ⟨row, hrow.1, hrow.2.1, hrow.2.2.1,
      hrow.2.2.2.2.1 [[0, 1], [2], [3], [4]] rfl (by decide)⟩),
    rfl⟩

theorem nonVoteFrom_ge (i0 i : Nat) (tx : pb.SubscribeUpdateTransactionInfo)
    (txs : List pb.SubscribeUpdateTransactionInfo) (h : (i, tx) ∈ nonVoteFrom i0 txs) :
    i0 ≤ i := ((mem_nonVoteFrom i0 i tx txs).mp h).1

/-- The log rows of the transaction at position `i`: built with the instruction rows
accumulated so far, which start the instruction rows of the whole run and end
with the instruction rows of that transaction. -/
theorem logsFrom_filter (now : Time) (slot : Nat) :
    ∀ (txs : List pb.SubscribeUpdateTransactionInfo) (i0 : Nat) (instructions : List Instruction)
      (i : Nat) (tx : pb.SubscribeUpdateTransactionInfo), (i, tx) ∈ nonVoteFrom i0 txs →
      ∃ before rest,
        (logsFrom now slot i0 txs instructions).filter (fun a => decide (a.TransactionIndex = i))
          = parseLogs now slot i (instructions ++ before ++ txInstructions now slot i tx) tx ∧
        instructions ++ (nonVoteFrom i0 txs).flatMap (fun p => txInstructions now slot p.1 p.2)
          = (instructions ++ before ++ txInstructions now slot i tx) ++ rest := by
  intro txs
  induction txs with
  | nil => intro i0 instructions i tx h; simp [nonVoteFrom] at h
  | cons tx0 rest0 ih =>
    intro i0 instructions i tx h
    cases hv : tx0.IsVote with
    | true =>
      rw [nonVoteFrom_cons_vote i0 tx0 rest0 hv] at h ⊢
      simp only [logsFrom, hv, if_true]
      exact ih (i0 + 1) instructions i tx h
    | false =>
      rw [nonVoteFrom_cons_nonVote i0 tx0 rest0 hv] at h ⊢
      simp only [logsFrom, hv, Bool.false_eq_true, if_false, List.filter_append,
        List.flatMap_cons]
      rcases List.mem_cons.mp h with h | h
      · injection h with h1 h2
        subst h1; subst h2
        have hfirst : (parseLogs now slot i (instructions ++ txInstructions now slot i tx) tx).filter
            (fun a => decide (a.TransactionIndex = i))
            = parseLogs now slot i (instructions ++ txInstructions now slot i tx) tx := by
          rw [List.filter_eq_self]
          intro a ha
          simpa using (parseLogs_key now slot i _ tx a ha).2
        have hrest : (logsFrom now slot (i + 1) rest0
            (instructions ++ txInstructions now slot i tx)).filter
            (fun a => decide (a.TransactionIndex = i)) = [] := by
          rw [List.filter_eq_nil_iff]
          intro a ha
          obtain ⟨_, p, hp, hidx⟩ := logsFrom_key now slot rest0 (i + 1) _ a ha
          have := nonVoteFrom_ge (i + 1) p.1 p.2 rest0 hp
          simp only [decide_eq_true_eq]
          omega
        refine ⟨[], (nonVoteFrom (i + 1) rest0).flatMap
          (fun p => txInstructions now slot p.1 p.2), ?_, ?_⟩
        · rw [hfirst, hrest, List.append_nil, List.append_nil]
        · simp only [List.append_nil, List.append_assoc]
      · have hge := nonVoteFrom_ge (i0 + 1) i tx rest0 h
        have hfirst : (parseLogs now slot i0 (instructions ++ txInstructions now slot i0 tx0)
            tx0).filter (fun a => decide (a.TransactionIndex = i)) = [] := by
          rw [List.filter_eq_nil_iff]
          intro a ha
          have := (parseLogs_key now slot i0 _ tx0 a ha).2
          simp only [decide_eq_true_eq]
          omega
        obtain ⟨before, rest, h1, h2⟩ :=
          ih (i0 + 1) (instructions ++ txInstructions now slot i0 tx0) i tx h
        refine ⟨txInstructions now slot i0 tx0 ++ before, rest, ?_, ?_⟩
        · rw [hfirst, List.nil_append, h1]
          simp only [List.append_assoc]
        · simp only [List.append_assoc] at h2 ⊢
          exact h2

/-- The log rows of the transaction at position `i`, in a returned aggregate. -/
theorem logs_of_position (now : Time) (ord : MapOrder) (block : pb.SubscribeUpdateBlock)
    (r : ParsedBlock) (e : Option GoError)
    (h : ParseBlock now ord block = Except.ok (r, e))
    (i : Nat) (tx : pb.SubscribeUpdateTransactionInfo)
    (htx : (sourceTransactions block)[i]? = some tx) (hv : tx.IsVote = false) :
    ∃ before rest,
      r.TransactionLogs.filter (fun a => decide (a.TransactionIndex = i))
        = parseLogs now block.Slot i (before ++ txInstructions now block.Slot i tx) tx ∧
      r.TransactionInstructions = (before ++ txInstructions now block.Slot i tx) ++ rest := by
  obtain ⟨_, _, hr⟩ := (ParseBlock_ok_iff now ord block r e).mp h
  have hp : (i, tx) ∈ nonVoteFrom 0 (sourceTransactions block) :=
    (mem_nonVote_source block i tx).mpr ⟨htx, hv⟩
  obtain ⟨before, rest, h1, h2⟩ :=
    logsFrom_filter now block.Slot (sourceTransactions block) 0 [] i tx hp
  refine ⟨before, rest, ?_, ?_⟩
  · rw [hr]
    simp only [aggregateOf]
    rw [h1, List.nil_append]
  · rw [hr]
    simp only [aggregateOf]
    simpa using h2

/-- The signature rows of the transaction at position `i`, in a returned
aggregate. -/
theorem signatures_of_position (now : Time) (ord : MapOrder)
    (block : pb.SubscribeUpdateBlock) (r : ParsedBlock) (e : Option GoError)
    (h : ParseBlock now ord block = Except.ok (r, e))
    (i : Nat) (tx : pb.SubscribeUpdateTransactionInfo)
    (htx : (sourceTransactions block)[i]? = some tx) (hv : tx.IsVote = false) :
    r.TransactionSignatures.filter (fun a => decide (a.TransactionIndex = i))
      = parseSignatures now block.Slot i tx := by
  obtain ⟨_, _, hr⟩ := (ParseBlock_ok_iff now ord block r e).mp h
  have hp : (i, tx) ∈ nonVoteFrom 0 (sourceTransactions block) :=
    (mem_nonVote_source block i tx).mpr ⟨htx, hv⟩
  rw [hr]
  simp only [aggregateOf]
  exact filter_flatMap_position (fun a : TransactionSignature => a.TransactionIndex)
    (fun p => parseSignatures now block.Slot p.1 p.2) _ i tx
    (nodup_nonVoteFrom 0 _) hp
    (fun p _ b hb => (parseSignatures_key now block.Slot p.1 p.2 b hb).2)

/-- The program id of a log row built while there is an instruction row. -/
theorem parseLogs_programId (now : Time) (slot i : Nat) (first : Instruction)
    (instructions : List Instruction) (tx : pb.SubscribeUpdateTransactionInfo)
    (row : TransactionLog) (h : row ∈ parseLogs now slot i (first :: instructions) tx) :
    row.ProgramId = first.ProgramId := by
  unfold parseLogs at h
  cases hm : tx.Meta with
  | none => simp [hm] at h
  | some m =>
    simp only [hm] at h
    cases hl : m.LogMessages with
    | none => simp [hl] at h
    | some logs =>
      simp only [hl, List.mem_map] at h
      obtain ⟨p, _, rfl⟩ := h
      rfl

/-- A transaction that makes the loop body panic keeps `ParseBlock` from
returning: no aggregate and no error value reach the caller. -/
theorem ParseBlock_no_return (now : Time) (ord : MapOrder) (block : pb.SubscribeUpdateBlock)
    (i : Nat) (tx : pb.SubscribeUpdateTransactionInfo)
    (htx : (sourceTransactions block)[i]? = some tx) (hv : tx.IsVote = false)
    (hno : ¬ txReturns now ord block.Slot i tx) :
    ∃ p, ParseBlock now ord block = Except.error p := by
  cases hres : ParseBlock now ord block with
  | ok out =>
    obtain ⟨r, e⟩ := out
    obtain ⟨_, hall, _⟩ := (ParseBlock_ok_iff now ord block r e).mp hres
    exact absurd (hall (i, tx) ((mem_nonVote_source block i tx).mpr ⟨htx, hv⟩)) hno
  | error p => exact ⟨p, rfl⟩

/-- The error value `ParseBlock` returns is always nil. -/
theorem ParseBlock_error_nil (now : Time) (ord : MapOrder) (block : pb.SubscribeUpdateBlock)
    (r : ParsedBlock) (e : Option GoError) (h : ParseBlock now ord block = Except.ok (r, e)) :
    e = none := ((ParseBlock_ok_iff now ord block r e).mp h).1

/-- The account loop panics on a message with account keys and no header, when the
metadata is present. -/
theorem txAccounts_headerless (now : Time) (slot i : Nat)
    (tx : pb.SubscribeUpdateTransactionInfo) (msg : pb.Message) (m : pb.TransactionStatusMeta)
    (keys : List (List Byte)) (hmsg : txMessage tx = some msg) (hm : tx.Meta = some m)
    (hk : msg.AccountKeys = some keys) (hne : keys ≠ []) (hh : msg.Header = none) :
    txAccounts now slot i tx = Except.error Panic.nilPointerDereference := by
  cases keys with
  | nil => exact absurd rfl hne
  | cons k ks =>
    simp only [txAccounts, hmsg, hm, parseAccounts, hk, List.enum, List.enumFrom, forRange,
      parseAccount, hh, deref, Except.map]

/-- Without metadata the loop body panics. -/
theorem not_txReturns_of_metaless (now : Time) (ord : MapOrder) (slot i : Nat)
    (tx : pb.SubscribeUpdateTransactionInfo) (hm : tx.Meta = none) :
    ¬ txReturns now ord slot i tx := by
  rintro ⟨⟨m, h⟩, _⟩
  rw [hm] at h
  cases h

/-- The program id of the log rows of a transaction with at least one
instruction, in a returned aggregate: the program id of the first instruction row
of the whole aggregate. -/
theorem logs_programId_first_row (now : Time) (ord : MapOrder)
    (block : pb.SubscribeUpdateBlock) (r : ParsedBlock) (e : Option GoError)
    (h : ParseBlock now ord block = Except.ok (r, e))
    (i : Nat) (tx : pb.SubscribeUpdateTransactionInfo)
    (htx : (sourceTransactions block)[i]? = some tx) (hv : tx.IsVote = false)
    (hn : 1 ≤ instructionCount tx) :
    ∃ first, r.TransactionInstructions.head? = some first ∧
      ∀ row ∈ r.TransactionLogs, row.TransactionIndex = i → row.ProgramId = first.ProgramId := by
  obtain ⟨before, rest, h1, h2⟩ := logs_of_position now ord block r e h i tx htx hv
  have hne : before ++ txInstructions now block.Slot i tx ≠ [] := by
    intro hnil
    have hl := congrArg List.length hnil
    rw [List.length_append] at hl
    unfold instructionCount at hn
    unfold txInstructions parseInstructions at hl
    cases hmsg : txMessage tx with
    | none => simp [hmsg] at hn
    | some msg =>
      simp only [hmsg, List.length_map, List.enum_length, List.length_nil] at hl hn
      omega
  cases hacc : before ++ txInstructions now block.Slot i tx with
  | nil => exact absurd hacc hne
  | cons first more =>
    rw [hacc] at h1 h2
    refine ⟨first, by rw [h2]; rfl, ?_⟩
    intro row hrow hidx
    have hmem : row ∈ r.TransactionLogs.filter (fun a => decide (a.TransactionIndex = i)) :=
      List.mem_filter.mpr ⟨hrow, by simpa using hidx⟩
    rw [h1] at hmem
    exact parseLogs_programId now block.Slot i first more tx row hmem

/-- C11 (the code at the failing input): in a block of two transactions that are not
votes, the first of program "2" and the second of program "3" with one log line,
the log row of the second transaction carries the program id "2" of the first
transaction, whatever the clock reading and the map order. -/
theorem ParseBlock_log_programId_of_first_row (now : Time) (ord : MapOrder) :
    (sourceTransactions twoProgramsBlock).map (fun tx => (tx.IsVote, instructionCount tx))
      = [(false, 1), (false, 1)] ∧
    ∃ r, ParseBlock now ord twoProgramsBlock = Except.ok (r, none) ∧
      r.TransactionInstructions.map
          (fun a => (a.TransactionIndex, a.InstructionIndex, a.ProgramId))
        = [(0, 0, "2"), (1, 0, "3")] ∧
      r.TransactionLogs.map (fun a => (a.TransactionIndex, a.LogIndex, a.Log, a.ProgramId))
        = [(1, 0, "invoke", "2")] :=
  ⟨rfl, _, rfl, rfl, rfl⟩

/-- No block with a transaction that is not a vote, has metadata and account keys
but no message header makes `ParseBlock` return: the account loop panics. -/
theorem ParseBlock_headerless_no_return (now : Time) (ord : MapOrder)
    (block : pb.SubscribeUpdateBlock) (i : Nat) (tx : pb.SubscribeUpdateTransactionInfo)
    (msg : pb.Message) (m : pb.TransactionStatusMeta) (keys : List (List Byte))
    (htx : (sourceTransactions block)[i]? = some tx) (hv : tx.IsVote = false)
    (hmsg : txMessage tx = some msg) (hm : tx.Meta = some m)
    (hk : msg.AccountKeys = some keys) (hne : keys ≠ []) (hh : msg.Header = none) :
    ∃ p, ParseBlock now ord block = Except.error p := by
  apply ParseBlock_no_return now ord block i tx htx hv
  rintro ⟨_, ⟨accounts, hacc⟩, _⟩
  rw [txAccounts_headerless now block.Slot i tx msg m keys hmsg hm hk hne hh] at hacc
  cases hacc

/-- C12 (the code at the failing input): on a block whose only transaction is not a
vote and has metadata, one account key and no message header, `ParseBlock` panics
with a nil-pointer dereference, whatever the clock reading and the map order; it
returns neither an error value nor an aggregate. -/
theorem ParseBlock_headerless_panics (now : Time) (ord : MapOrder) :
    (sourceTransactions headerlessBlock).map
        (fun tx => (tx.IsVote, tx.Meta.isSome, accountKeyCount tx,
          (txMessage tx).map (fun msg => msg.Header)))
      = [(false, true, 1, some none)] ∧
    ParseBlock now ord headerlessBlock = Except.error Panic.nilPointerDereference ∧
    ∀ r e, ParseBlock now ord headerlessBlock ≠ Except.ok (r, e) :=
  ⟨rfl, rfl, fun _ _ h => by cases h⟩

/-- No block with a transaction that is not a vote and has no metadata makes
`ParseBlock` return: the read of the fee panics. -/
theorem ParseBlock_metaless_no_return (now : Time) (ord : MapOrder)
    (block : pb.SubscribeUpdateBlock) (i : Nat) (tx : pb.SubscribeUpdateTransactionInfo)
    (htx : (sourceTransactions block)[i]? = some tx) (hv : tx.IsVote = false)
    (hm : tx.Meta = none) :
    ∃ p, ParseBlock now ord block = Except.error p :=
  ParseBlock_no_return now ord block i tx htx hv
    (not_txReturns_of_metaless now ord block.Slot i tx hm)

/-- C13 (the code at the failing inputs): on a block whose only transaction is not a
vote and has no metadata, and on a block whose only transaction has a
pre-token-balance record without `UiTokenAmount`, `ParseBlock` panics with a
nil-pointer dereference, whatever the clock reading and the map order; it returns no
aggregate. -/
theorem ParseBlock_missing_subrecord_panics (now : Time) (ord : MapOrder) :
    (sourceTransactions metalessBlock).map (fun tx => (tx.IsVote, tx.Meta.isSome))
      = [(false, false)] ∧
    ParseBlock now ord metalessBlock = Except.error Panic.nilPointerDereference ∧
    (sourceTransactions amountlessBlock).map
        (fun tx => (tx.IsVote, tx.Meta.map (fun m =>
          (m.PreTokenBalances.map (fun l => l.map (fun b => b.UiTokenAmount.isSome))))))
      = [(false, some (some [false]))] ∧
    ParseBlock now ord amountlessBlock = Except.error Panic.nilPointerDereference := by
  refine ⟨rfl, rfl, rfl, ?_⟩
  have hperm : ord.range 0 false [(0, { AccountIndex := 0, UiTokenAmount := none })]
      = [(0, { AccountIndex := 0, UiTokenAmount := none })] :=
    List.perm_singleton.mp (ord.perm 0 false _)
  have hmap : buildMap [({ AccountIndex := 0, UiTokenAmount := none } : pb.TokenBalance)]
      = [(0, { AccountIndex := 0, UiTokenAmount := none })] := rfl
  simp only [ParseBlock, amountlessBlock, pb.GetTransactions, parseTransactions,
    parseTransaction, deref, parseAccounts, parseTokenBalances, hmap, hperm, forRange,
    parsePreTokenBalance, Except.map, newResult, Bool.false_eq_true, if_false]

/-- The loop over the transactions does not read the contents of a vote. -/
theorem parseTransactions_congr_votes (now : Time) (ord : MapOrder) (bt : Time)
    (l1 l2 : List pb.SubscribeUpdateTransactionInfo)
    (h : List.Forall₂ (fun t1 t2 => t1 = t2 ∨ (t1.IsVote = true ∧ t2.IsVote = true)) l1 l2) :
    ∀ (i : Nat) (result : ParsedBlock),
      parseTransactions now ord bt i l1 result = parseTransactions now ord bt i l2 result := by
  induction h with
  | nil => intro i result; rfl
  | cons hhead _ ih =>
    intro i result
    rcases hhead with heq | ⟨hv1, hv2⟩
    · subst heq
      simp only [parseTransactions, ih]
    · simp only [parseTransactions, hv1, hv2, if_true, ih]

/-- The loop over the transactions leaves the aggregate as it is when every
transaction is a vote. -/
theorem parseTransactions_all_votes (now : Time) (ord : MapOrder) (bt : Time) :
    ∀ (l : List pb.SubscribeUpdateTransactionInfo), (∀ tx ∈ l, tx.IsVote = true) →
      ∀ (i : Nat) (result : ParsedBlock),
        parseTransactions now ord bt i l result = Except.ok result := by
  intro l
  induction l with
  | nil => intro _ i result; rfl
  | cons tx rest ih =>
    intro h i result
    simp only [parseTransactions, h tx (List.mem_cons_self _ _), if_true]
    exact ih (fun t ht => h t (List.mem_cons_of_mem _ ht)) (i + 1) result

/-- A loop over a rearranged list returns when the loop over the list does, with the
rows rearranged. -/
theorem forRange_perm {α β : Type} (f : α → Except Panic (List β)) (l1 l2 : List α)
    (hp : l1.Perm l2) (rows1 : List β) (h : forRange f l1 = Except.ok rows1) :
    ∃ rows2, forRange f l2 = Except.ok rows2 ∧ rows1.Perm rows2 := by
  obtain ⟨h1, h2⟩ := (forRange_ok_iff f l1 rows1).mp h
  refine ⟨l2.flatMap (fun x => rowsOf (f x)),
    (forRange_ok_iff f l2 _).mpr ⟨fun x hx => h1 x (hp.mem_iff.mpr hx), rfl⟩, ?_⟩
  rw [h2]
  exact List.Perm.flatMap_right _ hp

/-- The token-balance rows of a transaction under two orders of map iteration: the
loops return under one order when they do under the other, with the same rows up
to their order. -/
theorem txTokenBalances_order (now : Time) (ord1 ord2 : MapOrder) (slot i : Nat)
    (tx : pb.SubscribeUpdateTransactionInfo) (rows1 : List TransactionTokenBalance)
    (h : txTokenBalances now ord1 slot i tx = Except.ok rows1) :
    ∃ rows2, txTokenBalances now ord2 slot i tx = Except.ok rows2 ∧ rows1.Perm rows2 := by
  unfold txTokenBalances at h ⊢
  cases hmsg : txMessage tx with
  | none =>
    simp only [hmsg] at h
    exact ⟨[], rfl, by cases h; exact List.Perm.refl _⟩
  | some msg =>
    simp only [hmsg] at h ⊢
    unfold parseTokenBalances at h ⊢
    cases hm : tx.Meta with
    | none =>
      simp only [hm] at h
      exact ⟨[], rfl, by cases h; exact List.Perm.refl _⟩
    | some m =>
      simp only [hm] at h ⊢
      cases hpre : m.PreTokenBalances with
      | none =>
        simp only [hpre] at h
        exact ⟨[], rfl, by cases h; exact List.Perm.refl _⟩
      | some pre =>
        simp only [hpre] at h ⊢
        cases hf1 : forRange (fun p => (parsePreTokenBalance now slot i
            (buildMap m.PostTokenBalances) p.1 p.2).map (fun r => [r]))
            (ord1.range i false (buildMap pre)) with
        | error e => rw [hf1] at h; cases h
        | ok a1 =>
          rw [hf1] at h
          cases hf2 : forRange (fun p => parsePostTokenBalance now slot i (buildMap pre) p.1 p.2)
              (ord1.range i true (buildMap m.PostTokenBalances)) with
          | error e => rw [hf2] at h; cases h
          | ok b1 =>
            rw [hf2] at h
            cases h
            obtain ⟨a2, ha2, hpa⟩ := forRange_perm _ _ (ord2.range i false (buildMap pre))
              ((ord1.perm i false _).trans (ord2.perm i false _).symm) a1 hf1
            obtain ⟨b2, hb2, hpb⟩ := forRange_perm _ _
              (ord2.range i true (buildMap m.PostTokenBalances))
              ((ord1.perm i true _).trans (ord2.perm i true _).symm) b1 hf2
            rw [ha2, hb2]
            exact ⟨a2 ++ b2, rfl, hpa.append hpb⟩

/-- The loop body returns under one order of map iteration when it does under
another. -/
theorem txReturns_order (now : Time) (ord1 ord2 : MapOrder) (slot i : Nat)
    (tx : pb.SubscribeUpdateTransactionInfo) (h : txReturns now ord1 slot i tx) :
    txReturns now ord2 slot i tx := by
  obtain ⟨hm, ha, ⟨rows1, hrows1⟩⟩ := h
  obtain ⟨rows2, hrows2, _⟩ := txTokenBalances_order now ord1 ord2 slot i tx rows1 hrows1
  exact ⟨hm, ha, ⟨rows2, hrows2⟩⟩

/-- The aggregates of a block under two orders of map iteration differ at most in the
order of the token-balance rows of each transaction. -/
theorem aggregateOf_order (now : Time) (ord1 ord2 : MapOrder) (block : pb.SubscribeUpdateBlock)
    (hall : ∀ p ∈ nonVoteFrom 0 (sourceTransactions block),
      txReturns now ord1 block.Slot p.1 p.2) :
    (aggregateOf now ord1 block).TransactionTokenBalances.Perm
        (aggregateOf now ord2 block).TransactionTokenBalances ∧
    (aggregateOf now ord1 block).TransactionTokenBalances.map (fun a => a.TransactionIndex)
      = (aggregateOf now ord2 block).TransactionTokenBalances.map
          (fun a => a.TransactionIndex) := by
  have hper : ∀ p ∈ nonVoteFrom 0 (sourceTransactions block),
      (rowsOf (txTokenBalances now ord1 block.Slot p.1 p.2)).Perm
        (rowsOf (txTokenBalances now ord2 block.Slot p.1 p.2)) := by
    intro p hp
    obtain ⟨_, _, ⟨rows1, hrows1⟩⟩ := hall p hp
    obtain ⟨rows2, hrows2, hperm⟩ :=
      txTokenBalances_order now ord1 ord2 block.Slot p.1 p.2 rows1 hrows1
    rw [hrows1, hrows2]
    exact hperm
  have hidx : ∀ (ord : MapOrder) (p : Nat × pb.SubscribeUpdateTransactionInfo),
      (rowsOf (txTokenBalances now ord block.Slot p.1 p.2)).map (fun a => a.TransactionIndex)
        = List.replicate (rowsOf (txTokenBalances now ord block.Slot p.1 p.2)).length p.1 := by
    intro ord p
    rw [List.eq_replicate_iff]
    refine ⟨List.length_map _ _, ?_⟩
    intro k hk
    obtain ⟨a, ha, rfl⟩ := List.mem_map.mp hk
    exact (txTokenBalances_key now ord block.Slot p.1 p.2 a ha).2
  refine ⟨List.Perm.flatMap_left _ hper, ?_⟩
  simp only [aggregateOf, List.map_flatMap]
  apply flatMap_congr_mem
  intro p hp
  rw [hidx ord1 p, hidx ord2 p, (hper p hp).length_eq]

/-- C14 (counterexample): the sample block and the same block with the contents of its
vote removed are identical except for the contents of a vote, and under the same
clock reading a run that iterates the token-balance maps in insertion order and a
run that iterates them in the reverse order return different aggregates: the
token-balance rows come with the account indices 2, 3, 1 in one and 3, 2, 1 in the
other. -/
theorem ParseBlock_map_order_changes_rows :
    sameExceptVotes voteFirstBlock voteFirstBlockBare ∧
    ∃ r1 r2, ParseBlock 7 MapOrder.insertion voteFirstBlock = Except.ok (r1, none) ∧
      ParseBlock 7 MapOrder.reversed voteFirstBlockBare = Except.ok (r2, none) ∧
      r1.TransactionTokenBalances.map (fun a => a.AccountIndex) = [2, 3, 1] ∧
      r2.TransactionTokenBalances.map (fun a => a.AccountIndex) = [3, 2, 1] ∧
      r1 ≠ r2 ∧
      ParseBlock 7 MapOrder.insertion voteFirstBlock
        ≠ ParseBlock 7 MapOrder.reversed voteFirstBlockBare :=
  have hne : aggregateOf 7 MapOrder.insertion voteFirstBlock
      ≠ aggregateOf 7 MapOrder.reversed voteFirstBlockBare := fun h =>
    absurd (congrArg (fun r => r.TransactionTokenBalances.map (fun a => a.AccountIndex)) h)
      (by decide)
  ⟨⟨rfl, rfl, rfl, rfl, rfl, rfl,
      List.Forall₂.cons (Or.inr ⟨rfl, rfl⟩) (List.Forall₂.cons (Or.inl rfl) List.Forall₂.nil)⟩,
    aggregateOf 7 MapOrder.insertion voteFirstBlock,
    aggregateOf 7 MapOrder.reversed voteFirstBlockBare, rfl, rfl, rfl, rfl, hne,
    fun h => Except.noConfusion h (fun h1 => hne (congrArg Prod.fst h1))⟩

/-- C14 (amended): vote transactions contribute nothing to the output.  For two block
updates that are identical except for the contents of the transactions flagged as
votes, `ParseBlock` has the same outcome under the same clock reading and the same
order of map iteration.  Whatever the orders of map iteration of the two runs,
one run returns when the other does, and the aggregates returned are identical
except for the order of the token-balance rows: the block row and every other
collection are equal, and the token-balance rows of one run are those of the
other, rearranged, with the same sequence of transaction indices.  On a block
update all of whose transactions are votes `ParseBlock` returns, with a nil error,
an aggregate whose collections are all empty and whose `TransactionCount` is 0. -/
theorem ParseBlock_votes_contribute_nothing (now : Time) :
    (∀ (b1 b2 : pb.SubscribeUpdateBlock), sameExceptVotes b1 b2 →
      (∀ ord : MapOrder, ParseBlock now ord b1 = ParseBlock now ord b2) ∧
      ∀ ord1 ord2 : MapOrder,
        ((∃ r1, ParseBlock now ord1 b1 = Except.ok (r1, none)) ↔
          (∃ r2, ParseBlock now ord2 b2 = Except.ok (r2, none))) ∧
        ∀ r1 e1 r2 e2, ParseBlock now ord1 b1 = Except.ok (r1, e1) →
          ParseBlock now ord2 b2 = Except.ok (r2, e2) →
          e1 = e2 ∧ r1.Block = r2.Block ∧ r1.BlockRewards = r2.BlockRewards ∧
          r1.Transactions = r2.Transactions ∧ r1.TransactionLogs = r2.TransactionLogs ∧
          r1.TransactionAccounts = r2.TransactionAccounts ∧
          r1.TransactionInstructions = r2.TransactionInstructions ∧
          r1.TransactionInnerInstructions = r2.TransactionInnerInstructions ∧
          r1.TransactionSignatures = r2.TransactionSignatures ∧
          r1.TransactionTokenBalances.Perm r2.TransactionTokenBalances ∧
          r1.TransactionTokenBalances.map (fun a => a.TransactionIndex)
            = r2.TransactionTokenBalances.map (fun a => a.TransactionIndex)) ∧
    (∀ (ord : MapOrder) (b : pb.SubscribeUpdateBlock),
      (∀ tx ∈ sourceTransactions b, tx.IsVote = true) →
      ∃ r, ParseBlock now ord b = Except.ok (r, none) ∧
        r.Transactions = [] ∧ r.TransactionInstructions = [] ∧ r.TransactionAccounts = [] ∧
        r.TransactionTokenBalances = [] ∧ r.TransactionSignatures = [] ∧
        r.TransactionLogs = [] ∧ r.TransactionInnerInstructions = [] ∧ r.BlockRewards = [] ∧
        r.Block.TransactionCount = 0) := by
  refine ⟨?_, ?_⟩
  · intro b1 b2 hsame
    have hsame1 : ∀ ord : MapOrder, ParseBlock now ord b1 = ParseBlock now ord b2 := by
      obtain ⟨hs, hb, ht, hh, hp, hpb, htx⟩ := hsame
      intro ord
      have hnew : newResult now b1 = newResult now b2 := by
        simp only [newResult, hs, hb, ht, hh, hp, hpb]
      rw [ParseBlock_eq, ParseBlock_eq, hnew, ht,
        parseTransactions_congr_votes now ord _ _ _ htx]
    have hret : ∀ ord1 ord2 : MapOrder, ∀ r1 e1, ParseBlock now ord1 b1 = Except.ok (r1, e1) →
        ParseBlock now ord2 b1 = Except.ok (aggregateOf now ord2 b1, none) := by
      intro ord1 ord2 r1 e1 h1
      obtain ⟨_, hall, _⟩ := (ParseBlock_ok_iff now ord1 b1 r1 e1).mp h1
      exact (ParseBlock_ok_iff now ord2 b1 _ none).mpr
        ⟨rfl, fun p hp => txReturns_order now ord1 ord2 b1.Slot p.1 p.2 (hall p hp), rfl⟩
    refine ⟨hsame1, ?_⟩
    intro ord1 ord2
    refine ⟨⟨?_, ?_⟩, ?_⟩
    · rintro ⟨r1, h1⟩
      exact ⟨_, by rw [← hsame1 ord2]; exact hret ord1 ord2 r1 none h1⟩
    · rintro ⟨r2, h2⟩
      rw [← hsame1 ord2] at h2
      exact ⟨_, hret ord2 ord1 r2 none h2⟩
    · intro r1 e1 r2 e2 h1 h2
      rw [← hsame1 ord2] at h2
      obtain ⟨he1, hall, hr1⟩ := (ParseBlock_ok_iff now ord1 b1 r1 e1).mp h1
      obtain ⟨he2, _, hr2⟩ := (ParseBlock_ok_iff now ord2 b1 r2 e2).mp h2
      have hord := aggregateOf_order now ord1 ord2 b1 hall
      rw [he1, he2, hr1, hr2]
      exact ⟨rfl, rfl, rfl, rfl, rfl, rfl, rfl, rfl, rfl, hord.1, hord.2⟩
  · intro ord b hall
    refine ⟨setBlockSummary (newResult now b), ?_, rfl, rfl, rfl, rfl, rfl, rfl, rfl, rfl, rfl⟩
    rw [ParseBlock_eq, parseTransactions_all_votes now ord _ _ hall]
    rfl

/-- C14 (witness): the sample block and the same block with the contents of its vote
removed give the same aggregate under the insertion order; under the insertion
order for one and the reverse order for the other the aggregates have the same rows
but for the order of the token-balance rows; a block of two votes gives an
aggregate without rows. -/
theorem ParseBlock_votes_contribute_nothing_witness :
    sameExceptVotes voteFirstBlock voteFirstBlockBare ∧
    voteFirstBlock ≠ voteFirstBlockBare ∧
    ParseBlock 7 MapOrder.insertion voteFirstBlock
      = ParseBlock 7 MapOrder.insertion voteFirstBlockBare ∧
    (∃ r, ParseBlock 7 MapOrder.insertion voteFirstBlock = Except.ok (r, none) ∧
      r.Transactions.map (fun t => t.TransactionIndex) = [1]) ∧
    ((aggregateOf 7 MapOrder.insertion voteFirstBlock).Transactions
        = (aggregateOf 7 MapOrder.reversed voteFirstBlockBare).Transactions ∧
      (aggregateOf 7 MapOrder.insertion voteFirstBlock).TransactionTokenBalances.Perm
        (aggregateOf 7 MapOrder.reversed voteFirstBlockBare).TransactionTokenBalances ∧
      (aggregateOf 7 MapOrder.insertion voteFirstBlock).TransactionTokenBalances.map
          (fun a => a.TransactionIndex)
        = (aggregateOf 7 MapOrder.reversed voteFirstBlockBare).TransactionTokenBalances.map
          (fun a => a.TransactionIndex)) ∧
    (∀ tx ∈ sourceTransactions allVotesBlock, tx.IsVote = true) ∧
    (∃ r, ParseBlock 7 MapOrder.insertion allVotesBlock = Except.ok (r, none) ∧
      r.Transactions = [] ∧ r.TransactionInstructions = [] ∧ r.TransactionAccounts = [] ∧
      r.TransactionTokenBalances = [] ∧ r.TransactionSignatures = [] ∧
      r.TransactionLogs = [] ∧ r.TransactionInnerInstructions = [] ∧ r.BlockRewards = [] ∧
      r.Block.TransactionCount = 0) :=
  have hsame : sameExceptVotes voteFirstBlock voteFirstBlockBare :=
    ⟨rfl, rfl, rfl, rfl, rfl, rfl,
      List.Forall₂.cons (Or.inr ⟨rfl, rfl⟩) (List.Forall₂.cons (Or.inl rfl) List.Forall₂.nil)⟩
  have hvotes : ∀ tx ∈ sourceTransactions allVotesBlock, tx.IsVote = true := by
    intro tx htx
    simp only [sourceTransactions, allVotesBlock, pb.GetTransactions, Option.getD,
      List.mem_cons, List.mem_singleton, List.not_mem_nil, or_false] at htx
    rcases htx with rfl | rfl <;> rfl
  have h := (ParseBlock_votes_contribute_nothing 7).1 voteFirstBlock voteFirstBlockBare hsame
  have h2 := (h.2 MapOrder.insertion MapOrder.reversed).2
    (aggregateOf 7 MapOrder.insertion voteFirstBlock) none
    (aggregateOf 7 MapOrder.reversed voteFirstBlockBare) none rfl rfl
  ⟨hsame, by decide, h.1 MapOrder.insertion, ⟨_, rfl, rfl⟩,
    ⟨h2.2.2.2.1, h2.2.2.2.2.2.2.2.2.2.1, h2.2.2.2.2.2.2.2.2.2.2⟩, hvotes,
    (ParseBlock_votes_contribute_nothing 7).2 MapOrder.insertion allVotesBlock hvotes⟩

/-- The indices and the content of the rows of one enumeration loop. -/
theorem map_enum_rows {α β γ : Type} (l : List α) (row : Nat → α → β) (idx : β → Nat)
    (content : β → γ) (src : α → γ)
    (hidx : ∀ j a, idx (row j a) = j) (hcontent : ∀ j a, content (row j a) = src a) :
    (l.enum.map (fun p => row p.1 p.2)).map idx = List.range l.length ∧
    (l.enum.map (fun p => row p.1 p.2)).map content = l.map src := by
  refine ⟨?_, ?_⟩
  · rw [List.map_map, ← List.enum_map_fst l]
    apply List.map_congr_left
    intro p _
    exact hidx p.1 p.2
  · rw [List.map_map]
    conv_rhs => rw [← List.enum_map_snd l, List.map_map]
    apply List.map_congr_left
    intro p _
    exact hcontent p.1 p.2

/-- The index and the line of a log row. -/
theorem parseLog_fields (now : Time) (slot i : Nat) (instructions : List Instruction) (j : Nat)
    (log : String) :
    (parseLog now slot i instructions j log).LogIndex = j ∧
    (parseLog now slot i instructions j log).Log = log := by
  unfold parseLog
  cases instructions <;> exact ⟨rfl, rfl⟩

/-- C15: in every aggregate `ParseBlock` returns, the rows of a transaction that is not
a vote (the rows with its transaction index, in the order of the collection) follow
the source order.  The instruction rows carry the indices 0, 1, ..., n-1 and, row by
row, the data and the program-id index of the source instructions; the account rows
carry the indices 0, 1, ..., m-1 and the base-58 text of the source keys; the log rows
carry the indices 0, 1, ..., l-1 and the source log lines; the signature rows carry the
base-58 text of the source signatures, one row per signature.  `ParseBlock` returns
on every complete block. -/
theorem ParseBlock_rows_in_source_order (now : Time) (ord : MapOrder)
    (block : pb.SubscribeUpdateBlock) :
    (∀ r e, ParseBlock now ord block = Except.ok (r, e) →
      ∀ (i : Nat) (tx : pb.SubscribeUpdateTransactionInfo),
        (sourceTransactions block)[i]? = some tx → tx.IsVote = false →
        (∀ msg, txMessage tx = some msg →
          (r.TransactionInstructions.filter (fun a => decide (a.TransactionIndex = i))).map
              (fun a => a.InstructionIndex) = List.range msg.Instructions.length ∧
          (r.TransactionInstructions.filter (fun a => decide (a.TransactionIndex = i))).map
              (fun a => (a.Data, a.ProgramIdIndex))
            = msg.Instructions.map (fun inst => (inst.Data, inst.ProgramIdIndex))) ∧
        (∀ msg keys, txMessage tx = some msg → msg.AccountKeys = some keys →
          (∃ m, tx.Meta = some m) ∧
          (r.TransactionAccounts.filter (fun a => decide (a.TransactionIndex = i))).map
              (fun a => a.AccountIndex) = List.range keys.length ∧
          (r.TransactionAccounts.filter (fun a => decide (a.TransactionIndex = i))).map
              (fun a => (a.Pubkey, a.AccountAddress))
            = keys.map (fun key => (encodeBase58 key, encodeBase58 key))) ∧
        (∀ m logs, tx.Meta = some m → m.LogMessages = some logs →
          (r.TransactionLogs.filter (fun a => decide (a.TransactionIndex = i))).map
              (fun a => a.LogIndex) = List.range logs.length ∧
          (r.TransactionLogs.filter (fun a => decide (a.TransactionIndex = i))).map
              (fun a => a.Log) = logs) ∧
        (∀ t, tx.Transaction = some t →
          (r.TransactionSignatures.filter (fun a => decide (a.TransactionIndex = i))).map
              (fun a => a.Signature) = t.Signatures.map encodeBase58)) ∧
    (completeBlock block = true → ∃ r, ParseBlock now ord block = Except.ok (r, none)) := by
  refine ⟨?_, fun hc => ⟨_, ParseBlock_returns_of_complete now ord block hc⟩⟩
  intro r e h i tx htx hv
  refine ⟨?_, ?_, ?_, ?_⟩
  · intro msg hmsg
    rw [instructions_of_position now ord block r e h i tx htx hv]
    simp only [txInstructions, hmsg, parseInstructions]
    exact map_enum_rows msg.Instructions (parseInstruction now block.Slot i msg)
      (fun a => a.InstructionIndex) (fun a => (a.Data, a.ProgramIdIndex))
      (fun inst => (inst.Data, inst.ProgramIdIndex))
      (fun j inst => (parseInstruction_key now block.Slot i msg j inst).2.2.1)
      (fun j inst => by
        dsimp only
        rw [(parseInstruction_key now block.Slot i msg j inst).2.2.2.1,
          (parseInstruction_key now block.Slot i msg j inst).2.2.2.2])
  · intro msg keys hmsg hk
    obtain ⟨m, hm, hcases⟩ := accounts_of_position now ord block r e h i tx htx hv
    refine ⟨⟨m, hm⟩, ?_⟩
    rcases hcases with ⟨h0, hnil⟩ | ⟨msg1, keys1, header, hmsg1, hk1, _, hrows⟩
    · simp only [accountKeyCount, hmsg, hk, List.length_eq_zero] at h0
      subst h0
      rw [hnil]
      exact ⟨rfl, rfl⟩
    · rw [hmsg] at hmsg1
      cases hmsg1
      rw [hk] at hk1
      cases hk1
      rw [hrows]
      exact map_enum_rows keys (parseAccountRow now block.Slot i header m keys)
        (fun a => a.AccountIndex) (fun a => (a.Pubkey, a.AccountAddress))
        (fun key => (encodeBase58 key, encodeBase58 key))
        (fun j key => (parseAccountRow_key now block.Slot i header m keys j key).2.2)
        (fun j key => by
          dsimp only
          rw [(parseAccountRow_fields now block.Slot i header m keys j key).2.2.2.2.2.1,
            (parseAccountRow_fields now block.Slot i header m keys j key).2.2.2.2.2.2]
          rfl)
  · intro m logs hm hl
    obtain ⟨before, rest, h1, _⟩ := logs_of_position now ord block r e h i tx htx hv
    rw [h1]
    simp only [parseLogs, hm, hl]
    have := map_enum_rows logs
      (parseLog now block.Slot i (before ++ txInstructions now block.Slot i tx))
      (fun a => a.LogIndex) (fun a => a.Log) (fun log => log)
      (fun j log => (parseLog_fields now block.Slot i _ j log).1)
      (fun j log => (parseLog_fields now block.Slot i _ j log).2)
    rw [List.map_id'] at this
    exact this
  · intro t ht
    rw [signatures_of_position now ord block r e h i tx htx hv]
    simp only [parseSignatures, ht, List.map_map]
    rfl

/-- C15 (witness): the sample block is complete, so `ParseBlock` returns on it; the
rows of its transaction at position 1 carry the instruction indices 0, 1, the
account indices 0, 1, 2, 3, the log indices 0, 1 with the two source log lines, and
the base-58 text of the two source signatures. -/
theorem ParseBlock_rows_in_source_order_witness :
    completeBlock voteFirstBlock = true ∧
    (∃ r, ParseBlock 7 MapOrder.insertion voteFirstBlock = Except.ok (r, none)) ∧
    ParseBlock 7 MapOrder.insertion voteFirstBlock
      = Except.ok (aggregateOf 7 MapOrder.insertion voteFirstBlock, none) ∧
    (((aggregateOf 7 MapOrder.insertion voteFirstBlock).TransactionInstructions.filter
        (fun a => decide (a.TransactionIndex = 1))).map (fun a => a.InstructionIndex)
      = List.range 2 ∧
     ((aggregateOf 7 MapOrder.insertion voteFirstBlock).TransactionInstructions.filter
        (fun a => decide (a.TransactionIndex = 1))).map (fun a => (a.Data, a.ProgramIdIndex))
      = [([9], 1), ([], 7)]) ∧
    ((∃ m, sampleTx.Meta = some m) ∧
     ((aggregateOf 7 MapOrder.insertion voteFirstBlock).TransactionAccounts.filter
        (fun a => decide (a.TransactionIndex = 1))).map (fun a => a.AccountIndex)
      = List.range 4 ∧
     ((aggregateOf 7 MapOrder.insertion voteFirstBlock).TransactionAccounts.filter
        (fun a => decide (a.TransactionIndex = 1))).map (fun a => (a.Pubkey, a.AccountAddress))
      = [[0, 1], [2], [3], [4]].map (fun key => (encodeBase58 key, encodeBase58 key))) ∧
    (((aggregateOf 7 MapOrder.insertion voteFirstBlock).TransactionLogs.filter
        (fun a => decide (a.TransactionIndex = 1))).map (fun a => a.LogIndex)
      = List.range 2 ∧
     ((aggregateOf 7 MapOrder.insertion voteFirstBlock).TransactionLogs.filter
        (fun a => decide (a.TransactionIndex = 1))).map (fun a => a.Log)
      = ["invoke", "success"]) ∧
    ((aggregateOf 7 MapOrder.insertion voteFirstBlock).TransactionSignatures.filter
        (fun a => decide (a.TransactionIndex = 1))).map (fun a => a.Signature)
      = [encodeBase58 [1, 2], encodeBase58 [3]] ∧
    (aggregateOf 7 MapOrder.insertion voteFirstBlock).TransactionAccounts.map
        (fun a => (a.TransactionIndex, a.AccountIndex, a.Pubkey))
      = [(1, 0, "12"), (1, 1, "3"), (1, 2, "4"), (1, 3, "5")] ∧
    (aggregateOf 7 MapOrder.insertion voteFirstBlock).TransactionSignatures.map
        (fun a => (a.TransactionIndex, a.Signature))
      = [(1, "5T"), (1, "4")] :=
  have h := ParseBlock_rows_in_source_order 7 MapOrder.insertion voteFirstBlock
  have h1 := h.1 (aggregateOf 7 MapOrder.insertion voteFirstBlock) none rfl 1 sampleTx rfl rfl
  ⟨rfl, h.2 rfl, rfl, h1.1 sampleMessage rfl,
    h1.2.1 sampleMessage [[0, 1], [2], [3], [4]] rfl rfl,
    h1.2.2.1 sampleMeta ["invoke", "success"] rfl rfl,
    h1.2.2.2 { Signatures := [[1, 2], [3]], Message := some sampleMessage } rfl,
    by decide, by decide⟩

theorem intercalate_go_eq_foldl (sep : String) (l : List String) (acc : String) :
    String.intercalate.go acc sep l = l.foldl (fun acc s => acc ++ sep ++ s) acc := by
  induction l generalizing acc with
  | nil => rfl
  | cons a l ih => simp only [String.intercalate.go, List.foldl_cons, ih]

/-- The function `strings.Join` joins as `String.intercalate` does. -/
theorem Join_eq_intercalate (l : List String) (sep : String) :
    strings.Join l sep = String.intercalate sep l := by
  cases l with
  | nil => rfl
  | cons a l => simp only [strings.Join, String.intercalate, intercalate_go_eq_foldl]

theorem foldl_replicate_sep (sep x : String) (n : Nat) (acc : String) :
    (List.replicate n x).foldl (fun acc s => acc ++ sep ++ s) acc
      = acc ++ strings.repeatN (sep ++ x) n := by
  induction n generalizing acc with
  | zero => simp [strings.repeatN]
  | succ n ih =>
    rw [List.replicate_succ', List.foldl_append, ih]
    simp [strings.repeatN, String.append_assoc]

theorem repeatN_shift (a b : String) (n : Nat) :
    strings.repeatN (a ++ b) n ++ a = a ++ strings.repeatN (b ++ a) n := by
  induction n with
  | zero => simp [strings.repeatN]
  | succ n ih =>
    simp only [strings.repeatN]
    calc strings.repeatN (a ++ b) n ++ (a ++ b) ++ a
        = (strings.repeatN (a ++ b) n ++ a) ++ (b ++ a) := by simp only [String.append_assoc]
      _ = a ++ (strings.repeatN (b ++ a) n ++ (b ++ a)) := by rw [ih, String.append_assoc]

/-- The placeholders of one row, as the code builds them, are the placeholders joined
by commas. -/
theorem repeat_placeholders (c : Nat) :
    strings.repeatN "?," c ++ "?" = String.intercalate "," (List.replicate (c + 1) "?") := by
  have h1 : ("?," : String) = "?" ++ "," := by decide
  rw [h1, repeatN_shift, List.replicate_succ, String.intercalate, intercalate_go_eq_foldl,
    foldl_replicate_sep]

theorem placeholderCount_append (a b : String) :
    placeholderCount (a ++ b) = placeholderCount a + placeholderCount b := by
  simp [placeholderCount, String.data_append, List.count_append]

theorem placeholderCount_repeatN (s : String) (n : Nat) :
    placeholderCount (strings.repeatN s n) = n * placeholderCount s := by
  induction n with
  | zero => simp [strings.repeatN, placeholderCount]
  | succ n ih => rw [strings.repeatN, placeholderCount_append, ih]; ring

theorem placeholderCount_intercalate_replicate (x : String) (n : Nat) :
    placeholderCount (String.intercalate "," (List.replicate n x)) = n * placeholderCount x := by
  cases n with
  | zero => simp [String.intercalate, placeholderCount]
  | succ n =>
    rw [List.replicate_succ, String.intercalate, intercalate_go_eq_foldl, foldl_replicate_sep,
      placeholderCount_append, placeholderCount_repeatN, placeholderCount_append]
    have : placeholderCount "," = 0 := by decide
    rw [this]
    ring

theorem placeholderCount_valueGroup (c : Nat) : placeholderCount (valueGroup c) = c := by
  unfold valueGroup
  rw [placeholderCount_append, placeholderCount_append, placeholderCount_intercalate_replicate]
  have h1 : placeholderCount "(" = 0 := by decide
  have h2 : placeholderCount ")" = 0 := by decide
  have h3 : placeholderCount "?" = 1 := by decide
  rw [h1, h2, h3]
  ring

theorem placeholderCount_valuesPart (r c : Nat) : placeholderCount (valuesPart r c) = r * c := by
  unfold valuesPart
  rw [placeholderCount_intercalate_replicate, placeholderCount_valueGroup]

/-- The statement `generateBatchInsertSQL` returns for at least one column and no
negative row count. -/
theorem generateBatchInsertSQL_eq (table : String) (columns : List String) (r : Nat)
    (hc : 1 ≤ columns.length) :
    generateBatchInsertSQL table columns (r : Int)
      = Except.ok ("INSERT INTO " ++ table ++ " (" ++ String.intercalate ", " columns
          ++ ") VALUES " ++ valuesPart r columns.length) := by
  unfold generateBatchInsertSQL
  have hr : ¬ ((r : Int) < 0) := by omega
  have hrep : strings.Repeat "?," ((columns.length : Int) - 1)
      = Except.ok (strings.repeatN "?," (columns.length - 1)) := by
    unfold strings.Repeat
    have h1 : ¬ ((columns.length : Int) - 1 < 0) := by omega
    have h2 : ((columns.length : Int) - 1).toNat = columns.length - 1 := by omega
    rw [if_neg h1, h2]
  simp only [hr, if_false, hrep, Int.toNat_ofNat]
  have hgroup : "(" ++ (strings.repeatN "?," (columns.length - 1) ++ "?") ++ ")"
      = valueGroup columns.length := by
    unfold valueGroup
    have : columns.length = (columns.length - 1) + 1 := by omega
    rw [repeat_placeholders, ← this]
  rw [hgroup, Join_eq_intercalate, Join_eq_intercalate]
  rfl

theorem valuesPart_last (r c : Nat) (hr : 1 ≤ r) :
    (valuesPart r c).toList.getLast? = some ')' := by
  obtain ⟨n, rfl⟩ : ∃ n, r = n + 1 := ⟨r - 1, by omega⟩
  have hg : ∀ pre : String, (pre ++ valueGroup c).toList.getLast? = some ')' := by
    intro pre
    simp only [valueGroup, String.toList, String.data_append]
    rw [← List.append_assoc, List.getLast?_append]
    rfl
  unfold valuesPart
  rw [List.replicate_succ, String.intercalate, intercalate_go_eq_foldl, foldl_replicate_sep]
  cases n with
  | zero =>
    have := hg ""
    simpa [strings.repeatN] using this
  | succ m =>
    rw [strings.repeatN, ← String.append_assoc, ← String.append_assoc]
    exact hg _

/-- C16: for every table name, every list of at least one column and every row count
of at least one, `generateBatchInsertSQL` returns exactly `INSERT INTO`, the
table, the columns joined by a comma and a space in parentheses, `VALUES`, and
then as many value groups as rows, joined by single commas, each group being as
many question marks as columns, joined by commas, in parentheses.  The VALUES
part ends with the closing parenthesis of a group (no trailing comma) and holds
rows times columns placeholders. -/
theorem generateBatchInsertSQL_shape (table : String) (columns : List String) (r : Nat)
    (hc : 1 ≤ columns.length) (hr : 1 ≤ r) :
    generateBatchInsertSQL table columns (r : Int)
      = Except.ok ("INSERT INTO " ++ table ++ " (" ++ String.intercalate ", " columns
          ++ ") VALUES "
          ++ String.intercalate ","
              (List.replicate r
                ("(" ++ String.intercalate "," (List.replicate columns.length "?") ++ ")"))) ∧
    (String.intercalate ","
        (List.replicate r
          ("(" ++ String.intercalate "," (List.replicate columns.length "?") ++ ")"))).toList.getLast?
      = some ')' ∧
    placeholderCount
        (String.intercalate ","
          (List.replicate r
            ("(" ++ String.intercalate "," (List.replicate columns.length "?") ++ ")")))
      = r * columns.length :=
  ⟨generateBatchInsertSQL_eq table columns r hc, valuesPart_last r columns.length hr,
    placeholderCount_valuesPart r columns.length⟩

/-- C16 (witness): two rows of three columns. -/
theorem generateBatchInsertSQL_shape_witness :
    1 ≤ ["a", "b", "c"].length ∧ 1 ≤ 2 ∧
    generateBatchInsertSQL "t" ["a", "b", "c"] 2
      = Except.ok "INSERT INTO t (a, b, c) VALUES (?,?,?),(?,?,?)" ∧
    placeholderCount "(?,?,?),(?,?,?)" = 2 * 3 :=
  have h := generateBatchInsertSQL_shape "t" ["a", "b", "c"] 2 (by decide) (by decide)
  ⟨by decide, by decide, h.1, h.2.2⟩

theorem generate_transactions_ok (n : Nat) :
    generateBatchInsertSQL "transactions" transactionColumns (n : Int)
      = Except.ok ("INSERT INTO transactions (" ++ String.intercalate ", " transactionColumns
          ++ ") VALUES " ++ valuesPart n transactionColumns.length) := by
  have := generateBatchInsertSQL_eq "transactions" transactionColumns n (by decide)
  rw [this]
  simp only [String.append_assoc]
  rfl

theorem generate_signatures_ok (n : Nat) :
    generateBatchInsertSQL "transactions_signatures" signatureColumns (n : Int)
      = Except.ok ("INSERT INTO transactions_signatures ("
          ++ String.intercalate ", " signatureColumns
          ++ ") VALUES " ++ valuesPart n signatureColumns.length) := by
  have := generateBatchInsertSQL_eq "transactions_signatures" signatureColumns n (by decide)
  rw [this]
  simp only [String.append_assoc]
  rfl

theorem saveSignaturesAndCommit_eq (db : Storage) (block : ParsedBlock) (events : List Event) :
    saveSignaturesAndCommit db block events
      = ((runBatches db events
            (if block.TransactionSignatures.length > 0 then
              [("error batch inserting transaction signatures",
                statementOf (generateBatchInsertSQL "transactions_signatures" signatureColumns
                  (block.TransactionSignatures.length : Int)),
                signatureValues block.TransactionSignatures)]
            else [])).1,
         Except.ok (runBatches db events
            (if block.TransactionSignatures.length > 0 then
              [("error batch inserting transaction signatures",
                statementOf (generateBatchInsertSQL "transactions_signatures" signatureColumns
                  (block.TransactionSignatures.length : Int)),
                signatureValues block.TransactionSignatures)]
            else [])).2) := by
  unfold saveSignaturesAndCommit
  by_cases h : block.TransactionSignatures.length > 0
  · simp only [h, if_true, generate_signatures_ok, statementOf, runBatches, Storage.Exec]
    cases h1 : db.exec events _ (signatureValues block.TransactionSignatures) with
    | some err => rfl
    | none =>
      dsimp only
      cases h2 : db.commit _ <;> rfl
  · simp only [h, if_false, runBatches]
    cases h2 : db.commit events <;> rfl

theorem saveInTransaction_eq (db : Storage) (block : ParsedBlock) (events : List Event) :
    saveInTransaction db block events
      = ((runBatches db events (batches block)).1,
         Except.ok (runBatches db events (batches block)).2) := by
  unfold saveInTransaction batches
  simp only [Storage.Exec, List.singleton_append, runBatches]
  cases h1 : db.exec events blockInsertSQL (blockValues block.Block) with
  | some err => rfl
  | none =>
    dsimp only
    by_cases h : block.Transactions.length > 0
    · simp only [h, if_true, generate_transactions_ok, statementOf, List.singleton_append,
        runBatches]
      cases h2 : db.exec _ _ (transactionValues block.Transactions) with
      | some err => rfl
      | none =>
        dsimp only
        rw [saveSignaturesAndCommit_eq]
        simp only [generate_signatures_ok, statementOf]
        rfl
    · simp only [h, if_false, List.nil_append]
      rw [saveSignaturesAndCommit_eq]
      rfl

/-- The calls and the result of `SaveToDatabase`: the inserts of the aggregate run one
after the other until the first failure, then the commit, then the deferred
rollback. -/
theorem SaveToDatabase_eq (db : Storage) (block : ParsedBlock) :
    SaveToDatabase db block
      = match db.begin with
        | some err =>
          ([Event.begin (some err)], Except.ok (some (errorf "error starting transaction" err)))
        | none =>
          ((runBatches db [Event.begin none] (batches block)).1 ++ [Event.rollback],
            Except.ok (runBatches db [Event.begin none] (batches block)).2) := by
  unfold SaveToDatabase
  cases db.begin with
  | some err => rfl
  | none =>
    dsimp only
    rw [saveInTransaction_eq]

/-- The shape of the calls of a run of inserts: all of them and a successful commit; or
the inserts before the first failing one, and that one; or all of them and a
failed commit. -/
theorem runBatches_trace (db : Storage) :
    ∀ (bs : List (String × String × List Value)) (events : List Event),
      ((runBatches db events bs).2 = none ∧
        (runBatches db events bs).1
          = events ++ bs.map (fun b => Event.exec b.2.1 b.2.2 none) ++ [Event.commit none]) ∨
      (∃ k b err, bs[k]? = some b ∧
        (runBatches db events bs).2 = some (errorf b.1 err) ∧
        (runBatches db events bs).1
          = events ++ (bs.take k).map (fun b => Event.exec b.2.1 b.2.2 none)
              ++ [Event.exec b.2.1 b.2.2 (some err)]) ∨
      (∃ err, (runBatches db events bs).2 = some (errorf "error committing transaction" err) ∧
        (runBatches db events bs).1
          = events ++ bs.map (fun b => Event.exec b.2.1 b.2.2 none)
              ++ [Event.commit (some err)]) := by
  intro bs
  induction bs with
  | nil =>
    intro events
    simp only [runBatches]
    cases h : db.commit events with
    | some err => exact Or.inr (Or.inr ⟨err, rfl, by simp⟩)
    | none => exact Or.inl ⟨rfl, by simp⟩
  | cons b rest ih =>
    intro events
    obtain ⟨pre, sql, args⟩ := b
    simp only [runBatches]
    cases h : db.exec events sql args with
    | some err =>
      exact Or.inr (Or.inl ⟨0, (pre, sql, args), err, by simp, rfl, by simp⟩)
    | none =>
      dsimp only
      rcases ih (events ++ [Event.exec sql args none]) with ⟨h1, h2⟩ | ⟨k, b, err, h1, h2, h3⟩ |
        ⟨err, h1, h2⟩
      · exact Or.inl ⟨h1, by rw [h2]; simp⟩
      · exact Or.inr (Or.inl ⟨k + 1, b, err, by simpa using h1, h2, by rw [h3]; simp⟩)
      · exact Or.inr (Or.inr ⟨err, h1, by rw [h2]; simp⟩)

theorem replay_append (st : StoreState) (a b : List Event) :
    replay st (a ++ b) = replay (replay st a) b := by
  simp [replay, List.foldl_append]

/-- Successful inserts in an active transaction become pending. -/
theorem replay_execs (bs : List (String × String × List Value)) :
    ∀ (st : StoreState), st.status = TxStatus.active →
      replay st (bs.map (fun b => Event.exec b.2.1 b.2.2 none))
        = { st with pending := st.pending ++ bs.map (fun b => (b.2.1, b.2.2)) } := by
  induction bs with
  | nil => intro st _; simp [replay]
  | cons b rest ih =>
    intro st hst
    simp only [List.map_cons, replay, List.foldl_cons]
    have h1 : st.step (Event.exec b.2.1 b.2.2 none)
        = { st with pending := st.pending ++ [(b.2.1, b.2.2)] } := by
      simp [StoreState.step, hst]
    rw [h1]
    have := ih { st with pending := st.pending ++ [(b.2.1, b.2.2)] } hst
    simp only [replay] at this
    rw [this]
    simp

theorem executedStatements_append (a b : List Event) :
    executedStatements (a ++ b) = executedStatements a ++ executedStatements b := by
  simp [executedStatements, List.filterMap_append]

theorem executedStatements_execs (bs : List (String × String × List Value)) :
    executedStatements (bs.map (fun b => Event.exec b.2.1 b.2.2 none))
      = bs.map (fun b => (b.2.1, b.2.2)) := by
  induction bs with
  | nil => rfl
  | cons b rest ih =>
    simp only [List.map_cons, executedStatements, List.filterMap_cons]
    simp only [executedStatements] at ih
    rw [ih]

/-- The three shapes of the calls of `SaveToDatabase` after a successful `Begin`. -/
theorem SaveToDatabase_trace (db : Storage) (block : ParsedBlock) (hb : db.begin = none) :
    ((SaveToDatabase db block).2 = Except.ok none ∧
      (SaveToDatabase db block).1
        = [Event.begin none] ++ (batches block).map (fun b => Event.exec b.2.1 b.2.2 none)
            ++ [Event.commit none] ++ [Event.rollback]) ∨
    (∃ k b err, (batches block)[k]? = some b ∧
      (SaveToDatabase db block).2 = Except.ok (some (errorf b.1 err)) ∧
      (SaveToDatabase db block).1
        = [Event.begin none] ++ ((batches block).take k).map (fun b => Event.exec b.2.1 b.2.2 none)
            ++ [Event.exec b.2.1 b.2.2 (some err)] ++ [Event.rollback]) ∨
    (∃ err, (SaveToDatabase db block).2
        = Except.ok (some (errorf "error committing transaction" err)) ∧
      (SaveToDatabase db block).1
        = [Event.begin none] ++ (batches block).map (fun b => Event.exec b.2.1 b.2.2 none)
            ++ [Event.commit (some err)] ++ [Event.rollback]) := by
  rw [SaveToDatabase_eq, hb]
  dsimp only
  rcases runBatches_trace db (batches block) [Event.begin none] with ⟨h1, h2⟩ |
    ⟨k, b, err, h1, h2, h3⟩ | ⟨err, h1, h2⟩
  · exact Or.inl ⟨by rw [h1], by rw [h2]⟩
  · exact Or.inr (Or.inl ⟨k, b, err, h1, by rw [h2], by rw [h3]⟩)
  · exact Or.inr (Or.inr ⟨err, by rw [h1], by rw [h2]⟩)

theorem SaveToDatabase_begin_failed (db : Storage) (block : ParsedBlock) (err : GoError)
    (hb : db.begin = some err) :
    SaveToDatabase db block
      = ([Event.begin (some err)], Except.ok (some (errorf "error starting transaction" err))) := by
  rw [SaveToDatabase_eq, hb]

theorem errorf_ne (pre err : String) : errorf pre err ≠ err := by
  intro h
  have := congrArg String.length h
  simp only [errorf, String.length_append] at this
  have h2 : (": " : String).length = 2 := by decide
  omega

theorem batches_pre (block : ParsedBlock) (b : String × String × List Value)
    (hb : b ∈ batches block) :
    b.1 = "error inserting block" ∨ b.1 = "error batch inserting transactions"
      ∨ b.1 = "error batch inserting transaction signatures" := by
  unfold batches at hb
  simp only [List.mem_append, List.mem_singleton] at hb
  rcases hb with (hb | hb) | hb
  · subst hb; exact Or.inl rfl
  · split at hb
    · simp only [List.mem_singleton] at hb; subst hb; exact Or.inr (Or.inl rfl)
    · cases hb
  · split at hb
    · simp only [List.mem_singleton] at hb; subst hb; exact Or.inr (Or.inr rfl)
    · cases hb

theorem replay_committed (bs : List (String × String × List Value)) :
    replay {} ([Event.begin none] ++ bs.map (fun b => Event.exec b.2.1 b.2.2 none)
        ++ [Event.commit none] ++ [Event.rollback])
      = { status := TxStatus.committed, pending := [],
          visible := bs.map (fun b => (b.2.1, b.2.2)) } := by
  rw [replay_append, replay_append, replay_append]
  have h0 : replay {} [Event.begin none] = { status := TxStatus.active } := rfl
  rw [h0, replay_execs bs _ rfl]
  simp [replay, StoreState.step]

theorem replay_exec_failed (bs : List (String × String × List Value)) (sql : String)
    (args : List Value) (err : GoError) :
    replay {} ([Event.begin none] ++ bs.map (fun b => Event.exec b.2.1 b.2.2 none)
        ++ [Event.exec sql args (some err)] ++ [Event.rollback])
      = { status := TxStatus.rolledBack, pending := [], visible := [] } := by
  rw [replay_append, replay_append, replay_append]
  have h0 : replay {} [Event.begin none] = { status := TxStatus.active } := rfl
  rw [h0, replay_execs bs _ rfl]
  simp [replay, StoreState.step]

theorem replay_commit_failed (bs : List (String × String × List Value)) (err : GoError) :
    replay {} ([Event.begin none] ++ bs.map (fun b => Event.exec b.2.1 b.2.2 none)
        ++ [Event.commit (some err)] ++ [Event.rollback])
      = { status := TxStatus.rolledBack, pending := [], visible := [] } := by
  rw [replay_append, replay_append, replay_append]
  have h0 : replay {} [Event.begin none] = { status := TxStatus.active } := rfl
  rw [h0, replay_execs bs _ rfl]
  simp [replay, StoreState.step]

theorem execs_error (bs : List (String × String × List Value)) (f : Event)
    (hf : f ∈ bs.map (fun b => Event.exec b.2.1 b.2.2 none)) :
    f.error = none ∧ (∀ c, f ≠ Event.commit c) ∧ ∃ sql args, f = Event.exec sql args none := by
  obtain ⟨b, _, rfl⟩ := List.mem_map.mp hf
  exact ⟨rfl, fun c h => (by cases h), b.2.1, b.2.2, rfl⟩

/-- C18: with the storage as an explicit transaction state, for every aggregate and
every outcome of the storage calls: `SaveToDatabase` returns (it does not panic);
it issues `Commit` exactly when `Begin` and every `Exec` succeeded; it returns nil
exactly when `Commit` succeeded, and then the transaction is committed and the
statements of the aggregate are visible; and when a call fails, a non-nil error
is returned, no commit takes effect, no statement is visible or pending, the
transaction is not left active (it is rolled back whenever `Begin` had opened
one, the deferred `Rollback` being the last call), and the failed call is
followed by no other call than that `Rollback`. -/
theorem SaveToDatabase_atomic (db : Storage) (block : ParsedBlock) :
    (∃ err, (SaveToDatabase db block).2 = Except.ok err) ∧
    ((∃ c, Event.commit c ∈ (SaveToDatabase db block).1) ↔
      (db.begin = none ∧
        ∀ sql args e, Event.exec sql args e ∈ (SaveToDatabase db block).1 → e = none)) ∧
    ((SaveToDatabase db block).2 = Except.ok none ↔
      Event.commit none ∈ (SaveToDatabase db block).1) ∧
    ((SaveToDatabase db block).2 = Except.ok none →
      replay {} (SaveToDatabase db block).1
        = { status := TxStatus.committed, pending := [],
            visible := (batches block).map (fun b => (b.2.1, b.2.2)) }) ∧
    (∀ f ∈ (SaveToDatabase db block).1, ∀ e, f.error = some e →
      (∃ err, (SaveToDatabase db block).2 = Except.ok (some err)) ∧
      Event.commit none ∉ (SaveToDatabase db block).1 ∧
      (replay {} (SaveToDatabase db block).1).visible = [] ∧
      (replay {} (SaveToDatabase db block).1).pending = [] ∧
      (replay {} (SaveToDatabase db block).1).status ≠ TxStatus.active ∧
      (replay {} (SaveToDatabase db block).1).status ≠ TxStatus.committed ∧
      (db.begin = none →
        (replay {} (SaveToDatabase db block).1).status = TxStatus.rolledBack ∧
        (SaveToDatabase db block).1.getLast? = some Event.rollback) ∧
      (∃ before, ((SaveToDatabase db block).1 = before ++ [f]
            ∨ (SaveToDatabase db block).1 = before ++ [f, Event.rollback]) ∧
          ∀ g ∈ before, g.error = none)) := by
  cases hb : db.begin with
  | some err =>
    rw [SaveToDatabase_begin_failed db block err hb]
    refine ⟨⟨_, rfl⟩, ?_, ?_, ?_, ?_⟩
    · simp
    · simp
    · intro h; cases h
    · intro f hf e he
      simp only [List.mem_singleton] at hf
      subst hf
      refine ⟨⟨_, rfl⟩, by simp, rfl, rfl, by simp [replay, StoreState.step],
        by simp [replay, StoreState.step], ?_, ⟨[], Or.inl rfl, ?_⟩⟩
      · intro h; cases h
      · intro g hg; cases hg
  | none =>
    rcases SaveToDatabase_trace db block hb with ⟨h1, h2⟩ | ⟨k, b, err, hk, h1, h2⟩ |
      ⟨err, h1, h2⟩
    · -- every call succeeded
      have hall : ∀ f ∈ (SaveToDatabase db block).1, f.error = none := by
        intro f hf
        rw [h2] at hf
        simp only [List.mem_append, List.mem_singleton] at hf
        rcases hf with ((hf | hf) | hf) | hf
        · subst hf; rfl
        · exact (execs_error _ f hf).1
        · subst hf; rfl
        · subst hf; rfl
      refine ⟨⟨_, h1⟩, ?_, ?_, ?_, ?_⟩
      · constructor
        · intro _
          refine ⟨rfl, ?_⟩
          intro sql args e he
          exact hall _ he
        · intro _
          exact ⟨none, by rw [h2]; simp⟩
      · constructor
        · intro _; rw [h2]; simp
        · intro _; exact h1
      · intro _
        rw [h2]
        exact replay_committed _
      · intro f hf e he
        rw [hall f hf] at he
        cases he
    · -- an insert failed
      have hbefore : ∀ g ∈ [Event.begin none]
          ++ ((batches block).take k).map (fun b => Event.exec b.2.1 b.2.2 none),
          g.error = none ∧ ∀ c, g ≠ Event.commit c := by
        intro g hg
        simp only [List.mem_append, List.mem_singleton] at hg
        rcases hg with hg | hg
        · subst hg; exact ⟨rfl, fun c h => (by cases h)⟩
        · exact ⟨(execs_error _ g hg).1, (execs_error _ g hg).2.1⟩
      have hnc : ∀ c, Event.commit c ∉ (SaveToDatabase db block).1 := by
        intro c hc
        rw [h2] at hc
        simp only [List.mem_append, List.mem_singleton] at hc
        rcases hc with (hc | hc) | hc
        · exact (hbefore _ (by simpa using hc)).2 c rfl
        · cases hc
        · cases hc
      refine ⟨⟨_, h1⟩, ?_, ?_, ?_, ?_⟩
      · constructor
        · rintro ⟨c, hc⟩; exact absurd hc (hnc c)
        · rintro ⟨_, hall⟩
          have := hall b.2.1 b.2.2 (some err) (by rw [h2]; simp)
          cases this
      · constructor
        · intro h; rw [h1] at h; cases h
        · intro h; exact absurd h (hnc none)
      · intro h; rw [h1] at h; cases h
      · intro f hf e he
        have hfeq : f = Event.exec b.2.1 b.2.2 (some err) := by
          rw [h2] at hf
          simp only [List.mem_append, List.mem_singleton] at hf
          rcases hf with (hf | hf) | hf
          · have := (hbefore f (by simpa using hf)).1
            rw [this] at he; cases he
          · exact hf
          · subst hf; cases he
        subst hfeq
        have hrep := replay_exec_failed ((batches block).take k) b.2.1 b.2.2 err
        rw [← h2] at hrep
        refine ⟨⟨_, h1⟩, hnc none, by rw [hrep], by rw [hrep], by rw [hrep]; decide,
          by rw [hrep]; decide, fun _ => ⟨by rw [hrep], by rw [h2]; exact List.getLast?_concat _⟩, ?_⟩
        exact ⟨_, Or.inr (by rw [h2]; simp), fun g hg => (hbefore g hg).1⟩
    · -- the commit failed
      have hbefore : ∀ g ∈ [Event.begin none]
          ++ (batches block).map (fun b => Event.exec b.2.1 b.2.2 none),
          g.error = none ∧ g ≠ Event.commit none ∧ ∀ sql args e, g = Event.exec sql args e → e = none := by
        intro g hg
        simp only [List.mem_append, List.mem_singleton] at hg
        rcases hg with hg | hg
        · subst hg; exact ⟨rfl, fun h => (by cases h), fun _ _ _ h => (by cases h)⟩
        · obtain ⟨h3, h4, sql, args, h5⟩ := execs_error _ g hg
          refine ⟨h3, h4 none, ?_⟩
          intro sql1 args1 e1 he1
          rw [h5] at he1
          cases he1
          rfl
      have hnc : Event.commit none ∉ (SaveToDatabase db block).1 := by
        intro hc
        rw [h2] at hc
        simp only [List.mem_append, List.mem_singleton] at hc
        rcases hc with (hc | hc) | hc
        · simp at hc
        · cases hc
        · cases hc
      refine ⟨⟨_, h1⟩, ?_, ?_, ?_, ?_⟩
      · constructor
        · intro _
          refine ⟨rfl, ?_⟩
          intro sql args e he
          rw [h2] at he
          simp only [List.mem_append, List.mem_singleton] at he
          rcases he with (he | he) | he
          · exact (hbefore _ (by simpa using he)).2.2 sql args e rfl
          · cases he
          · cases he
        · intro _
          exact ⟨some err, by rw [h2]; simp⟩
      · constructor
        · intro h; rw [h1] at h; cases h
        · intro h; exact absurd h hnc
      · intro h; rw [h1] at h; cases h
      · intro f hf e he
        have hfeq : f = Event.commit (some err) := by
          rw [h2] at hf
          simp only [List.mem_append, List.mem_singleton] at hf
          rcases hf with (hf | hf) | hf
          · have := (hbefore f (by simpa using hf)).1
            rw [this] at he; cases he
          · exact hf
          · subst hf; cases he
        subst hfeq
        have hrep := replay_commit_failed (batches block) err
        rw [← h2] at hrep
        refine ⟨⟨_, h1⟩, hnc, by rw [hrep], by rw [hrep], by rw [hrep]; decide,
          by rw [hrep]; decide, fun _ => ⟨by rw [hrep], by rw [h2]; exact List.getLast?_concat _⟩, ?_⟩
        exact ⟨_, Or.inr (by rw [h2]; simp), fun g hg => (hbefore g hg).1⟩

/-- C18 (witness): on the aggregate of the sample block, a storage whose second
`Exec` fails leaves nothing visible and the transaction rolled back, with a
non-nil error; a reliable storage commits the three statements; a storage whose
`Begin` fails executes nothing. -/
theorem SaveToDatabase_atomic_witness :
    (SaveToDatabase Storage.secondExecFails
        (aggregateOf 7 MapOrder.insertion voteFirstBlock)).1.map Event.error
      = [none, none, some "boom", none] ∧
    (SaveToDatabase Storage.secondExecFails
        (aggregateOf 7 MapOrder.insertion voteFirstBlock)).2
      = Except.ok (some "error batch inserting transactions: boom") ∧
    replay {} (SaveToDatabase Storage.secondExecFails
        (aggregateOf 7 MapOrder.insertion voteFirstBlock)).1
      = { status := TxStatus.rolledBack, pending := [], visible := [] } ∧
    (SaveToDatabase Storage.reliable (aggregateOf 7 MapOrder.insertion voteFirstBlock)).2
      = Except.ok none ∧
    (replay {} (SaveToDatabase Storage.reliable
        (aggregateOf 7 MapOrder.insertion voteFirstBlock)).1).status = TxStatus.committed ∧
    (replay {} (SaveToDatabase Storage.reliable
        (aggregateOf 7 MapOrder.insertion voteFirstBlock)).1).visible.length = 3 ∧
    (Event.begin (some "boom")).error = some "boom" ∧
    (SaveToDatabase Storage.beginFails
        (aggregateOf 7 MapOrder.insertion voteFirstBlock)).1 = [Event.begin (some "boom")] ∧
    (replay {} (SaveToDatabase Storage.beginFails
        (aggregateOf 7 MapOrder.insertion voteFirstBlock)).1).visible = [] :=
  have h := SaveToDatabase_atomic Storage.reliable
    (aggregateOf 7 MapOrder.insertion voteFirstBlock)
  have h1 := h.2.2.2.1 rfl
  have h2 := (SaveToDatabase_atomic Storage.beginFails
    (aggregateOf 7 MapOrder.insertion voteFirstBlock)).2.2.2.2
      (Event.begin (some "boom")) (List.mem_singleton.mpr rfl) "boom" rfl
  ⟨rfl, rfl, rfl, rfl, by rw [h1], by rw [h1]; rfl, rfl, rfl, h2.2.2.1⟩

theorem runBatches_reliable (db : Storage)
    (he : ∀ ev sql args, db.exec ev sql args = none) (hc : ∀ ev, db.commit ev = none) :
    ∀ (bs : List (String × String × List Value)) (events : List Event),
      runBatches db events bs
        = (events ++ bs.map (fun b => Event.exec b.2.1 b.2.2 none) ++ [Event.commit none], none) := by
  intro bs
  induction bs with
  | nil => intro events; simp [runBatches, hc]
  | cons b rest ih =>
    intro events
    obtain ⟨pre, sql, args⟩ := b
    simp only [runBatches, he, ih]
    simp

theorem length_pos_iff_ne_nil {α : Type} (l : List α) : l.length > 0 ↔ l ≠ [] := by
  cases l <;> simp

/-- C19: when every storage call succeeds, the calls of `SaveToDatabase` are `Begin`,
the blocks insert, then the transactions insert exactly when there is a
transaction row, then the signatures insert exactly when there is a signature
row, then `Commit` (and the deferred `Rollback`), and it returns nil; the
statements executed are these inserts and nothing else; an aggregate without
transaction and signature rows executes the blocks insert alone. -/
theorem SaveToDatabase_statements (db : Storage) (block : ParsedBlock)
    (hb : db.begin = none) (he : ∀ ev sql args, db.exec ev sql args = none)
    (hc : ∀ ev, db.commit ev = none) :
    (SaveToDatabase db block).2 = Except.ok none ∧
    (SaveToDatabase db block).1
      = [Event.begin none, Event.exec blockInsertSQL (blockValues block.Block) none]
        ++ (if block.Transactions = [] then []
            else [Event.exec
              ("INSERT INTO transactions (" ++ String.intercalate ", " transactionColumns
                ++ ") VALUES " ++ valuesPart block.Transactions.length transactionColumns.length)
              (transactionValues block.Transactions) none])
        ++ (if block.TransactionSignatures = [] then []
            else [Event.exec
              ("INSERT INTO transactions_signatures ("
                ++ String.intercalate ", " signatureColumns ++ ") VALUES "
                ++ valuesPart block.TransactionSignatures.length signatureColumns.length)
              (signatureValues block.TransactionSignatures) none])
        ++ [Event.commit none, Event.rollback] ∧
    (block.Transactions = [] → block.TransactionSignatures = [] →
      executedStatements (SaveToDatabase db block).1
        = [(blockInsertSQL, blockValues block.Block)]) := by
  have hrun := runBatches_reliable db he hc (batches block) [Event.begin none]
  have hsave : SaveToDatabase db block
      = ([Event.begin none] ++ (batches block).map (fun b => Event.exec b.2.1 b.2.2 none)
          ++ [Event.commit none] ++ [Event.rollback], Except.ok none) := by
    rw [SaveToDatabase_eq, hb]
    dsimp only
    rw [hrun]
  have hbatches : (batches block).map (fun b => Event.exec b.2.1 b.2.2 none)
      = [Event.exec blockInsertSQL (blockValues block.Block) none]
        ++ (if block.Transactions = [] then []
            else [Event.exec
              ("INSERT INTO transactions (" ++ String.intercalate ", " transactionColumns
                ++ ") VALUES " ++ valuesPart block.Transactions.length transactionColumns.length)
              (transactionValues block.Transactions) none])
        ++ (if block.TransactionSignatures = [] then []
            else [Event.exec
              ("INSERT INTO transactions_signatures ("
                ++ String.intercalate ", " signatureColumns ++ ") VALUES "
                ++ valuesPart block.TransactionSignatures.length signatureColumns.length)
              (signatureValues block.TransactionSignatures) none]) := by
    unfold batches
    simp only [generate_transactions_ok, generate_signatures_ok, statementOf, List.map_append,
      length_pos_iff_ne_nil]
    by_cases h1 : block.Transactions = [] <;> by_cases h2 : block.TransactionSignatures = [] <;>
      simp [h1, h2]
  refine ⟨by rw [hsave], ?_, ?_⟩
  · rw [hsave]
    dsimp only
    rw [hbatches]
    simp
  · intro h1 h2
    rw [hsave]
    dsimp only
    rw [hbatches]
    simp [h1, h2, executedStatements]

set_option maxRecDepth 100000 in
/-- C19 (witness): on a reliable storage, an aggregate without rows executes one
statement, the blocks insert, and the aggregate of the sample block executes
three. -/
theorem SaveToDatabase_statements_witness :
    executedStatements (SaveToDatabase Storage.reliable {}).1
      = [(blockInsertSQL, blockValues {})] ∧
    (SaveToDatabase Storage.reliable {}).1.length = 4 ∧
    (executedStatements (SaveToDatabase Storage.reliable
        (aggregateOf 7 MapOrder.insertion voteFirstBlock)).1).map (fun s => s.1)
      = [blockInsertSQL,
         "INSERT INTO transactions (slot, transaction_index, block_time, block_hash, fee, compute_units_consumed, compute_units_price, err, err_message, err_stack, err_instruction_index, err_custom_code, err_custom_message, successful, version, recent_blockhash, num_readonly_signed_accounts, num_readonly_unsigned_accounts, num_required_signatures, updated_at, created_at) VALUES (?,?,?,?,?,?,?,?,?,?,?,?,?,?,?,?,?,?,?,?,?)",
         "INSERT INTO transactions_signatures (signature, slot, transaction_index, updated_at, created_at) VALUES (?,?,?,?,?),(?,?,?,?,?)"] :=
  have h := SaveToDatabase_statements Storage.reliable {} rfl (fun _ _ _ => rfl) (fun _ => rfl)
  ⟨h.2.2 rfl rfl, rfl, rfl⟩

theorem errorf_eq (pre err : String) : errorf pre err = (pre ++ ": ") ++ err := by
  simp only [errorf, String.append_assoc]

/-- The leading characters of a text that starts with a given text. -/
theorem data_take_append (h x : String) (n : Nat) (hn : n ≤ h.length) :
    (h ++ x).data.take n = h.data.take n := by
  rw [String.data_append]
  exact List.take_append_of_le_length hn

/-- The statements of the three inserts are pairwise different: the blocks insert
starts with a line break, and the two batch inserts name different tables. -/
theorem statements_distinct (n k : Nat) :
    ("INSERT INTO transactions (" ++ String.intercalate ", " transactionColumns
        ++ ") VALUES " ++ valuesPart n transactionColumns.length) ≠ blockInsertSQL ∧
    ("INSERT INTO transactions_signatures (" ++ String.intercalate ", " signatureColumns
        ++ ") VALUES " ++ valuesPart k signatureColumns.length) ≠ blockInsertSQL ∧
    ("INSERT INTO transactions (" ++ String.intercalate ", " transactionColumns
        ++ ") VALUES " ++ valuesPart n transactionColumns.length)
      ≠ ("INSERT INTO transactions_signatures (" ++ String.intercalate ", " signatureColumns
        ++ ") VALUES " ++ valuesPart k signatureColumns.length) := by
  have h1 : ∀ x y z : String, ("INSERT INTO transactions (" ++ x ++ y ++ z).data.take 25
      = "INSERT INTO transactions ".data := by
    intro x y z
    rw [String.append_assoc, String.append_assoc, data_take_append _ _ 25 (by decide)]
    decide
  have h2 : ∀ x y z : String,
      ("INSERT INTO transactions_signatures (" ++ x ++ y ++ z).data.take 25
        = "INSERT INTO transactions_".data := by
    intro x y z
    rw [String.append_assoc, String.append_assoc, data_take_append _ _ 25 (by decide)]
    decide
  have h4 : ∀ t x y z : String, (("INSERT INTO " ++ t) ++ x ++ y ++ z).data.take 1 = ['I'] := by
    intro t x y z
    rw [String.append_assoc, String.append_assoc, String.append_assoc,
      data_take_append _ _ 1 (by decide)]
    decide
  have h3 : blockInsertSQL.data.take 1 = ['\n'] := by decide
  refine ⟨?_, ?_, ?_⟩
  · intro h
    have := congrArg (fun s : String => s.data.take 1) h
    simp only [h3] at this
    rw [show ("INSERT INTO transactions (" : String) = "INSERT INTO " ++ "transactions (" from by
      decide, h4] at this
    exact absurd this (by decide)
  · intro h
    have := congrArg (fun s : String => s.data.take 1) h
    simp only [h3] at this
    rw [show ("INSERT INTO transactions_signatures (" : String)
      = "INSERT INTO " ++ "transactions_signatures (" from by decide, h4] at this
    exact absurd this (by decide)
  · intro h
    have := congrArg (fun s : String => s.data.take 25) h
    simp only [h1, h2] at this
    exact absurd this (by decide)

/-- The inserts of an aggregate, each with its description, statement and
parameters. -/
theorem mem_batches (block : ParsedBlock) (b : String × String × List Value)
    (hb : b ∈ batches block) :
    b = ("error inserting block", blockInsertSQL, blockValues block.Block) ∨
    (1 ≤ block.Transactions.length ∧
      b = ("error batch inserting transactions",
        "INSERT INTO transactions (" ++ String.intercalate ", " transactionColumns
          ++ ") VALUES " ++ valuesPart block.Transactions.length transactionColumns.length,
        transactionValues block.Transactions)) ∨
    (1 ≤ block.TransactionSignatures.length ∧
      b = ("error batch inserting transaction signatures",
        "INSERT INTO transactions_signatures (" ++ String.intercalate ", " signatureColumns
          ++ ") VALUES "
          ++ valuesPart block.TransactionSignatures.length signatureColumns.length,
        signatureValues block.TransactionSignatures)) := by
  unfold batches at hb
  simp only [List.mem_append, List.mem_singleton] at hb
  rcases hb with (hb | hb) | hb
  · exact Or.inl hb
  · split at hb
    · rename_i hpos
      simp only [List.mem_singleton] at hb
      rw [generate_transactions_ok] at hb
      exact Or.inr (Or.inl ⟨hpos, hb⟩)
    · cases hb
  · split at hb
    · rename_i hpos
      simp only [List.mem_singleton] at hb
      rw [generate_signatures_ok] at hb
      exact Or.inr (Or.inr ⟨hpos, hb⟩)
    · cases hb

/-- C20 (counterexample): when `Begin` fails with the error `boom`, the error
`SaveToDatabase` returns is not that error but a new one, of message
`error starting transaction: boom`. -/
theorem SaveToDatabase_begin_error_wrapped :
    Storage.beginFails.begin = some "boom" ∧
    (SaveToDatabase Storage.beginFails {}).2
      = Except.ok (some "error starting transaction: boom") ∧
    (SaveToDatabase Storage.beginFails {}).2 ≠ Except.ok (some "boom") :=
  ⟨rfl, rfl, fun h => Except.noConfusion h (fun h1 => Option.noConfusion h1
    (fun h2 => absurd h2 (by decide)))⟩

/-- C20 (amended): whenever `Begin`, an `Exec` or `Commit` fails inside
`SaveToDatabase` with the storage error `e`, the error returned is a new error:
its message is the description of the failed step, a colon and a space, and the
message of `e`; it is never `e` itself.  The description is
`error starting transaction` for `Begin`, `error inserting block` for the `Exec`
of the blocks insert, `error batch inserting transactions` for the `Exec` of
the transactions batch, `error batch inserting transaction signatures` for the
`Exec` of the signatures batch and `error committing transaction` for `Commit`.
The failed call is not retried: every call before it succeeded, and the only
call after it is the deferred `Rollback`. -/
theorem SaveToDatabase_error_description (db : Storage) (block : ParsedBlock) :
    ∀ f ∈ (SaveToDatabase db block).1, ∀ e, f.error = some e →
      (SaveToDatabase db block).2 ≠ Except.ok (some e) ∧
      ((f = Event.begin (some e) ∧
          (SaveToDatabase db block).2 = Except.ok (some ("error starting transaction: " ++ e))) ∨
       (∃ sql args, f = Event.exec sql args (some e) ∧
          ((sql = blockInsertSQL ∧ args = blockValues block.Block ∧
              (SaveToDatabase db block).2 = Except.ok (some ("error inserting block: " ++ e))) ∨
           (1 ≤ block.Transactions.length ∧
              generateBatchInsertSQL "transactions" transactionColumns
                (block.Transactions.length : Int) = Except.ok sql ∧
              args = transactionValues block.Transactions ∧
              (SaveToDatabase db block).2
                = Except.ok (some ("error batch inserting transactions: " ++ e))) ∨
           (1 ≤ block.TransactionSignatures.length ∧
              generateBatchInsertSQL "transactions_signatures" signatureColumns
                (block.TransactionSignatures.length : Int) = Except.ok sql ∧
              args = signatureValues block.TransactionSignatures ∧
              (SaveToDatabase db block).2
                = Except.ok (some ("error batch inserting transaction signatures: " ++ e)))) ∧
          (sql = blockInsertSQL →
            (SaveToDatabase db block).2 = Except.ok (some ("error inserting block: " ++ e))) ∧
          (generateBatchInsertSQL "transactions" transactionColumns
              (block.Transactions.length : Int) = Except.ok sql →
            (SaveToDatabase db block).2
              = Except.ok (some ("error batch inserting transactions: " ++ e))) ∧
          (generateBatchInsertSQL "transactions_signatures" signatureColumns
              (block.TransactionSignatures.length : Int) = Except.ok sql →
            (SaveToDatabase db block).2
              = Except.ok (some ("error batch inserting transaction signatures: " ++ e)))) ∨
       (f = Event.commit (some e) ∧
          (SaveToDatabase db block).2
            = Except.ok (some ("error committing transaction: " ++ e)))) ∧
      (∃ before, ((SaveToDatabase db block).1 = before ++ [f]
            ∨ (SaveToDatabase db block).1 = before ++ [f, Event.rollback]) ∧
          ∀ g ∈ before, g.error = none) := by
  intro f hf e he
  have hne : ∀ pre : String, (Except.ok (some (errorf pre e)) : Except Panic (Option GoError))
      ≠ Except.ok (some e) := by
    intro pre h
    injection h with h
    injection h with h
    exact errorf_ne pre e h
  have hdist := statements_distinct block.Transactions.length block.TransactionSignatures.length
  have hgt := generate_transactions_ok block.Transactions.length
  have hgs := generate_signatures_ok block.TransactionSignatures.length
  cases hb : db.begin with
  | some err =>
    rw [SaveToDatabase_begin_failed db block err hb] at hf ⊢
    simp only [List.mem_singleton] at hf
    subst hf
    simp only [Event.error, Option.some.injEq] at he
    subst he
    refine ⟨hne _, Or.inl ⟨rfl, ?_⟩, ⟨[], Or.inl rfl, fun g hg => by cases hg⟩⟩
    rw [errorf_eq]
    rfl
  | none =>
    rcases SaveToDatabase_trace db block hb with ⟨h1, h2⟩ | ⟨k, b, err, hk, h1, h2⟩ |
      ⟨err, h1, h2⟩
    · exfalso
      rw [h2] at hf
      simp only [List.mem_append, List.mem_singleton] at hf
      rcases hf with ((hf | hf) | hf) | hf
      · subst hf; cases he
      · rw [(execs_error _ f hf).1] at he; cases he
      · subst hf; cases he
      · subst hf; cases he
    · have hbefore : ∀ g ∈ [Event.begin none]
          ++ ((batches block).take k).map (fun b => Event.exec b.2.1 b.2.2 none),
          g.error = none := by
        intro g hg
        simp only [List.mem_append, List.mem_singleton] at hg
        rcases hg with hg | hg
        · subst hg; rfl
        · exact (execs_error _ g hg).1
      have hfeq : f = Event.exec b.2.1 b.2.2 (some err) := by
        rw [h2] at hf
        simp only [List.mem_append, List.mem_singleton] at hf
        rcases hf with (hf | hf) | hf
        · have := hbefore f (by simpa using hf)
          rw [this] at he; cases he
        · exact hf
        · subst hf; cases he
      subst hfeq
      simp only [Event.error, Option.some.injEq] at he
      subst he
      refine ⟨by rw [h1]; exact hne _, Or.inr (Or.inl ⟨b.2.1, b.2.2, rfl, ?_⟩),
        ⟨_, Or.inr (by rw [h2]; simp), hbefore⟩⟩
      rw [h1]
      rcases mem_batches block b (List.getElem?_mem hk) with hbk | ⟨hpos, hbk⟩ | ⟨hpos, hbk⟩
      · subst hbk
        have hd : (Except.ok (some (errorf "error inserting block" err)) :
            Except Panic (Option GoError))
            = Except.ok (some ("error inserting block: " ++ err)) := by
          rw [errorf_eq]; rfl
        refine ⟨Or.inl ⟨rfl, rfl, hd⟩, fun _ => hd, ?_, ?_⟩
        · intro hg
          rw [hgt] at hg
          injection hg with hg
          exact absurd hg hdist.1
        · intro hg
          rw [hgs] at hg
          injection hg with hg
          exact absurd hg hdist.2.1
      · subst hbk
        have hd : (Except.ok (some (errorf "error batch inserting transactions" err)) :
            Except Panic (Option GoError))
            = Except.ok (some ("error batch inserting transactions: " ++ err)) := by
          rw [errorf_eq]; rfl
        refine ⟨Or.inr (Or.inl ⟨hpos, hgt, rfl, hd⟩), ?_, fun _ => hd, ?_⟩
        · intro hg
          exact absurd hg hdist.1
        · intro hg
          rw [hgs] at hg
          injection hg with hg
          exact absurd hg.symm hdist.2.2
      · subst hbk
        have hd : (Except.ok (some (errorf "error batch inserting transaction signatures" err)) :
            Except Panic (Option GoError))
            = Except.ok (some ("error batch inserting transaction signatures: " ++ err)) := by
          rw [errorf_eq]; rfl
        refine ⟨Or.inr (Or.inr ⟨hpos, hgs, rfl, hd⟩), ?_, ?_, fun _ => hd⟩
        · intro hg
          exact absurd hg hdist.2.1
        · intro hg
          rw [hgt] at hg
          injection hg with hg
          exact absurd hg hdist.2.2
    · have hbefore : ∀ g ∈ [Event.begin none]
          ++ (batches block).map (fun b => Event.exec b.2.1 b.2.2 none),
          g.error = none := by
        intro g hg
        simp only [List.mem_append, List.mem_singleton] at hg
        rcases hg with hg | hg
        · subst hg; rfl
        · exact (execs_error _ g hg).1
      have hfeq : f = Event.commit (some err) := by
        rw [h2] at hf
        simp only [List.mem_append, List.mem_singleton] at hf
        rcases hf with (hf | hf) | hf
        · have := hbefore f (by simpa using hf)
          rw [this] at he; cases he
        · exact hf
        · subst hf; cases he
      subst hfeq
      simp only [Event.error, Option.some.injEq] at he
      subst he
      refine ⟨by rw [h1]; exact hne _, Or.inr (Or.inr ⟨rfl, ?_⟩),
        ⟨_, Or.inr (by rw [h2]; simp), hbefore⟩⟩
      rw [h1, errorf_eq]
      rfl

set_option maxRecDepth 100000 in
/-- C20 (witness): on the aggregate of the sample block, a failing first `Exec` (the
blocks insert) is reported as `error inserting block: boom`, a failing second
`Exec` (the transactions batch) as `error batch inserting transactions: boom`, a
failing third `Exec` (the signatures batch) as
`error batch inserting transaction signatures: boom`, and a failing `Commit` as
`error committing transaction: boom`; none of them is `boom` itself. -/
theorem SaveToDatabase_error_description_witness :
    (SaveToDatabase Storage.firstExecFails
        (aggregateOf 7 MapOrder.insertion voteFirstBlock)).1.map Event.error
      = [none, some "boom", none] ∧
    (SaveToDatabase Storage.firstExecFails (aggregateOf 7 MapOrder.insertion voteFirstBlock)).2
      = Except.ok (some ("error inserting block: " ++ "boom")) ∧
    (SaveToDatabase Storage.secondExecFails
        (aggregateOf 7 MapOrder.insertion voteFirstBlock)).1.map Event.error
      = [none, none, some "boom", none] ∧
    (SaveToDatabase Storage.secondExecFails (aggregateOf 7 MapOrder.insertion voteFirstBlock)).2
      = Except.ok (some ("error batch inserting transactions: " ++ "boom")) ∧
    (SaveToDatabase Storage.thirdExecFails
        (aggregateOf 7 MapOrder.insertion voteFirstBlock)).1.map Event.error
      = [none, none, none, some "boom", none] ∧
    (SaveToDatabase Storage.thirdExecFails (aggregateOf 7 MapOrder.insertion voteFirstBlock)).2
      = Except.ok (some ("error batch inserting transaction signatures: " ++ "boom")) ∧
    (SaveToDatabase Storage.commitFails {}).1
      = [Event.begin none, Event.exec blockInsertSQL (blockValues {}) none,
         Event.commit (some "boom"), Event.rollback] ∧
    (SaveToDatabase Storage.commitFails {}).2 ≠ Except.ok (some "boom") ∧
    (SaveToDatabase Storage.commitFails {}).2
      = Except.ok (some "error committing transaction: boom") ∧
    [(SaveToDatabase Storage.firstExecFails
        (aggregateOf 7 MapOrder.insertion voteFirstBlock)).2,
     (SaveToDatabase Storage.secondExecFails
        (aggregateOf 7 MapOrder.insertion voteFirstBlock)).2,
     (SaveToDatabase Storage.thirdExecFails
        (aggregateOf 7 MapOrder.insertion voteFirstBlock)).2]
      = [Except.ok (some "error inserting block: boom"),
         Except.ok (some "error batch inserting transactions: boom"),
         Except.ok (some "error batch inserting transaction signatures: boom")] := by
  have h1 := SaveToDatabase_error_description Storage.firstExecFails
    (aggregateOf 7 MapOrder.insertion voteFirstBlock)
    (Event.exec blockInsertSQL
      (blockValues (aggregateOf 7 MapOrder.insertion voteFirstBlock).Block) (some "boom"))
    (List.getElem?_mem (show (SaveToDatabase Storage.firstExecFails
      (aggregateOf 7 MapOrder.insertion voteFirstBlock)).1[1]? = some _ from rfl)) "boom" rfl
  have h2 := SaveToDatabase_error_description Storage.secondExecFails
    (aggregateOf 7 MapOrder.insertion voteFirstBlock)
    (Event.exec (statementOf (generateBatchInsertSQL "transactions" transactionColumns 1))
      (transactionValues (aggregateOf 7 MapOrder.insertion voteFirstBlock).Transactions)
      (some "boom"))
    (List.getElem?_mem (show (SaveToDatabase Storage.secondExecFails
      (aggregateOf 7 MapOrder.insertion voteFirstBlock)).1[2]? = some _ from rfl)) "boom" rfl
  have h3 := SaveToDatabase_error_description Storage.thirdExecFails
    (aggregateOf 7 MapOrder.insertion voteFirstBlock)
    (Event.exec
      (statementOf (generateBatchInsertSQL "transactions_signatures" signatureColumns 2))
      (signatureValues (aggregateOf 7 MapOrder.insertion voteFirstBlock).TransactionSignatures)
      (some "boom"))
    (List.getElem?_mem (show (SaveToDatabase Storage.thirdExecFails
      (aggregateOf 7 MapOrder.insertion voteFirstBlock)).1[3]? = some _ from rfl)) "boom" rfl
  have h4 := SaveToDatabase_error_description Storage.commitFails {}
    (Event.commit (some "boom")) (by decide) "boom" rfl
  refine ⟨rfl, ?_, rfl, ?_, rfl, ?_, rfl, h4.1, rfl, rfl⟩
  · rcases h1.2.1 with ⟨hf, _⟩ | ⟨sql, args, hf, _, himp, _, _⟩ | ⟨hf, _⟩
    · cases hf
    · injection hf with hsql _ _
      exact himp hsql.symm
    · cases hf
  · rcases h2.2.1 with ⟨hf, _⟩ | ⟨sql, args, hf, _, _, himp, _⟩ | ⟨hf, _⟩
    · cases hf
    · injection hf with hsql _ _
      exact himp (by rw [← hsql]; rfl)
    · cases hf
  · rcases h3.2.1 with ⟨hf, _⟩ | ⟨sql, args, hf, _, _, _, himp⟩ | ⟨hf, _⟩
    · cases hf
    · injection hf with hsql _ _
      exact himp (by rw [← hsql]; rfl)
    · cases hf

/-- The parameter at a position of a flattened batch whose rows all give `c`
parameters. -/
theorem getElem?_flatMap_uniform {α β : Type} (f : α → List β) (c : Nat)
    (hlen : ∀ a, (f a).length = c) :
    ∀ (rows : List α) (i k : Nat) (row : α), rows[i]? = some row → k < c →
      (rows.flatMap f)[i * c + k]? = (f row)[k]? := by
  intro rows
  induction rows with
  | nil => intro i k row h; simp at h
  | cons a rest ih =>
    intro i k row h hk
    rw [List.flatMap_cons]
    cases i with
    | zero =>
      simp only [List.getElem?_cons_zero, Option.some.injEq] at h
      subst h
      rw [Nat.zero_mul, Nat.zero_add, List.getElem?_append_left (by rw [hlen]; exact hk)]
    | succ i =>
      simp only [List.getElem?_cons_succ] at h
      have hge : (f a).length ≤ (i + 1) * c + k := by
        rw [hlen, Nat.succ_mul]; omega
      rw [List.getElem?_append_right hge, hlen]
      have : (i + 1) * c + k - c = i * c + k := by
        rw [Nat.succ_mul]; omega
      rw [this]
      exact ih i k row h hk

theorem length_flatMap_uniform {α β : Type} (f : α → List β) (c : Nat)
    (hlen : ∀ a, (f a).length = c) (rows : List α) :
    (rows.flatMap f).length = rows.length * c := by
  induction rows with
  | nil => simp
  | cons a rest ih =>
    rw [List.flatMap_cons, List.length_append, ih, hlen, List.length_cons, Nat.succ_mul]
    omega

theorem transactionRowValues_fields (row : Transaction) :
    transactionColumns.map (fun c => Transaction.field c row)
      = (transactionRowValues row).map some := rfl

theorem signatureRowValues_fields (row : TransactionSignature) :
    signatureColumns.map (fun c => TransactionSignature.field c row)
      = (signatureRowValues row).map some := rfl

set_option maxRecDepth 100000 in
theorem placeholderCount_transactions_head :
    placeholderCount ("INSERT INTO transactions (" ++ String.intercalate ", " transactionColumns
      ++ ") VALUES ") = 0 := by decide

set_option maxRecDepth 100000 in
theorem placeholderCount_signatures_head :
    placeholderCount ("INSERT INTO transactions_signatures ("
      ++ String.intercalate ", " signatureColumns ++ ") VALUES ") = 0 := by decide

/-- The inserts `SaveToDatabase` attempts are those of the aggregate. -/
theorem exec_mem_batches (db : Storage) (block : ParsedBlock) (sql : String)
    (args : List Value) (e : Option GoError)
    (h : Event.exec sql args e ∈ (SaveToDatabase db block).1) :
    ∃ b ∈ batches block, b.2.1 = sql ∧ b.2.2 = args := by
  have hexecs : ∀ bs : List (String × String × List Value),
      Event.exec sql args e ∈ bs.map (fun b => Event.exec b.2.1 b.2.2 none) →
      ∃ b ∈ bs, b.2.1 = sql ∧ b.2.2 = args := by
    intro bs hmem
    obtain ⟨b, hb, hbe⟩ := List.mem_map.mp hmem
    injection hbe with h1 h2 _
    exact ⟨b, hb, h1, h2⟩
  cases hb : db.begin with
  | some err =>
    rw [SaveToDatabase_begin_failed db block err hb] at h
    simp at h
  | none =>
    rcases SaveToDatabase_trace db block hb with ⟨_, h2⟩ | ⟨k, b, err, hk, _, h2⟩ | ⟨err, _, h2⟩
    · rw [h2] at h
      simp only [List.mem_append, List.mem_singleton] at h
      rcases h with ((h | h) | h) | h
      · cases h
      · exact hexecs _ h
      · cases h
      · cases h
    · rw [h2] at h
      simp only [List.mem_append, List.mem_singleton] at h
      rcases h with ((h | h) | h) | h
      · cases h
      · obtain ⟨b1, hb1, h3⟩ := hexecs _ h
        exact ⟨b1, List.mem_of_mem_take hb1, h3⟩
      · injection h with h3 h4 _
        exact ⟨b, List.getElem?_mem hk, h3.symm, h4.symm⟩
      · cases h
    · rw [h2] at h
      simp only [List.mem_append, List.mem_singleton] at h
      rcases h with ((h | h) | h) | h
      · cases h
      · exact hexecs _ h
      · cases h
      · cases h

/-- The flattened parameters of a transactions batch: rows times columns parameters,
as many as the statement has placeholders, the parameter at position
`i * columns + k` being the field of row `i` whose `db` tag is column `k`. -/
theorem transactionValues_layout (rows : List Transaction) :
    (transactionValues rows).length = rows.length * transactionColumns.length ∧
    (∃ sql, generateBatchInsertSQL "transactions" transactionColumns (rows.length : Int)
        = Except.ok sql ∧
      placeholderCount sql = (transactionValues rows).length) ∧
    ∀ (i k : Nat) (row : Transaction) (col : String), rows[i]? = some row →
      transactionColumns[k]? = some col →
      ∃ v, Transaction.field col row = some v ∧
        (transactionValues rows)[i * transactionColumns.length + k]? = some v := by
  have hlen : ∀ a : Transaction, (transactionRowValues a).length = transactionColumns.length :=
    fun _ => rfl
  have htotal := length_flatMap_uniform transactionRowValues _ hlen rows
  refine ⟨htotal, ⟨_, generate_transactions_ok rows.length, ?_⟩, ?_⟩
  · rw [placeholderCount_append, placeholderCount_transactions_head,
      placeholderCount_valuesPart, Nat.zero_add]
    exact htotal.symm
  · intro i k row col hrow hcol
    have hk : k < transactionColumns.length := (List.getElem?_eq_some_iff.mp hcol).1
    have hidx := getElem?_flatMap_uniform transactionRowValues _ hlen rows i k row hrow hk
    have hfield := congrArg (fun l => l[k]?) (transactionRowValues_fields row)
    simp only [List.getElem?_map, hcol, Option.map_some'] at hfield
    cases hv : (transactionRowValues row)[k]? with
    | none => rw [hv] at hfield; cases hfield
    | some v =>
      rw [hv] at hfield
      exact ⟨v, Option.some.inj hfield, by unfold transactionValues; rw [hidx, hv]⟩

/-- The flattened parameters of a signatures batch: rows times columns parameters, as
many as the statement has placeholders, the parameter at position
`i * columns + k` being the field of row `i` whose `db` tag is column `k`. -/
theorem signatureValues_layout (rows : List TransactionSignature) :
    (signatureValues rows).length = rows.length * signatureColumns.length ∧
    (∃ sql, generateBatchInsertSQL "transactions_signatures" signatureColumns
        (rows.length : Int) = Except.ok sql ∧
      placeholderCount sql = (signatureValues rows).length) ∧
    ∀ (i k : Nat) (row : TransactionSignature) (col : String), rows[i]? = some row →
      signatureColumns[k]? = some col →
      ∃ v, TransactionSignature.field col row = some v ∧
        (signatureValues rows)[i * signatureColumns.length + k]? = some v := by
  have hlen : ∀ a : TransactionSignature,
      (signatureRowValues a).length = signatureColumns.length := fun _ => rfl
  have htotal := length_flatMap_uniform signatureRowValues _ hlen rows
  refine ⟨htotal, ⟨_, generate_signatures_ok rows.length, ?_⟩, ?_⟩
  · rw [placeholderCount_append, placeholderCount_signatures_head,
      placeholderCount_valuesPart, Nat.zero_add]
    exact htotal.symm
  · intro i k row col hrow hcol
    have hk : k < signatureColumns.length := (List.getElem?_eq_some_iff.mp hcol).1
    have hidx := getElem?_flatMap_uniform signatureRowValues _ hlen rows i k row hrow hk
    have hfield := congrArg (fun l => l[k]?) (signatureRowValues_fields row)
    simp only [List.getElem?_map, hcol, Option.map_some'] at hfield
    cases hv : (signatureRowValues row)[k]? with
    | none => rw [hv] at hfield; cases hfield
    | some v =>
      rw [hv] at hfield
      exact ⟨v, Option.some.inj hfield, by unfold signatureValues; rw [hidx, hv]⟩

/-- The calls of a run of inserts all of which succeed: every insert, in order, then
the commit. -/
theorem runBatches_of_exec_ok (db : Storage)
    (he : ∀ ev sql args, db.exec ev sql args = none) :
    ∀ (bs : List (String × String × List Value)) (events : List Event),
      (runBatches db events bs).1
        = events ++ bs.map (fun b => Event.exec b.2.1 b.2.2 none)
            ++ [Event.commit (db.commit (events ++ bs.map (fun b => Event.exec b.2.1 b.2.2 none)))] := by
  intro bs
  induction bs with
  | nil =>
    intro events
    simp only [runBatches, List.map_nil, List.append_nil]
    cases db.commit events <;> rfl
  | cons b rest ih =>
    intro events
    obtain ⟨pre, sql, args⟩ := b
    simp only [runBatches, he, ih]
    simp

/-- C17: in `SaveToDatabase`, when `Begin` and every `Exec` succeed, the transactions
batch of an aggregate with at least one transaction row and the signatures batch of
an aggregate with at least one signature row are executed, each with the statement
`generateBatchInsertSQL` gives for its columns and row count and with the
flattened parameters of its rows.  Whatever the storage does, every `Exec` of
`SaveToDatabase` is the blocks insert or one of these two batches.  The flattened
list of a batch has rows times columns parameters, as many as the statement has
placeholders, and the parameter at position `i * columns + k` is the field of
row `i` whose `db` tag is column `k`. -/
theorem SaveToDatabase_parameters (db : Storage) (block : ParsedBlock) :
    (db.begin = none → (∀ ev sql args, db.exec ev sql args = none) →
      (1 ≤ block.Transactions.length →
        ∃ sql, generateBatchInsertSQL "transactions" transactionColumns
            (block.Transactions.length : Int) = Except.ok sql ∧
          Event.exec sql (transactionValues block.Transactions) none
            ∈ (SaveToDatabase db block).1 ∧
          (transactionValues block.Transactions).length
            = block.Transactions.length * transactionColumns.length ∧
          placeholderCount sql = (transactionValues block.Transactions).length ∧
          ∀ (i k : Nat) (row : Transaction) (col : String),
            block.Transactions[i]? = some row → transactionColumns[k]? = some col →
            ∃ v, Transaction.field col row = some v ∧
              (transactionValues block.Transactions)[i * transactionColumns.length + k]?
                = some v) ∧
      (1 ≤ block.TransactionSignatures.length →
        ∃ sql, generateBatchInsertSQL "transactions_signatures" signatureColumns
            (block.TransactionSignatures.length : Int) = Except.ok sql ∧
          Event.exec sql (signatureValues block.TransactionSignatures) none
            ∈ (SaveToDatabase db block).1 ∧
          (signatureValues block.TransactionSignatures).length
            = block.TransactionSignatures.length * signatureColumns.length ∧
          placeholderCount sql = (signatureValues block.TransactionSignatures).length ∧
          ∀ (i k : Nat) (row : TransactionSignature) (col : String),
            block.TransactionSignatures[i]? = some row → signatureColumns[k]? = some col →
            ∃ v, TransactionSignature.field col row = some v ∧
              (signatureValues block.TransactionSignatures)[i * signatureColumns.length + k]?
                = some v)) ∧
    (∀ (sql : String) (args : List Value) (e : Option GoError),
      Event.exec sql args e ∈ (SaveToDatabase db block).1 →
      (sql = blockInsertSQL ∧ args = blockValues block.Block) ∨
      (1 ≤ block.Transactions.length ∧
        generateBatchInsertSQL "transactions" transactionColumns
          (block.Transactions.length : Int) = Except.ok sql ∧
        args = transactionValues block.Transactions ∧
        args.length = block.Transactions.length * transactionColumns.length ∧
        placeholderCount sql = args.length ∧
        ∀ (i k : Nat) (row : Transaction) (col : String),
          block.Transactions[i]? = some row → transactionColumns[k]? = some col →
          ∃ v, Transaction.field col row = some v ∧
            args[i * transactionColumns.length + k]? = some v) ∨
      (1 ≤ block.TransactionSignatures.length ∧
        generateBatchInsertSQL "transactions_signatures" signatureColumns
          (block.TransactionSignatures.length : Int) = Except.ok sql ∧
        args = signatureValues block.TransactionSignatures ∧
        args.length = block.TransactionSignatures.length * signatureColumns.length ∧
        placeholderCount sql = args.length ∧
        ∀ (i k : Nat) (row : TransactionSignature) (col : String),
          block.TransactionSignatures[i]? = some row → signatureColumns[k]? = some col →
          ∃ v, TransactionSignature.field col row = some v ∧
            args[i * signatureColumns.length + k]? = some v)) := by
  have hT := transactionValues_layout block.Transactions
  have hS := signatureValues_layout block.TransactionSignatures
  have hgt := generate_transactions_ok block.Transactions.length
  have hgs := generate_signatures_ok block.TransactionSignatures.length
  have hpT : placeholderCount
      ("INSERT INTO transactions (" ++ String.intercalate ", " transactionColumns
        ++ ") VALUES " ++ valuesPart block.Transactions.length transactionColumns.length)
      = (transactionValues block.Transactions).length := by
    rw [placeholderCount_append, placeholderCount_transactions_head,
      placeholderCount_valuesPart, Nat.zero_add]
    exact hT.1.symm
  have hpS : placeholderCount
      ("INSERT INTO transactions_signatures (" ++ String.intercalate ", " signatureColumns
        ++ ") VALUES "
        ++ valuesPart block.TransactionSignatures.length signatureColumns.length)
      = (signatureValues block.TransactionSignatures).length := by
    rw [placeholderCount_append, placeholderCount_signatures_head,
      placeholderCount_valuesPart, Nat.zero_add]
    exact hS.1.symm
  refine ⟨?_, ?_⟩
  · intro hb he
    have htrace : (SaveToDatabase db block).1
        = [Event.begin none] ++ (batches block).map (fun b => Event.exec b.2.1 b.2.2 none)
          ++ [Event.commit (db.commit ([Event.begin none]
              ++ (batches block).map (fun b => Event.exec b.2.1 b.2.2 none)))]
          ++ [Event.rollback] := by
      rw [SaveToDatabase_eq, hb]
      dsimp only
      rw [runBatches_of_exec_ok db he]
    have hmem : ∀ b ∈ batches block,
        Event.exec b.2.1 b.2.2 none ∈ (SaveToDatabase db block).1 := by
      intro b hb1
      rw [htrace]
      apply List.mem_append_left
      apply List.mem_append_left
      apply List.mem_append_right
      exact List.mem_map.mpr ⟨b, hb1, rfl⟩
    refine ⟨?_, ?_⟩
    · intro hpos
      refine ⟨_, hgt, ?_, hT.1, hpT, hT.2.2⟩
      have hb1 : ("error batch inserting transactions",
          statementOf (generateBatchInsertSQL "transactions" transactionColumns
            (block.Transactions.length : Int)),
          transactionValues block.Transactions) ∈ batches block := by
        unfold batches
        rw [if_pos (show _ > 0 from hpos)]
        simp
      have := hmem _ hb1
      simp only [hgt, statementOf] at this
      exact this
    · intro hpos
      refine ⟨_, hgs, ?_, hS.1, hpS, hS.2.2⟩
      have hb1 : ("error batch inserting transaction signatures",
          statementOf (generateBatchInsertSQL "transactions_signatures" signatureColumns
            (block.TransactionSignatures.length : Int)),
          signatureValues block.TransactionSignatures) ∈ batches block := by
        unfold batches
        rw [if_pos (show _ > 0 from hpos)]
        simp
      have := hmem _ hb1
      simp only [hgs, statementOf] at this
      exact this
  · intro sql args e h
    obtain ⟨b, hb, h1, h2⟩ := exec_mem_batches db block sql args e h
    rcases mem_batches block b hb with hbk | ⟨hpos, hbk⟩ | ⟨hpos, hbk⟩
    · subst hbk
      exact Or.inl ⟨h1.symm, h2.symm⟩
    · subst hbk
      dsimp only at h1 h2
      subst h1
      subst h2
      exact Or.inr (Or.inl ⟨hpos, hgt, rfl, hT.1, hpT, hT.2.2⟩)
    · subst hbk
      dsimp only at h1 h2
      subst h1
      subst h2
      exact Or.inr (Or.inr ⟨hpos, hgs, rfl, hS.1, hpS, hS.2.2⟩)

set_option maxRecDepth 100000 in
/-- C17 (witness): on a reliable storage, `SaveToDatabase` on the aggregate of a block
of two transactions with two signatures each executes the transactions batch with
two value groups and 42 parameters and the signatures batch with four value groups
and 20 parameters; the parameter at position `1 * 21 + 1` of the first is the
transaction index of the second transaction row, and the parameter at position
`3 * 5 + 0` of the second is the signature of the fourth signature row. -/
theorem SaveToDatabase_parameters_witness :
    (∃ sql, generateBatchInsertSQL "transactions" transactionColumns 2 = Except.ok sql ∧
      Event.exec sql
          (transactionValues (aggregateOf 7 MapOrder.insertion twoSampleBlock).Transactions) none
        ∈ (SaveToDatabase Storage.reliable (aggregateOf 7 MapOrder.insertion twoSampleBlock)).1 ∧
      (transactionValues (aggregateOf 7 MapOrder.insertion twoSampleBlock).Transactions).length
        = 2 * 21 ∧
      placeholderCount sql = 42 ∧
      ∃ v, Transaction.field "transaction_index" (parseTransactionRow 7 0 100 "hash" 1
            sampleTx sampleMeta) = some v ∧
        (transactionValues (aggregateOf 7 MapOrder.insertion twoSampleBlock).Transactions)[
          1 * 21 + 1]? = some v) ∧
    (transactionValues (aggregateOf 7 MapOrder.insertion twoSampleBlock).Transactions)[
      1 * 21 + 1]? = some (Value.int 1) ∧
    (∃ sql, generateBatchInsertSQL "transactions_signatures" signatureColumns 4
        = Except.ok sql ∧
      Event.exec sql
          (signatureValues
            (aggregateOf 7 MapOrder.insertion twoSampleBlock).TransactionSignatures) none
        ∈ (SaveToDatabase Storage.reliable (aggregateOf 7 MapOrder.insertion twoSampleBlock)).1 ∧
      (signatureValues
          (aggregateOf 7 MapOrder.insertion twoSampleBlock).TransactionSignatures).length
        = 4 * 5 ∧
      placeholderCount sql = 20) ∧
    (signatureValues (aggregateOf 7 MapOrder.insertion twoSampleBlock).TransactionSignatures)[
      3 * 5 + 0]? = some (Value.string "4") ∧
    (executedStatements (SaveToDatabase Storage.reliable
        (aggregateOf 7 MapOrder.insertion twoSampleBlock)).1).map (fun s => (s.1, s.2.length))
      = [(blockInsertSQL, 10),
         ("INSERT INTO transactions (slot, transaction_index, block_time, block_hash, fee, compute_units_consumed, compute_units_price, err, err_message, err_stack, err_instruction_index, err_custom_code, err_custom_message, successful, version, recent_blockhash, num_readonly_signed_accounts, num_readonly_unsigned_accounts, num_required_signatures, updated_at, created_at) VALUES (?,?,?,?,?,?,?,?,?,?,?,?,?,?,?,?,?,?,?,?,?),(?,?,?,?,?,?,?,?,?,?,?,?,?,?,?,?,?,?,?,?,?)", 42),
         ("INSERT INTO transactions_signatures (signature, slot, transaction_index, updated_at, created_at) VALUES (?,?,?,?,?),(?,?,?,?,?),(?,?,?,?,?),(?,?,?,?,?)", 20)] := by
  have h := (SaveToDatabase_parameters Storage.reliable
    (aggregateOf 7 MapOrder.insertion twoSampleBlock)).1 rfl (fun _ _ _ => rfl)
  obtain ⟨sqlT, hgT, hmT, hlT, hpT, hfT⟩ := h.1 (by decide)
  obtain ⟨sqlS, hgS, hmS, hlS, hpS, _⟩ := h.2 (by decide)
  refine ⟨⟨sqlT, hgT, hmT, hlT, ?_, hfT 1 1 _ "transaction_index" rfl rfl⟩, rfl,
    ⟨sqlS, hgS, hmS, hlS, ?_⟩, rfl, rfl⟩
  · exact hpT.trans hlT
  · exact hpS.trans hlS

/-- The base-58 digits of a number below `58 ^ fuel`, most significant first. -/
theorem digitsAux_eq : ∀ (fuel n : Nat) (acc : List Nat), n < 58 ^ fuel →
    base58.digitsAux fuel n acc = (Nat.digits 58 n).reverse ++ acc := by
  intro fuel
  induction fuel with
  | zero =>
    intro n acc h
    have h0 : n = 0 := by simpa using h
    subst h0
    simp [base58.digitsAux]
  | succ fuel ih =>
    intro n acc h
    unfold base58.digitsAux
    by_cases h0 : n = 0
    · subst h0
      simp
    · rw [if_neg h0, ih (n / 58) (n % 58 :: acc)
        (Nat.div_lt_of_lt_mul (by rw [pow_succ] at h; omega)),
        Nat.digits_def' (by decide) (Nat.pos_of_ne_zero h0)]
      simp

/-- The bytes of a number below `256 ^ fuel`, most significant first. -/
theorem bytesAux_eq : ∀ (fuel n : Nat) (acc : List Byte), n < 256 ^ fuel →
    base58.bytesAux fuel n acc
      = (Nat.digits 256 n).reverse.map (fun d => (Fin.ofNat d : Byte)) ++ acc := by
  intro fuel
  induction fuel with
  | zero =>
    intro n acc h
    have h0 : n = 0 := by simpa using h
    subst h0
    simp [base58.bytesAux]
  | succ fuel ih =>
    intro n acc h
    unfold base58.bytesAux
    by_cases h0 : n = 0
    · subst h0
      simp
    · rw [if_neg h0, ih (n / 256) (Fin.ofNat (n % 256) :: acc)
        (Nat.div_lt_of_lt_mul (by rw [pow_succ] at h; omega)),
        Nat.digits_def' (by decide) (Nat.pos_of_ne_zero h0)]
      simp

/-- The number a list of digits denotes, read most significant first. -/
theorem foldl_base (B : Nat) : ∀ (ds : List Nat) (acc : Nat),
    ds.foldl (fun a d => a * B + d) acc = acc * B ^ ds.length + Nat.ofDigits B ds.reverse := by
  intro ds
  induction ds with
  | nil => intro acc; simp [Nat.ofDigits]
  | cons d ds ih =>
    intro acc
    rw [List.foldl_cons, ih, List.reverse_cons, Nat.ofDigits_append, Nat.ofDigits_singleton,
      List.length_reverse, List.length_cons, pow_succ]
    ring

theorem digitsToNat_eq (ds : List Nat) :
    base58.digitsToNat ds = Nat.ofDigits 58 ds.reverse := by
  unfold base58.digitsToNat
  rw [foldl_base 58 ds 0]
  simp

theorem bytesToNat_eq (b : List Byte) :
    base58.bytesToNat b = Nat.ofDigits 256 (b.map (fun x => x.val)).reverse := by
  unfold base58.bytesToNat
  have h : b.foldl (fun acc x => acc * 256 + x.val) 0
      = (b.map (fun x => x.val)).foldl (fun a d => a * 256 + d) 0 := by
    rw [List.foldl_map]
  rw [h, foldl_base 256 _ 0]
  simp

/-- The number a byte string denotes is below `256` to the number of bytes. -/
theorem bytesToNat_lt (b : List Byte) : base58.bytesToNat b < 256 ^ b.length := by
  rw [bytesToNat_eq]
  have h := Nat.ofDigits_lt_base_pow_length (b := 256) (l := (b.map (fun x => x.val)).reverse)
    (by decide) (by
      intro x hx
      rw [List.mem_reverse, List.mem_map] at hx
      obtain ⟨y, _, rfl⟩ := hx
      exact y.isLt)
  simpa using h

/-- Leading zero bytes do not change the number a byte string denotes. -/
theorem bytesToNat_zeros (z : Nat) (b : List Byte) :
    base58.bytesToNat (List.replicate z (0 : Byte) ++ b) = base58.bytesToNat b := by
  induction z with
  | zero => rfl
  | succ z ih =>
    rw [List.replicate_succ, List.cons_append]
    unfold base58.bytesToNat at ih ⊢
    rw [List.foldl_cons]
    simpa using ih

/-- Leading zero digits do not change the number a digit list denotes. -/
theorem digitsToNat_zeros (z : Nat) (ds : List Nat) :
    base58.digitsToNat (List.replicate z 0 ++ ds) = base58.digitsToNat ds := by
  induction z with
  | zero => rfl
  | succ z ih =>
    rw [List.replicate_succ, List.cons_append]
    unfold base58.digitsToNat at ih ⊢
    rw [List.foldl_cons]
    simpa using ih

theorem alphabet_eq : base58.alphabet
    = '1' :: "23456789ABCDEFGHJKLMNPQRSTUVWXYZabcdefghijkmnopqrstuvwxyz".toList := rfl

theorem alphabet_length : base58.alphabet.length = 58 := rfl

/-- The digit of a character of the alphabet is below 58. -/
theorem digitOf_lt (c : Char) (h : c ∈ base58.alphabet) : base58.digitOf c < 58 := by
  have := List.indexOf_lt_length.mpr h
  rw [alphabet_length] at this
  exact this

/-- The character of the digit of a character of the alphabet is that character. -/
theorem digitChar_digitOf (c : Char) (h : c ∈ base58.alphabet) :
    base58.digitChar (base58.digitOf c) = c := by
  unfold base58.digitChar base58.digitOf
  have hlt := List.indexOf_lt_length.mpr h
  rw [List.getD_eq_getElem _ _ hlt]
  exact List.getElem_indexOf hlt

/-- Only the character `1` has the digit 0. -/
theorem digitOf_eq_zero (c : Char) : base58.digitOf c = 0 ↔ c = '1' := by
  unfold base58.digitOf
  rw [alphabet_eq, List.indexOf_cons]
  by_cases h : c = '1'
  · subst h; simp
  · have h1 : ('1' == c) = false := by
      rw [beq_eq_false_iff_ne]
      exact fun h2 => h h2.symm
    simp [h1, h]

/-- The leading elements a predicate holds for, in front of a list that starts
with an element it does not hold for. -/
theorem takeWhile_replicate_append {α : Type} (p : α → Bool) (a : α) (z : Nat) (l : List α)
    (ha : p a = true) (hl : l.takeWhile p = []) :
    (List.replicate z a ++ l).takeWhile p = List.replicate z a := by
  induction z with
  | zero => simpa using hl
  | succ z ih => rw [List.replicate_succ, List.cons_append, List.takeWhile_cons, ha, if_pos rfl, ih]

/-- The bytes of a number start with a byte other than zero. -/
theorem takeWhile_zero_bytes (n : Nat) :
    ((Nat.digits 256 n).reverse.map (fun d => (Fin.ofNat d : Byte))).takeWhile
      (fun x => decide (x = 0)) = [] := by
  by_cases h0 : n = 0
  · subst h0
    simp
  · have hne : Nat.digits 256 n ≠ [] := Nat.digits_ne_nil_iff_ne_zero.mpr h0
    have hlast := Nat.getLast_digit_ne_zero 256 h0
    have hlt : (Nat.digits 256 n).getLast hne < 256 :=
      Nat.digits_lt_base (by decide) (List.getLast_mem hne)
    rw [← List.dropLast_append_getLast hne, List.reverse_append, List.reverse_singleton,
      List.singleton_append, List.map_cons, List.takeWhile_cons]
    have hbyte : (Fin.ofNat ((Nat.digits 256 n).getLast hne) : Byte) ≠ 0 := by
      intro heq
      have hval := congrArg Fin.val heq
      simp only [Fin.ofNat, Fin.val_zero] at hval
      rw [Nat.mod_eq_of_lt hlt] at hval
      exact hlast hval
    simp [hbyte]

/-- The bytes of a number denote that number. -/
theorem bytesToNat_bytes (n : Nat) :
    base58.bytesToNat ((Nat.digits 256 n).reverse.map (fun d => (Fin.ofNat d : Byte))) = n := by
  rw [bytesToNat_eq, List.map_map]
  have h : (Nat.digits 256 n).reverse.map
      ((fun x : Byte => x.val) ∘ fun d => (Fin.ofNat d : Byte)) = (Nat.digits 256 n).reverse := by
    conv_rhs => rw [← List.map_id (Nat.digits 256 n).reverse]
    apply List.map_congr_left
    intro d hd
    have hlt : d < 256 := Nat.digits_lt_base (by decide) (List.mem_reverse.mp hd)
    simp only [Function.comp, Fin.ofNat, id]
    exact Nat.mod_eq_of_lt hlt
  rw [h, List.reverse_reverse, Nat.ofDigits_digits]

/-- The codec on the strings of the alphabet: `Decode` returns, and `Encode` gives the
string back; the bytes returned start with one zero byte per leading `1`. -/
theorem Decode_Encode (s : String) (h : ∀ c ∈ s.toList, c ∈ base58.alphabet) :
    ∃ b, base58.Decode s = Except.ok b ∧ base58.Encode b = s ∧
      (b.takeWhile (fun x => decide (x = 0))).length
        = (s.toList.takeWhile (fun c => decide (c = '1'))).length := by
  obtain ⟨cs⟩ := s
  simp only [String.toList] at h
  have hall : cs.all (fun c => decide (c ∈ base58.alphabet)) = true := by
    rw [List.all_eq_true]
    intro c hc
    exact decide_eq_true (h c hc)
  have hcs := List.takeWhile_append_dropWhile (fun c => decide (c = '1')) cs
  have hL : cs.takeWhile (fun c => decide (c = '1'))
      = List.replicate (cs.takeWhile (fun c => decide (c = '1'))).length '1' := by
    rw [List.eq_replicate_iff]
    exact ⟨rfl, fun c hc =>
      of_decide_eq_true (List.mem_takeWhile_imp (p := fun c => decide (c = '1')) hc)⟩
  have hR : ∀ c ∈ cs.dropWhile (fun c => decide (c = '1')), c ∈ base58.alphabet :=
    fun c hc => h c (by rw [← hcs]; exact List.mem_append_right _ hc)
  generalize hz : (cs.takeWhile (fun c => decide (c = '1'))).length = z at hL
  generalize hRdef : cs.dropWhile (fun c => decide (c = '1')) = R at hcs hR
  rw [hL] at hcs
  have hhead : ∀ c R1, R = c :: R1 → c ≠ '1' := by
    intro c R1 hc
    have hw : cs.dropWhile (fun c => decide (c = '1')) ≠ [] := by rw [hRdef, hc]; simp
    have := List.head_dropWhile_not (fun c => decide (c = '1')) cs hw
    simp only [hRdef, hc, List.head_cons, decide_eq_false_iff_not] at this
    exact this
  have hds : cs.map base58.digitOf = List.replicate z 0 ++ R.map base58.digitOf := by
    rw [← hcs, List.map_append, List.map_replicate]
    rfl
  have hn : base58.digitsToNat (cs.map base58.digitOf)
      = Nat.ofDigits 58 (R.map base58.digitOf).reverse := by
    rw [hds, digitsToNat_zeros, digitsToNat_eq]
  have hlt58 : ∀ d ∈ (R.map base58.digitOf).reverse, d < 58 := by
    intro d hd
    rw [List.mem_reverse, List.mem_map] at hd
    obtain ⟨c, hc, rfl⟩ := hd
    exact digitOf_lt c (hR c hc)
  have hdig : Nat.digits 58 (base58.digitsToNat (cs.map base58.digitOf))
      = (R.map base58.digitOf).reverse := by
    rw [hn]
    apply Nat.digits_ofDigits 58 (by decide) _ hlt58
    intro hne
    cases R with
    | nil => exact absurd rfl hne
    | cons c R1 =>
      simp only [List.map_cons, List.reverse_cons, List.getLast_append_singleton]
      intro h0
      exact hhead c R1 rfl ((digitOf_eq_zero c).mp h0)
  have hlen : R.length ≤ cs.length := by
    rw [← hcs, List.length_append]
    omega
  have hfuel : base58.digitsToNat (cs.map base58.digitOf) < 256 ^ cs.length := by
    rw [hn]
    have h1 := Nat.ofDigits_lt_base_pow_length (b := 58) (by decide) hlt58
    rw [List.length_reverse, List.length_map] at h1
    calc Nat.ofDigits 58 (R.map base58.digitOf).reverse < 58 ^ R.length := h1
      _ ≤ 256 ^ R.length := Nat.pow_le_pow_left (by decide) _
      _ ≤ 256 ^ cs.length := Nat.pow_le_pow_right (by decide) hlen
  generalize hndef : base58.digitsToNat (cs.map base58.digitOf) = n at hdig hfuel
  have hdec : base58.Decode (String.mk cs) = Except.ok (List.replicate z (0 : Byte)
      ++ (Nat.digits 256 n).reverse.map (fun d => (Fin.ofNat d : Byte))) := by
    unfold base58.Decode
    simp only [String.toList, String.length]
    rw [if_pos hall, hz, hndef, bytesAux_eq cs.length n [] hfuel, List.append_nil]
  have htake : (List.replicate z (0 : Byte)
      ++ (Nat.digits 256 n).reverse.map (fun d => (Fin.ofNat d : Byte))).takeWhile
        (fun x => decide (x = 0)) = List.replicate z 0 :=
    takeWhile_replicate_append _ 0 z _ (by simp) (takeWhile_zero_bytes n)
  have hnat : base58.bytesToNat (List.replicate z (0 : Byte)
      ++ (Nat.digits 256 n).reverse.map (fun d => (Fin.ofNat d : Byte))) = n := by
    rw [bytesToNat_zeros, bytesToNat_bytes]
  refine ⟨_, hdec, ?_, ?_⟩
  · have hfuel2 : n < 58 ^ (2 * (List.replicate z (0 : Byte)
        ++ (Nat.digits 256 n).reverse.map (fun d => (Fin.ofNat d : Byte))).length) := by
      have h1 := bytesToNat_lt (List.replicate z (0 : Byte)
        ++ (Nat.digits 256 n).reverse.map (fun d => (Fin.ofNat d : Byte)))
      rw [hnat] at h1
      rw [pow_mul]
      exact lt_of_lt_of_le h1 (Nat.pow_le_pow_left (by decide) _)
    unfold base58.Encode
    rw [htake, hnat, List.length_replicate, digitsAux_eq _ n [] hfuel2, List.append_nil, hdig,
      List.reverse_reverse, List.map_map]
    have hchars : R.map (base58.digitChar ∘ base58.digitOf) = R := by
      conv_rhs => rw [← List.map_id R]
      apply List.map_congr_left
      intro c hc
      exact digitChar_digitOf c (hR c hc)
    rw [hchars, hcs]
  · rw [htake, List.length_replicate]
    simp only [String.toList]
    exact hz.symm

/-- C21: for every string made only of characters of the base-58 alphabet,
`decodeBase58` succeeds with a byte sequence whose `encodeBase58` is the string
again; the byte sequence has one leading zero byte per leading `1` of the string,
and the encoding has the length of the string (nothing is added). -/
theorem decodeBase58_roundtrip (s : String) (h : ∀ c ∈ s.toList, c ∈ base58.alphabet) :
    ∃ b, decodeBase58 s = Except.ok b ∧ encodeBase58 b = s ∧
      (b.takeWhile (fun x => decide (x = 0))).length
        = (s.toList.takeWhile (fun c => decide (c = '1'))).length ∧
      (encodeBase58 b).length = s.length := by
  obtain ⟨b, h1, h2, h3⟩ := Decode_Encode s h
  exact ⟨b, h1, h2, h3, by rw [show encodeBase58 b = s from h2]⟩

/-- C21 (witness): the string `112` decodes to the bytes 0, 0, 1, which encode to
`112`; the string `5T` decodes to the bytes 1, 2. -/
theorem decodeBase58_roundtrip_witness :
    (∀ c ∈ "112".toList, c ∈ base58.alphabet) ∧
    decodeBase58 "112" = Except.ok [0, 0, 1] ∧ encodeBase58 [0, 0, 1] = "112" ∧
    decodeBase58 "5T" = Except.ok [1, 2] ∧
    decodeBase58 "0" = Except.error "InvalidEncoding" ∧
    ∃ b, decodeBase58 "112" = Except.ok b ∧ encodeBase58 b = "112" ∧
      (b.takeWhile (fun x => decide (x = 0))).length
        = ("112".toList.takeWhile (fun c => decide (c = '1'))).length ∧
      (encodeBase58 b).length = "112".length :=
  ⟨by decide, rfl, by decide, rfl, rfl,
    decodeBase58_roundtrip "112" (by decide)⟩

/-- Subtraction of two converted `uint64` values: the `int64` value of the exact
difference. -/
theorem int64sub_toInt64 (a b : Int) :
    int64sub (toInt64 a) (toInt64 b) = toInt64 (a - b) := by
  unfold int64sub toInt64
  omega

/-- The conversion to `int64` keeps a value of the `int64` range, stays in that
range and differs from its argument by a multiple of `2^64`. -/
theorem toInt64_props (n : Int) :
    (-2 ^ 63 ≤ toInt64 n ∧ toInt64 n < 2 ^ 63) ∧ (toInt64 n - n) % 2 ^ 64 = 0 ∧
    (-2 ^ 63 ≤ n → n < 2 ^ 63 → toInt64 n = n) := by
  unfold toInt64
  refine ⟨⟨?_, ?_⟩, ?_, ?_⟩ <;> omega

/-- C22 (counterexample): an account with pre-balance 1 and post-balance `2^63 + 1`,
both 64-bit values, gets the balance change `-2^63`, not the difference `2^63`. -/
theorem ParseBlock_balanceChange_wraps :
    ∃ r, ParseBlock 0 MapOrder.insertion wideBalanceBlock = Except.ok (r, none) ∧
      r.TransactionAccounts.map
          (fun a => (a.AccountIndex, a.PreBalance, a.PostBalance, a.BalanceChange))
        = [(0, 1, 9223372036854775809, -9223372036854775808)] ∧
      ∃ row ∈ r.TransactionAccounts, 0 < row.PreBalance ∧ row.PreBalance < 2 ^ 64 ∧
        row.PostBalance < 2 ^ 64 ∧
        row.BalanceChange ≠ (row.PostBalance : Int) - (row.PreBalance : Int) :=
  ⟨_, rfl, by decide, _, List.mem_singleton_self _, by decide, by decide, by decide, by decide⟩

/-- C22 (amended): in every aggregate `ParseBlock` returns, for an account row whose
pre-balance and post-balance are both present, 64-bit values, with a positive
pre-balance, the balance change is the `int64` value of the difference
post-balance minus pre-balance: a value of the `int64` range that differs from
the difference by a multiple of `2^64`.  It is the exact difference whenever
the difference is of the `int64` range, in particular whenever both balances are
below `2^63`. -/
theorem ParseBlock_balanceChange_int64 (now : Time) (ord : MapOrder)
    (block : pb.SubscribeUpdateBlock) (r : ParsedBlock) (e : Option GoError)
    (h : ParseBlock now ord block = Except.ok (r, e)) :
    ∀ row ∈ r.TransactionAccounts, ∃ tx m,
      (sourceTransactions block)[row.TransactionIndex]? = some tx ∧ tx.IsVote = false ∧
      tx.Meta = some m ∧
      ∀ pre post : Nat, m.PreBalances[row.AccountIndex]? = some pre →
        m.PostBalances[row.AccountIndex]? = some post → 0 < pre → pre < 2 ^ 64 →
        post < 2 ^ 64 →
        row.PreBalance = pre ∧ row.PostBalance = post ∧
        row.BalanceChange = toInt64 ((post : Int) - (pre : Int)) ∧
        (-2 ^ 63 ≤ row.BalanceChange ∧ row.BalanceChange < 2 ^ 63) ∧
        (row.BalanceChange - ((post : Int) - (pre : Int))) % 2 ^ 64 = 0 ∧
        (-2 ^ 63 ≤ (post : Int) - (pre : Int) → (post : Int) - (pre : Int) < 2 ^ 63 →
          row.BalanceChange = (post : Int) - (pre : Int)) ∧
        (pre < 2 ^ 63 → post < 2 ^ 63 → row.BalanceChange = (post : Int) - (pre : Int)) := by
  intro row hrow
  obtain ⟨tx, msg, m, keys, header, key, htx, hv, _, hm, _, _, _, hrw⟩ :=
    mem_accounts now ord block r e h row hrow
  have hf := parseAccountRow_fields now block.Slot row.TransactionIndex header m keys
    row.AccountIndex key
  rw [← hrw] at hf
  obtain ⟨_, _, hpreB, hpostB, hbc, _⟩ := hf
  refine ⟨tx, m, htx, hv, hm, ?_⟩
  intro pre post hpre hpost hpos _ _
  have hlt : row.AccountIndex < m.PostBalances.length :=
    (List.getElem?_eq_some_iff.mp hpost).1
  rw [hpre, hpost] at hbc
  rw [hpre] at hpreB
  rw [hpost] at hpostB
  simp only [Option.getD_some, hlt, hpos, and_self, if_true] at hbc hpreB hpostB
  rw [int64sub_toInt64] at hbc
  have hp := toInt64_props ((post : Int) - (pre : Int))
  rw [← hbc] at hp
  refine ⟨hpreB, hpostB, hbc, hp.1, hp.2.1, hp.2.2, ?_⟩
  intro h1 h2
  apply hp.2.2 <;> omega

/-- C22 (witness): in the sample block the account of index 0 has the pre-balance 10
and the post-balance 7, both below `2^63`, and its row the balance change
`7 - 10`. -/
theorem ParseBlock_balanceChange_int64_witness :
    ParseBlock 7 MapOrder.insertion voteFirstBlock
      = Except.ok (aggregateOf 7 MapOrder.insertion voteFirstBlock, none) ∧
    (aggregateOf 7 MapOrder.insertion voteFirstBlock).TransactionAccounts.map
      (fun a => (a.AccountIndex, a.PreBalance, a.PostBalance, a.BalanceChange))
      = [(0, 10, 7, -3), (1, 0, 3, 0), (2, 8, 8, 0), (3, 0, 1, 0)] ∧
    ∃ row ∈ (aggregateOf 7 MapOrder.insertion voteFirstBlock).TransactionAccounts,
      row.TransactionIndex = 1 ∧ row.AccountIndex = 0 ∧
      sampleMeta.PreBalances[0]? = some 10 ∧ sampleMeta.PostBalances[0]? = some 7 ∧
      row.BalanceChange = toInt64 ((7 : Int) - (10 : Int)) ∧
      row.BalanceChange = (7 : Int) - (10 : Int) := by
  refine ⟨rfl, rfl, ?_⟩
  obtain ⟨row, hrow⟩ : ∃ row,
      (aggregateOf 7 MapOrder.insertion voteFirstBlock).TransactionAccounts[0]? = some row :=
    ⟨_, rfl⟩
  have hmem := List.getElem?_mem hrow
  have hidx : row.TransactionIndex = 1 ∧ row.AccountIndex = 0 := by
    cases hrow
    exact ⟨rfl, rfl⟩
  obtain ⟨tx, m, htx, _, hm, hall⟩ :=
    ParseBlock_balanceChange_int64 7 MapOrder.insertion voteFirstBlock
      (aggregateOf 7 MapOrder.insertion voteFirstBlock) none rfl row hmem
  rw [hidx.1] at htx
  rw [hidx.2] at hall
  have htx1 : tx = sampleTx := (Option.some.inj htx).symm
  subst htx1
  have hm1 : m = sampleMeta := (Option.some.inj hm).symm
  subst hm1
  have hrow1 := hall 10 7 rfl rfl (by decide) (by decide) (by decide)
  exact ⟨row, hmem, hidx.1, hidx.2, rfl, rfl, hrow1.2.2.1,
    hrow1.2.2.2.2.2.2 (by decide) (by decide)⟩

/-- Rows grouped by position have distinct keys when the key of a row holds its
position and the rows of each position have distinct keys. -/
theorem nodup_flatMap_key {α β γ : Type} (key : β → γ) (pos : γ → Nat)
    (f : Nat × α → List β) :
    ∀ (l : List (Nat × α)), (l.map (fun p => p.1)).Nodup →
      (∀ p ∈ l, ∀ b ∈ f p, pos (key b) = p.1) →
      (∀ p ∈ l, ((f p).map key).Nodup) →
      ((l.flatMap f).map key).Nodup := by
  intro l
  induction l with
  | nil => intro _ _ _; exact List.nodup_nil
  | cons p rest ih =>
    intro hnd hpos hrows
    rw [List.map_cons, List.nodup_cons] at hnd
    rw [List.flatMap_cons, List.map_append, List.nodup_append]
    refine ⟨hrows p (List.mem_cons_self _ _),
      ih hnd.2 (fun q hq => hpos q (List.mem_cons_of_mem _ hq))
        (fun q hq => hrows q (List.mem_cons_of_mem _ hq)), ?_⟩
    intro k hk1 hk2
    obtain ⟨b1, hb1, rfl⟩ := List.mem_map.mp hk1
    obtain ⟨b2, hb2, hkey⟩ := List.mem_map.mp hk2
    obtain ⟨q, hq, hb2q⟩ := List.mem_flatMap.mp hb2
    have h1 := hpos p (List.mem_cons_self _ _) b1 hb1
    have h2 := hpos q (List.mem_cons_of_mem _ hq) b2 hb2q
    rw [hkey, h1] at h2
    exact hnd.1 (List.mem_map.mpr ⟨q, hq, h2.symm⟩)

/-- Rows with distinct indices have distinct keys, when the key holds the index. -/
theorem nodup_key_of_index {β γ : Type} (key : β → γ) (idx : β → Nat) (proj : γ → Nat)
    (rows : List β) (hproj : ∀ b, proj (key b) = idx b) (h : (rows.map idx).Nodup) :
    (rows.map key).Nodup := by
  have h1 : rows.map idx = (rows.map key).map proj := by
    rw [List.map_map]
    exact List.map_congr_left (fun b _ => (hproj b).symm)
  rw [h1] at h
  exact List.Nodup.of_map proj h

/-- The keys of the log rows do not depend on the instruction rows accumulated so
far. -/
theorem parseLogs_map_key (now : Time) (slot i : Nat) (instructions : List Instruction)
    (tx : pb.SubscribeUpdateTransactionInfo) :
    (parseLogs now slot i instructions tx).map TransactionLog.key
      = (parseLogs now slot i [] tx).map TransactionLog.key := by
  unfold parseLogs
  cases hm : tx.Meta with
  | none => rfl
  | some m =>
    dsimp only
    cases hl : m.LogMessages with
    | none => rfl
    | some logs =>
      dsimp only
      rw [List.map_map, List.map_map]
      apply List.map_congr_left
      intro p _
      cases instructions <;> rfl

/-- The keys of the log rows, transaction by transaction. -/
theorem logsFrom_map_key (now : Time) (slot : Nat) :
    ∀ (txs : List pb.SubscribeUpdateTransactionInfo) (i : Nat) (instructions : List Instruction),
      (logsFrom now slot i txs instructions).map TransactionLog.key
        = ((nonVoteFrom i txs).flatMap (fun p => parseLogs now slot p.1 [] p.2)).map
            TransactionLog.key := by
  intro txs
  induction txs with
  | nil => intro i instructions; rfl
  | cons tx rest ih =>
    intro i instructions
    cases hv : tx.IsVote with
    | true =>
      rw [nonVoteFrom_cons_vote i tx rest hv]
      simp only [logsFrom, hv, if_true]
      exact ih (i + 1) instructions
    | false =>
      rw [nonVoteFrom_cons_nonVote i tx rest hv]
      simp only [logsFrom, hv, Bool.false_eq_true, if_false, List.flatMap_cons, List.map_append]
      rw [parseLogs_map_key, ih]

/-- The log rows of one transaction have distinct keys. -/
theorem parseLogs_nodup (now : Time) (slot i : Nat) (instructions : List Instruction)
    (tx : pb.SubscribeUpdateTransactionInfo) :
    ((parseLogs now slot i instructions tx).map TransactionLog.key).Nodup := by
  apply nodup_key_of_index TransactionLog.key (fun a => a.LogIndex) (fun k => k.2.2) _
    (fun _ => rfl)
  unfold parseLogs
  cases hm : tx.Meta with
  | none => exact List.nodup_nil
  | some m =>
    dsimp only
    cases hl : m.LogMessages with
    | none => exact List.nodup_nil
    | some logs =>
      dsimp only
      rw [(map_enum_rows logs (parseLog now slot i instructions) (fun a => a.LogIndex)
        (fun a => a.Log) (fun log => log)
        (fun j log => (parseLog_fields now slot i instructions j log).1)
        (fun j log => (parseLog_fields now slot i instructions j log).2)).1]
      exact List.nodup_range _

/-- The instruction rows of one transaction have distinct keys. -/
theorem txInstructions_nodup (now : Time) (slot i : Nat)
    (tx : pb.SubscribeUpdateTransactionInfo) :
    ((txInstructions now slot i tx).map Instruction.key).Nodup := by
  apply nodup_key_of_index Instruction.key (fun a => a.InstructionIndex) (fun k => k.2.2) _
    (fun _ => rfl)
  unfold txInstructions
  cases txMessage tx with
  | none => exact List.nodup_nil
  | some msg =>
    dsimp only
    unfold parseInstructions
    rw [(map_enum_rows msg.Instructions (parseInstruction now slot i msg)
      (fun a => a.InstructionIndex) (fun a => a.Data) (fun inst => inst.Data)
      (fun j inst => (parseInstruction_key now slot i msg j inst).2.2.1)
      (fun j inst => (parseInstruction_key now slot i msg j inst).2.2.2.2)).1]
    exact List.nodup_range _

/-- The account rows of one transaction have distinct keys. -/
theorem txAccounts_nodup (now : Time) (slot i : Nat) (tx : pb.SubscribeUpdateTransactionInfo)
    (m : pb.TransactionStatusMeta) (hmeta : tx.Meta = some m) :
    ((rowsOf (txAccounts now slot i tx)).map TransactionAccount.key).Nodup := by
  cases hr : txAccounts now slot i tx with
  | error p => exact List.nodup_nil
  | ok rows =>
    apply nodup_key_of_index TransactionAccount.key (fun a => a.AccountIndex) (fun k => k.2.2) _
      (fun _ => rfl)
    simp only [rowsOf]
    rcases txAccounts_rows now slot i tx m hmeta rows hr with ⟨_, h2⟩ |
      ⟨msg, keys, header, _, _, _, h2⟩
    · rw [h2]; exact List.nodup_nil
    · rw [h2, (map_enum_rows keys (parseAccountRow now slot i header m keys)
        (fun a => a.AccountIndex) (fun a => a.Pubkey) (fun key => base58.Encode key)
        (fun j key => (parseAccountRow_key now slot i header m keys j key).2.2)
        (fun j key => (parseAccountRow_fields now slot i header m keys j key).2.2.2.2.2.1)).1]
      exact List.nodup_range _

/-- The transaction row of one transaction has a key of its own. -/
theorem txRow_nodup (now bt : Time) (slot : Nat) (bh : String) (i : Nat)
    (tx : pb.SubscribeUpdateTransactionInfo) :
    ((txRow now bt slot bh i tx).map Transaction.key).Nodup := by
  unfold txRow
  cases tx.Meta with
  | none => exact List.nodup_nil
  | some m => exact List.nodup_singleton _

/-- C23: in every aggregate `ParseBlock` returns, the composite keys are unique within
each collection: no two transaction rows share slot and transaction index; no two
instruction rows share slot, transaction index and instruction index; no two account
rows share slot, transaction index and account index; no two log rows share slot,
transaction index and log index; and no two token-balance rows share slot,
transaction index and account index, whatever the source token-balance lists
repeat.  `ParseBlock` returns on every complete block. -/
theorem ParseBlock_keys_unique (now : Time) (ord : MapOrder) (block : pb.SubscribeUpdateBlock) :
    (∀ r e, ParseBlock now ord block = Except.ok (r, e) →
      (r.Transactions.map Transaction.key).Nodup ∧
      (r.TransactionInstructions.map Instruction.key).Nodup ∧
      (r.TransactionAccounts.map TransactionAccount.key).Nodup ∧
      (r.TransactionLogs.map TransactionLog.key).Nodup ∧
      (r.TransactionTokenBalances.map TransactionTokenBalance.key).Nodup) ∧
    (completeBlock block = true → ∃ r, ParseBlock now ord block = Except.ok (r, none)) := by
  refine ⟨?_, fun hc => ⟨_, ParseBlock_returns_of_complete now ord block hc⟩⟩
  intro r e h
  obtain ⟨_, hall, hr⟩ := (ParseBlock_ok_iff now ord block r e).mp h
  have hnd := nodup_nonVoteFrom 0 (sourceTransactions block)
  refine ⟨?_, ?_, ?_, ?_, ?_⟩
  · rw [hr]
    simp only [aggregateOf]
    exact nodup_flatMap_key Transaction.key (fun k => k.2) _ _ hnd
      (fun p _ b hb => (txRow_index now _ block.Slot block.Blockhash p.1 p.2 b hb).2)
      (fun p _ => txRow_nodup now _ block.Slot block.Blockhash p.1 p.2)
  · rw [hr]
    simp only [aggregateOf]
    exact nodup_flatMap_key Instruction.key (fun k => k.2.1) _ _ hnd
      (fun p _ b hb => (txInstructions_key now block.Slot p.1 p.2 b hb).2)
      (fun p _ => txInstructions_nodup now block.Slot p.1 p.2)
  · rw [hr]
    simp only [aggregateOf]
    exact nodup_flatMap_key TransactionAccount.key (fun k => k.2.1) _ _ hnd
      (fun p _ b hb => (txAccounts_key now block.Slot p.1 p.2 b hb).2)
      (fun p hp => by
        obtain ⟨⟨m, hm⟩, _⟩ := hall p hp
        exact txAccounts_nodup now block.Slot p.1 p.2 m hm)
  · rw [hr]
    simp only [aggregateOf]
    rw [logsFrom_map_key]
    exact nodup_flatMap_key TransactionLog.key (fun k => k.2.1) _ _ hnd
      (fun p _ b hb => (parseLogs_key now block.Slot p.1 [] p.2 b hb).2)
      (fun p _ => parseLogs_nodup now block.Slot p.1 [] p.2)
  · have hrows : ∀ p ∈ nonVoteFrom 0 (sourceTransactions block),
        ((rowsOf (txTokenBalances now ord block.Slot p.1 p.2)).map
          TransactionTokenBalance.key).Nodup := by
      rintro ⟨i, tx⟩ hp
      obtain ⟨htx, hv⟩ := (mem_nonVote_source block i tx).mp hp
      have hpos := tokenBalances_of_position now ord block r e h i tx htx hv
      apply nodup_key_of_index TransactionTokenBalance.key (fun a => a.AccountIndex)
        (fun k => k.2.2) _ (fun _ => rfl)
      dsimp only
      rw [hpos]
      simp only [rowsOf]
      rcases txTokenBalances_rows now ord block.Slot i tx _ hpos with ⟨h0, _⟩ |
        ⟨msg, m, pre, _, _, hmsg, hm, hpre, _, _, _⟩
      · rw [h0]; exact List.nodup_nil
      · exact (tokenBalance_indices_of_present_pre now ord block r e h i tx msg m pre
          htx hv hmsg hm hpre).1
    rw [hr]
    simp only [aggregateOf]
    exact nodup_flatMap_key TransactionTokenBalance.key (fun k => k.2.1) _ _ hnd
      (fun p _ b hb => (txTokenBalances_key now ord block.Slot p.1 p.2 b hb).2)
      hrows

/-- C23 (witness): a block whose pre-token-balance list repeats the account index 2
and whose post-token-balance list repeats the index 5 is complete; the aggregate of
it has the two token-balance keys of the indices 2 and 5, each once, and the sample
block gives aggregates with distinct keys in every collection. -/
theorem ParseBlock_keys_unique_witness :
    completeBlock repeatedIndexBlock = true ∧
    (sourceTransactions repeatedIndexBlock).map (fun tx => tx.Meta.map (fun m =>
        (m.PreTokenBalances.map (fun l => l.map (fun b => b.AccountIndex)),
          m.PostTokenBalances.map (fun b => b.AccountIndex))))
      = [some (some [2, 2], [2, 5, 5])] ∧
    ParseBlock 0 MapOrder.insertion repeatedIndexBlock
      = Except.ok (aggregateOf 0 MapOrder.insertion repeatedIndexBlock, none) ∧
    (aggregateOf 0 MapOrder.insertion repeatedIndexBlock).TransactionTokenBalances.map
        TransactionTokenBalance.key = [(7, 0, 2), (7, 0, 5)] ∧
    ((aggregateOf 0 MapOrder.insertion repeatedIndexBlock).TransactionTokenBalances.map
        TransactionTokenBalance.key).Nodup ∧
    (∃ r, ParseBlock 0 MapOrder.insertion repeatedIndexBlock = Except.ok (r, none)) ∧
    ((aggregateOf 7 MapOrder.insertion voteFirstBlock).Transactions.map Transaction.key).Nodup ∧
    (aggregateOf 7 MapOrder.insertion voteFirstBlock).TransactionLogs.map TransactionLog.key
      = [(100, 1, 0), (100, 1, 1)] :=
  have h := ParseBlock_keys_unique 0 MapOrder.insertion repeatedIndexBlock
  ⟨rfl, rfl, rfl, rfl,
    (h.1 (aggregateOf 0 MapOrder.insertion repeatedIndexBlock) none rfl).2.2.2.2,
    h.2 rfl,
    ((ParseBlock_keys_unique 7 MapOrder.insertion voteFirstBlock).1
      (aggregateOf 7 MapOrder.insertion voteFirstBlock) none rfl).1,
    rfl⟩

end parser

end GoBlockStore
